import Mathlib

/-!
Verification development for the nyc-eats repository.

This file gives a shallow embedding, in Lean 4, of the two core subsystems of
the repository:

* the cross-source matching and deduplication engine of build.py
  (the normalizer functions, the three-pass merge algorithm of
  merge_cross_source), and
* the resumable external-verification ledger of crossref.py
  (sync_venues and the per-provider check functions check_yelp,
  check_google, check_opentable and check_tripadvisor).

Conventions used by the embedding:

* Python strings are Lean Strings (lists of Chars); the inputs handled by the
  program are ASCII, so Char.toLower models str.lower and an explicit
  whitespace predicate models the regex class of whitespace characters.
* Python dict-shaped venue records become the structure Rec; the Python
  object identity id(v), used by merge_cross_source for claimed-set tracking
  and for the no-address bucket keys, becomes an explicit record identity
  field rid, assumed pairwise distinct across an input list (distinct CPython
  objects have distinct ids).
* difflib.SequenceMatcher(None, a, b).ratio() is embedded exactly (the
  longest-matching-block recursion, the junk-free extension loops, and the
  autojunk rule for strings of length at least 200), returning an exact
  rational; Python computes the same quantity in floating point.
* The haversine distance _haversine_m is floating-point trigonometry and has
  no exact executable counterpart; since merge_cross_source uses distances
  only through order comparisons (strictly-closer tests and the 30 m radius
  test), the geo pass is embedded with the distance function as an explicit
  rational-valued parameter standing for _haversine_m.
* The SQLite table of crossref.py becomes a list of rows in insertion order
  (rowid order, which is the order an unordered SELECT iterates); an open
  connection is a pair of the last committed table state and the current
  table state, and conn.commit() copies current over committed.  External
  HTTP calls are a parameter mapping a row key to the stubbed response.
-/

namespace NYCEats

/-! ## Character and string utilities (Python semantics) -/

/-- Python regex whitespace class for the ASCII inputs handled here. -/
def pySpace (c : Char) : Bool :=
  c == ' ' || c == '\t' || c == '\n' || c == '\r' || c == '\x0b' || c == '\x0c'

/-- Python regex word character class (ASCII): letters, digits, underscore. -/
def pyWord (c : Char) : Bool :=
  c.isAlpha || c.isDigit || c == '_'

/-- str.strip for a character list: drop leading and trailing whitespace. -/
def stripWs (l : List Char) : List Char :=
  ((l.dropWhile pySpace).reverse.dropWhile pySpace).reverse

/-- One step of collapsing whitespace runs to a single space; the flag
records whether the previous emitted character was part of a run. -/
def collapseWsAux : Bool → List Char → List Char
  | _, [] => []
  | prevSpace, c :: cs =>
    if pySpace c then
      if prevSpace then collapseWsAux true cs else ' ' :: collapseWsAux true cs
    else c :: collapseWsAux false cs

/-- Replace every whitespace run by a single space character. -/
def collapseWs (l : List Char) : List Char := collapseWsAux false l

/-- _normalize from build.py: lowercase, strip, collapse whitespace runs. -/
def pyNormalize (s : String) : String :=
  String.mk (collapseWs (stripWs (s.data.map Char.toLower)))

/-- str.lower().strip() as used by _name_similarity and venue_key. -/
def pyLowerStrip (s : String) : String :=
  String.mk (stripWs (s.data.map Char.toLower))

/-- Whether the list starts with the word aka followed by a word boundary,
the left boundary being checked by the caller. -/
def akaHere : List Char → Bool
  | 'a' :: 'k' :: 'a' :: rest =>
    match rest with
    | [] => true
    | r :: _ => !pyWord r
  | _ => false

/-- Scanner for the aka-stripping regex; prevWord is the word-character
status of the previous character, giving the word-boundary test. -/
def stripAkaAux : Bool → List Char → List Char
  | _, [] => []
  | prevWord, c :: cs =>
    if !prevWord && akaHere (c :: cs) then []
    else c :: stripAkaAux (pyWord c) cs

/-- The aka substitution of _normalize_addr: delete everything from a
whole-word occurrence of aka to the end of the string. -/
def stripAka (l : List Char) : List Char := stripAkaAux false l

/-- The punctuation substitution of _normalize_addr: period, comma, hash,
hyphen and apostrophe each become a space. -/
def mapPunct (c : Char) : Char :=
  if c == '.' || c == ',' || c == '#' || c == '-' || c == '\'' then ' ' else c

/-- Collapse whitespace then strip, as the repeated cleanup steps do. -/
def collapseStrip (l : List Char) : List Char := stripWs (collapseWs l)

/-- The unit designator keywords of the trailing-designator regex, in the
order the alternation lists them. -/
def designators : List String :=
  ["ste", "suite", "apt", "unit", "fl", "floor", "rm", "room", "#"]

/-- The tail condition of the designator regex: optional whitespace, then a
run of non-whitespace, then end of string. -/
def desigTailOk (r : List Char) : Bool :=
  (r.dropWhile pySpace).all (fun c => !pySpace c)

/-- Whether the trailing-designator regex matches starting at this suffix:
whitespace, a designator keyword, then the tail condition to end of string. -/
def desigHere (l : List Char) : Bool :=
  match l with
  | [] => false
  | c :: _ =>
    pySpace c &&
      (let r := l.dropWhile pySpace
       designators.any (fun d => d.data.isPrefixOf r && desigTailOk (r.drop d.length)))

/-- Scanner for the trailing-designator regex: cut at the leftmost position
where the anchored-at-end match succeeds. -/
def stripDesigAux : List Char → List Char
  | [] => []
  | c :: cs => if desigHere (c :: cs) then [] else c :: stripDesigAux cs

/-- The trailing unit/suite/floor designator substitution of _normalize_addr. -/
def stripDesig (l : List Char) : List Char := stripDesigAux l

/-- Whether the token has the shape digits, one lowercase letter, digits,
the token shape of the bare trailing unit regex. -/
def unitTok (t : List Char) : Bool :=
  let rest := t.dropWhile Char.isDigit
  match rest with
  | c :: cs => ('a' ≤ c && c ≤ 'z') && cs.all Char.isDigit
  | [] => false

/-- The last maximal run of non-whitespace characters in the list. -/
def lastTok (l : List Char) : List Char :=
  (l.reverse.takeWhile (fun c => !pySpace c)).reverse

/-- Remove the last token together with the whitespace run before it. -/
def dropLastTok (l : List Char) : List Char :=
  (((l.reverse.dropWhile (fun c => !pySpace c))).dropWhile pySpace).reverse

/-- The bare trailing unit substitution of _normalize_addr: a final token of
shape digits-letter-digits preceded by whitespace is removed. -/
def stripUnitTok (l : List Char) : List Char :=
  if unitTok (lastTok l) && (lastTok l).length < l.length then dropLastTok l else l

/-- The trailing pure number substitution of _normalize_addr: a final
all-digit token preceded by whitespace is removed. -/
def stripTrailNum (l : List Char) : List Char :=
  let t := lastTok l
  if !t.isEmpty && t.all Char.isDigit && t.length < l.length then dropLastTok l else l

/-- Whether an ordinal suffix st, nd, rd or th sits here, followed by a word
boundary. -/
def ordSuffixHere : List Char → Bool
  | c1 :: c2 :: rest =>
    ((c1 == 's' && c2 == 't') || (c1 == 'n' && c2 == 'd') ||
     (c1 == 'r' && c2 == 'd') || (c1 == 't' && c2 == 'h')) &&
      (match rest with
       | [] => true
       | r :: _ => !pyWord r)
  | _ => false

/-- Scanner for the ordinal-suffix regex: at a word boundary, a digit run
followed by an ordinal suffix and a word boundary keeps the digits and drops
the suffix.  The fuel argument only bounds the recursion structurally; every
step consumes at least one character, so fuel equal to the list length is
always enough. -/
def stripOrdAux : Nat → Bool → List Char → List Char
  | 0, _, l => l
  | _ + 1, _, [] => []
  | fuel + 1, prevWord, c :: cs =>
    if !prevWord && c.isDigit then
      let run := (c :: cs).takeWhile Char.isDigit
      let rest := (c :: cs).drop run.length
      if ordSuffixHere rest then run ++ stripOrdAux fuel true (rest.drop 2)
      else c :: stripOrdAux fuel true cs
    else c :: stripOrdAux fuel (pyWord c) cs

/-- The ordinal-suffix substitution of _normalize_addr. -/
def stripOrd (l : List Char) : List Char := stripOrdAux l.length false l

/-- str.split() semantics: split on whitespace runs, dropping empty pieces;
cur accumulates the current token reversed. -/
def splitWsAux (cur : List Char) : List Char → List (List Char)
  | [] => if cur.isEmpty then [] else [cur.reverse]
  | c :: cs =>
    if pySpace c then
      if cur.isEmpty then splitWsAux [] cs else cur.reverse :: splitWsAux [] cs
    else splitWsAux (c :: cur) cs

/-- str.split() with no separator argument. -/
def splitWs (l : List Char) : List (List Char) := splitWsAux [] l

/-- The _SUFFIXES table of _normalize_addr. -/
def SUFFIXES : List (String × String) :=
  [("st", "street"), ("str", "street"),
   ("ave", "avenue"), ("av", "avenue"),
   ("blvd", "boulevard"), ("bvd", "boulevard"),
   ("dr", "drive"),
   ("ln", "lane"),
   ("pl", "place"),
   ("rd", "road"),
   ("ct", "court"),
   ("cir", "circle"),
   ("ter", "terrace"), ("terr", "terrace"),
   ("pkwy", "parkway"), ("pky", "parkway"),
   ("hwy", "highway"), ("hgwy", "highway"),
   ("sq", "square"),
   ("tpke", "turnpike"),
   ("expy", "expressway"), ("expwy", "expressway"),
   ("e", "east"), ("w", "west"), ("n", "north"), ("s", "south"),
   ("saint", "st")]

/-- Dictionary get with default: _SUFFIXES.get(p, p). -/
def suffixLookup (t : String) : String :=
  ((SUFFIXES.find? (fun p => p.1 == t)).map (·.2)).getD t

/-- _normalize_addr from build.py, step for step: normalize, strip the aka
suffix, replace punctuation by spaces and re-collapse, strip a trailing
designator, a bare trailing unit token and a trailing pure number,
re-collapse, strip ordinal suffixes, then expand the suffix table per
token. -/
def normalizeAddr (s : String) : String :=
  let l0 := (pyNormalize s).data
  let l1 := stripAka l0
  let l2 := collapseStrip (l1.map mapPunct)
  let l3 := stripDesig l2
  let l4 := stripUnitTok l3
  let l5 := stripTrailNum l4
  let l6 := collapseStrip l5
  let l7 := stripOrd l6
  String.intercalate " " ((splitWs l7).map (fun t => suffixLookup (String.mk t)))

/-! ## difflib.SequenceMatcher ratio

merge_cross_source scores name similarity with
SequenceMatcher(None, a, b).ratio() and crossref.py wraps the same call in
_name_similarity.  The matcher is embedded exactly for isjunk None: b2j
drops popular elements under the autojunk rule (strings of length at least
200), the longest-match search is the j2len dynamic program followed by the
two non-junk extension loops, and the two junk-adjacent extension loops are
omitted because the junk set is empty when isjunk is None. -/

/-- The autojunk rule of SequenceMatcher.__chain_b: for b of length at least
200, elements occurring more than length/100 + 1 times are dropped from
b2j. -/
def smPopular (b : List Char) (c : Char) : Bool :=
  decide (200 ≤ b.length) && decide (b.length / 100 + 1 < b.count c)

/-- b2j lookup: the ascending positions of c in b, empty for popular c. -/
def smB2j (b : List Char) (c : Char) : List Nat :=
  if smPopular b c then []
  else (List.range b.length).filter (fun j => b.getD j ' ' == c)

/-- One row of the find_longest_match dynamic program: fold over the
positions of a-row character ai in b, building the new j2len table and
updating the running best block.  Python indexes j2len at j-1, where j-1 is
-1 for j = 0 and dict.get returns the default 0. -/
def smRow (blo bhi : Nat) (js : List Nat) (j2len : Nat → Nat) (i : Nat)
    (best : Nat × Nat × Nat) : (Nat → Nat) × (Nat × Nat × Nat) :=
  js.foldl
    (fun acc j =>
      if blo ≤ j && j < bhi then
        let k := (if j == 0 then 0 else j2len (j - 1)) + 1
        ((fun x => if x == j then k else acc.1 x),
         if acc.2.2.2 < k then (i + 1 - k, j + 1 - k, k) else acc.2)
      else acc)
    ((fun _ => 0), best)

/-- The outer loop of the find_longest_match dynamic program over the rows
alo..ahi-1 of a. -/
def smRows (a b : List Char) (blo bhi : Nat) :
    List Nat → (Nat → Nat) → Nat × Nat × Nat → Nat × Nat × Nat
  | [], _, best => best
  | i :: rest, j2len, best =>
    let step := smRow blo bhi (smB2j b (a.getD i ' ')) j2len i best
    smRows a b blo bhi rest step.1 step.2

/-- The first extension loop of find_longest_match: extend the best block
leftwards over equal characters (the junk test is vacuous for isjunk
None). -/
def smExtLeft (a b : List Char) (alo blo : Nat) :
    Nat → Nat → Nat → Nat × Nat × Nat
  | 0, bestj, bestsize => (0, bestj, bestsize)
  | bi + 1, bestj, bestsize =>
    if alo < bi + 1 && blo < bestj && (a.getD bi ' ' == b.getD (bestj - 1) ' ') then
      smExtLeft a b alo blo bi (bestj - 1) (bestsize + 1)
    else (bi + 1, bestj, bestsize)

/-- The second extension loop of find_longest_match: extend the best block
rightwards over equal characters, with fuel bounding the climb. -/
def smExtRight (a b : List Char) (ahi bhi besti bestj : Nat) :
    Nat → Nat → Nat
  | 0, bestsize => bestsize
  | fuel + 1, bestsize =>
    if besti + bestsize < ahi && bestj + bestsize < bhi &&
        (a.getD (besti + bestsize) ' ' == b.getD (bestj + bestsize) ' ') then
      smExtRight a b ahi bhi besti bestj fuel (bestsize + 1)
    else bestsize

/-- SequenceMatcher.find_longest_match on the window a[alo:ahi], b[blo:bhi]:
the dynamic program, then the two non-junk extension loops. -/
def findLongestMatch (a b : List Char) (alo ahi blo bhi : Nat) : Nat × Nat × Nat :=
  let best := smRows a b blo bhi (List.range' alo (ahi - alo)) (fun _ => 0) (alo, blo, 0)
  let left := smExtLeft a b alo blo best.1 best.2.1 best.2.2
  let size := smExtRight a b ahi bhi left.1 left.2.1 ahi left.2.2
  (left.1, left.2.1, size)

/-- The total size of the matching blocks found by the recursive splitting
of get_matching_blocks, with explicit fuel for the recursion depth. -/
def matchTotal (a b : List Char) : Nat → Nat → Nat → Nat → Nat → Nat
  | 0, _, _, _, _ => 0
  | fuel + 1, alo, ahi, blo, bhi =>
    let m := findLongestMatch a b alo ahi blo bhi
    if m.2.2 = 0 then 0
    else
      matchTotal a b fuel alo m.1 blo m.2.1 + m.2.2 +
        matchTotal a b fuel (m.1 + m.2.2) ahi (m.2.1 + m.2.2) bhi

/-- SequenceMatcher(None, a, b).ratio(): twice the matched total over the
summed lengths, and 1.0 when both strings are empty (difflib's
_calculate_ratio).  The quotient is built with Rat.divInt, the
kernel-reducible constructor of the same rational value. -/
def smRatio (a b : List Char) : ℚ :=
  let m := matchTotal a b (a.length + b.length + 1) 0 a.length 0 b.length
  if a.length + b.length = 0 then 1
  else Rat.divInt (2 * (m : Int)) ((a.length + b.length : Nat) : Int)

/-- SequenceMatcher ratio on strings, as Pass 3 of merge_cross_source
applies it to the normalized venue names. -/
def pyRatio (a b : String) : ℚ := smRatio a.data b.data

/-- Python substring containment a in b. -/
def isSubstr (a b : List Char) : Bool :=
  (List.range (b.length + 1)).any (fun i => a.isPrefixOf (b.drop i))

/-- _name_similarity from crossref.py: 1.0 for equal lowercased-stripped
strings, 0.85 when one contains the other, otherwise the SequenceMatcher
ratio. -/
def nameSimilarity (a b : String) : ℚ :=
  let a' := pyLowerStrip a
  let b' := pyLowerStrip b
  if a' == b' then 1
  else if isSubstr a'.data b'.data || isSubstr b'.data a'.data then mkRat 85 100
  else smRatio a'.data b'.data

/-- The _BORO_ALIASES table of build.py. -/
def BORO_ALIASES : List (String × String) :=
  [("manhattan", "manhattan"), ("new york", "manhattan"), ("ny", "manhattan"),
   ("brooklyn", "brooklyn"), ("bklyn", "brooklyn"), ("kings", "brooklyn"),
   ("queens", "queens"),
   ("bronx", "bronx"), ("the bronx", "bronx"),
   ("staten island", "staten island"), ("richmond", "staten island")]

/-- _normalize_boro from build.py: alias table lookup with the
lowercased-stripped input as the default. -/
def normalizeBoro (s : String) : String :=
  ((BORO_ALIASES.find? (fun p => p.1 == pyLowerStrip s)).map (·.2)).getD (pyLowerStrip s)

/-! ## Venue records and the cross-source merge of build.py -/

/-- A venue record, one Python dict produced by a fetcher.  rid models the
CPython object identity id(v): merge_cross_source keys its no-address
buckets and its claimed sets on id(v), and distinct list elements are
distinct objects with distinct ids.  Absent lat, lng or opened values are
none resp. the empty string, matching dict.get defaults. -/
structure Rec where
  rid : Nat
  source : String
  name : String := ""
  address : String := ""
  borough : String := ""
  lat : Option ℚ := none
  lng : Option ℚ := none
  tags : List String := []
  meta : List (String × String) := []
  opened : String := ""
  slaName : Option String := none
deriving DecidableEq, Repr

/-- Python truthiness of an optional coordinate: present and nonzero. -/
def qTruthy : Option ℚ → Bool
  | none => false
  | some q => q != 0

/-- list(dict.fromkeys(l)): deduplicate keeping first occurrences. -/
def dedupFirst (l : List String) : List String :=
  l.foldl (fun acc x => if acc.contains x then acc else acc ++ [x]) []

/-- dict.update for the ordered association lists modelling Python dicts:
keys of s override in place, new keys append in s order. -/
def dictUpdate (d s : List (String × String)) : List (String × String) :=
  s.foldl
    (fun acc kv =>
      if acc.any (fun p => p.1 == kv.1) then
        acc.map (fun p => if p.1 == kv.1 then (p.1, kv.2) else p)
      else acc ++ [kv])
    d

/-- _make_combined from build.py: copy the DOHMH record, set source both,
keep the SLA name aside, union tags keeping first occurrences, merge meta
with SLA values overriding, and keep the earlier opened date when both are
present.  The copied dict is a fresh Python object; its rid is kept as the
DOHMH rid purely for bookkeeping and is never consulted afterwards. -/
def makeCombined (d s : Rec) : Rec :=
  { d with
    source := "both"
    slaName := some s.name
    tags := dedupFirst (d.tags ++ s.tags)
    meta := dictUpdate d.meta s.meta
    opened :=
      if d.opened ≠ "" && s.opened ≠ "" then
        if d.opened ≤ s.opened then d.opened else s.opened
      else if s.opened ≠ "" then s.opened
      else d.opened }

/-- An entry of the merged output list: either a record passed through
unchanged, or the combined record _make_combined(d, s) tracked with its two
constituents. -/
inductive Out where
  | plain (r : Rec)
  | comb (d s : Rec)
deriving DecidableEq, Repr

/-- The record ids an output entry accounts for. -/
def outIds : Out → List Nat
  | .plain r => [r.rid]
  | .comb d s => [d.rid, s.rid]

/-- The rendered venue dict of an output entry. -/
def outRec : Out → Rec
  | .plain r => r
  | .comb d s => makeCombined d s

/-- The stats dict returned by merge_cross_source. -/
structure MergeStats where
  preMerge : Nat
  pass1 : Nat
  pass2 : Nat
  pass3 : Nat
  totalMerges : Nat
  postMerge : Nat
deriving DecidableEq, Repr

/-- Digit run to the number int() parses. -/
def digitsToNat (l : List Char) : Nat :=
  l.foldl (fun n c => n * 10 + (c.toNat - '0'.toNat)) 0

/-- _SINGLE_RE: match a leading number, whitespace, and a nonempty rest.
The trailing group backtracks one space out of the whitespace run when the
rest would otherwise be empty, exactly as the greedy regex does. -/
def singleRe (s : String) : Option (Nat × String) :=
  let l := s.data
  let ds := l.takeWhile Char.isDigit
  if ds.isEmpty then none
  else
    let after := l.drop ds.length
    let sp := after.takeWhile pySpace
    if sp.isEmpty then none
    else
      let rest := after.drop sp.length
      if !rest.isEmpty then some (digitsToNat ds, String.mk rest)
      else if 2 ≤ sp.length then some (digitsToNat ds, " ")
      else none

/-- _RANGE_RE: match two leading numbers separated by whitespace, then
whitespace and a nonempty rest, with the same backtracking tail. -/
def rangeRe (s : String) : Option (Nat × Nat × String) :=
  let l := s.data
  let ds1 := l.takeWhile Char.isDigit
  if ds1.isEmpty then none
  else
    let a1 := l.drop ds1.length
    let sp1 := a1.takeWhile pySpace
    if sp1.isEmpty then none
    else
      let a2 := a1.drop sp1.length
      let ds2 := a2.takeWhile Char.isDigit
      if ds2.isEmpty then none
      else
        let a3 := a2.drop ds2.length
        let sp2 := a3.takeWhile pySpace
        if sp2.isEmpty then none
        else
          let rest := a3.drop sp2.length
          if !rest.isEmpty then some (digitsToNat ds1, digitsToNat ds2, String.mk rest)
          else if 2 ≤ sp2.length then some (digitsToNat ds1, digitsToNat ds2, " ")
          else none

/-- The Queens block-lot test of _parse_range: the regex digits-hyphen-digits
anchored at the start. -/
def blockLot (l : List Char) : Bool :=
  let ds := l.takeWhile Char.isDigit
  !ds.isEmpty &&
    (match l.drop ds.length with
     | '-' :: c :: _ => c.isDigit
     | _ => false)

/-- _parse_range from build.py: reject block-lot addresses, normalize, match
the range regex, and accept only plausible ranges with high at least low and
a spread of at most 30. -/
def parseRange (rawAddr : String) : Option (Nat × Nat × String) :=
  let raw := String.mk (stripWs rawAddr.data)
  if blockLot raw.data then none
  else
    match rangeRe (normalizeAddr raw) with
    | some (lo, hi, street) =>
      if lo ≤ hi && hi - lo ≤ 30 then some (lo, hi, street) else none
    | none => none

/-- _parse_single_number from build.py, applied to an already-normalized
address. -/
def parseSingleNumber (normedAddr : String) : Option (Nat × String) :=
  singleRe normedAddr

/-! ### Association-list utilities for defaultdict and dict buckets -/

/-- defaultdict(list) append: extend the bucket of k, creating it at the end
in insertion order when absent, as Python dicts iterate. -/
def assocAppend {α β : Type} [BEq α] :
    List (α × List β) → α → β → List (α × List β)
  | [], k, v => [(k, [v])]
  | (k', g) :: rest, k, v =>
    if k' == k then (k', g ++ [v]) :: rest else (k', g) :: assocAppend rest k v

/-- Bucket lookup with the defaultdict empty default. -/
def lookupKey {α β : Type} [BEq α] (m : List (α × List β)) (k : α) : List β :=
  ((m.find? (fun p => p.1 == k)).map (·.2)).getD []

/-! ### Pass 1: exact address match -/

/-- The bucket key of a record: normalized (address, borough), or the unique
no-address key built from the object id for records whose normalized address
is empty. -/
def bucketKey (v : Rec) : String × String :=
  let addr := normalizeAddr v.address
  let boro := normalizeBoro v.borough
  if addr ≠ "" then (addr, boro) else ("_noaddr_" ++ toString v.rid, "")

/-- The by_key grouping loop of merge_cross_source. -/
def buildBuckets (venues : List Rec) : List ((String × String) × List Rec) :=
  venues.foldl (fun bs v => assocAppend bs (bucketKey v) v) []

/-- The accumulator of the Pass 1 loop: the merged output so far, the
unmatched SLA and DOHMH records, and the pass1 merge counter. -/
structure P1Acc where
  merged : List Out
  usla : List Rec
  udohmh : List Rec
  count : Nat
deriving Repr

/-- One bucket of Pass 1: when the bucket holds both sources, combine the
first DOHMH and first SLA record and pass the rest of the bucket through;
otherwise distribute the bucket by source. -/
def pass1Step (acc : P1Acc) (group : List Rec) : P1Acc :=
  match group.find? (fun v => v.source == "dohmh"),
        group.find? (fun v => v.source == "sla") with
  | some d, some s =>
    { acc with
      merged := acc.merged ++ [Out.comb d s] ++
        (group.filter (fun v => v.rid != d.rid && v.rid != s.rid)).map Out.plain
      count := acc.count + 1 }
  | _, _ =>
    { acc with
      merged := acc.merged ++
        (group.filter (fun v => v.source != "sla" && v.source != "dohmh")).map Out.plain
      usla := acc.usla ++ group.filter (fun v => v.source == "sla")
      udohmh := acc.udohmh ++ group.filter (fun v => v.source == "dohmh") }

/-- Pass 1 over all buckets in insertion order. -/
def pass1Run (buckets : List ((String × String) × List Rec)) : P1Acc :=
  buckets.foldl (fun acc b => pass1Step acc b.2) ⟨[], [], [], 0⟩

/-! ### Pass 2: numeric range match -/

/-- The dohmh_by_street index: unmatched DOHMH records with a parsable
single house number, keyed by normalized (street, borough). -/
def buildStreetIdx (udohmh : List Rec) :
    List ((String × String) × List (Nat × Rec)) :=
  udohmh.foldl
    (fun idx v =>
      match parseSingleNumber (normalizeAddr v.address) with
      | some (num, street) =>
        assocAppend idx (street, normalizeBoro v.borough) (num, v)
      | none => idx)
    []

/-- The accumulator of the Pass 2 and Pass 3 loops: merges made plus the
claimed-id sets range_merged_sla / range_merged_dohmh (and their geo
counterparts). -/
structure ClaimAcc where
  merged : List Out
  claimedSla : List Nat
  claimedDohmh : List Nat
deriving Repr

/-- One SLA record of Pass 2: parse its address as a range and combine with
the first unclaimed DOHMH candidate on the same street and borough whose
house number lies in the inclusive range. -/
def pass2Step (idx : List ((String × String) × List (Nat × Rec)))
    (acc : ClaimAcc) (slaV : Rec) : ClaimAcc :=
  match parseRange slaV.address with
  | none => acc
  | some (lo, hi, street) =>
    let boro := normalizeBoro slaV.borough
    let cands := lookupKey idx (street, boro)
    match cands.find?
        (fun p => lo ≤ p.1 && p.1 ≤ hi && !(acc.claimedDohmh.contains p.2.rid)) with
    | some p =>
      { merged := acc.merged ++ [Out.comb p.2 slaV]
        claimedSla := acc.claimedSla ++ [slaV.rid]
        claimedDohmh := acc.claimedDohmh ++ [p.2.rid] }
    | none => acc

/-- Pass 2 over the unmatched SLA records in order. -/
def pass2Run (idx : List ((String × String) × List (Nat × Rec)))
    (usla : List Rec) : ClaimAcc :=
  usla.foldl (pass2Step idx) ⟨[], [], []⟩

/-! ### Pass 3: geo-proximity fallback -/

/-- The grid cell size of merge_cross_source, about 33 m. -/
def CELL : ℚ := mkRat 3 10000

/-- The acceptance radius GEO_RADIUS_M. -/
def GEO_RADIUS_M : ℚ := 30

/-- The name-similarity gate GEO_NAME_THRESHOLD, the rational value of the
float literal 0.35. -/
def GEO_NAME_THRESHOLD : ℚ := mkRat 35 100

/-- Python int(a / b) on exact rationals: the quotient truncated toward
zero, computed on numerators and denominators so that it kernel-evaluates. -/
def truncDivQ (a b : ℚ) : Int :=
  Int.tdiv (a.num * (b.den : Int)) (b.num * (a.den : Int))

/-- The distance function of the geo pass.  The source calls _haversine_m,
floating-point spherical trigonometry; the pass consumes distances only
through order comparisons, so the embedding abstracts it as a parameter. -/
abbrev DistFn := ℚ → ℚ → ℚ → ℚ → ℚ

/-- The grid cell of a coordinate pair: int(lat / CELL), int(lng / CELL). -/
def cellOf (lat lng : ℚ) : Int × Int :=
  (truncDivQ lat CELL, truncDivQ lng CELL)

/-- The dohmh_geo_grid build: still-unmatched DOHMH records with truthy
coordinates, bucketed by grid cell. -/
def buildGeoGrid (stillDohmh : List Rec) : List ((Int × Int) × List Rec) :=
  stillDohmh.foldl
    (fun g v =>
      if qTruthy v.lat && qTruthy v.lng then
        assocAppend g (cellOf (v.lat.getD 0) (v.lng.getD 0)) v
      else g)
    []

/-- The 3 by 3 neighborhood offsets in the loop order of the source. -/
def neighborCells : List (Int × Int) :=
  [(-1, -1), (-1, 0), (-1, 1), (0, -1), (0, 0), (0, 1), (1, -1), (1, 0), (1, 1)]

/-- The candidates an SLA record scans: the contents of its own cell and the
eight neighboring cells, in loop order. -/
def pass3Cands (grid : List ((Int × Int) × List Rec)) (cell : Int × Int) :
    List Rec :=
  neighborCells.flatMap (fun d => lookupKey grid (cell.1 + d.1, cell.2 + d.2))

/-- The inner candidate scan of Pass 3: skip claimed candidates, and when a
candidate is strictly closer than the best so far, adopt it only if its
normalized name is similar enough to the SLA name. -/
def pass3Scan (dist : DistFn) (claimed : List Nat) (slat slng : ℚ)
    (slaName : String) (cands : List Rec) : Option (ℚ × Rec) :=
  cands.foldl
    (fun best dv =>
      if claimed.contains dv.rid then best
      else
        let d := dist slat slng (dv.lat.getD 0) (dv.lng.getD 0)
        if (match best with
            | none => true
            | some bd => decide (d < bd.1)) then
          if GEO_NAME_THRESHOLD ≤ pyRatio slaName (pyNormalize dv.name) then
            some (d, dv)
          else best
        else best)
    none

/-- One SLA record of Pass 3: with truthy coordinates, scan the 9 cells and
combine with the best surviving candidate when its distance is within the
radius. -/
def pass3Step (dist : DistFn) (grid : List ((Int × Int) × List Rec))
    (acc : ClaimAcc) (slaV : Rec) : ClaimAcc :=
  if !(qTruthy slaV.lat && qTruthy slaV.lng) then acc
  else
    let lat := slaV.lat.getD 0
    let lng := slaV.lng.getD 0
    let cands := pass3Cands grid (cellOf lat lng)
    match pass3Scan dist acc.claimedDohmh lat lng (pyNormalize slaV.name) cands with
    | some bd =>
      if bd.1 ≤ GEO_RADIUS_M then
        { merged := acc.merged ++ [Out.comb bd.2 slaV]
          claimedSla := acc.claimedSla ++ [slaV.rid]
          claimedDohmh := acc.claimedDohmh ++ [bd.2.rid] }
      else acc
    | none => acc

/-- Pass 3 over the still-unmatched SLA records in order. -/
def pass3Run (dist : DistFn) (grid : List ((Int × Int) × List Rec))
    (stillSla : List Rec) : ClaimAcc :=
  stillSla.foldl (pass3Step dist grid) ⟨[], [], []⟩

/-! ### The assembled merge -/

/-- All intermediate states of merge_cross_source, named so that theorems
can speak about the residue of each pass. -/
structure Pipeline where
  buckets : List ((String × String) × List Rec)
  p1 : P1Acc
  idx : List ((String × String) × List (Nat × Rec))
  p2 : ClaimAcc
  stillSla : List Rec
  stillDohmh : List Rec
  grid : List ((Int × Int) × List Rec)
  p3 : ClaimAcc
  finalSla : List Rec
  finalDohmh : List Rec

/-- The pipeline of merge_cross_source: Pass 1 buckets, Pass 2 over the
residue with the street index, the claimed-set filters, and Pass 3 over the
remaining records with the geo grid. -/
def mergePipeline (dist : DistFn) (venues : List Rec) : Pipeline :=
  let buckets := buildBuckets venues
  let p1 := pass1Run buckets
  let idx := buildStreetIdx p1.udohmh
  let p2 := pass2Run idx p1.usla
  let stillSla := p1.usla.filter (fun v => !(p2.claimedSla.contains v.rid))
  let stillDohmh := p1.udohmh.filter (fun v => !(p2.claimedDohmh.contains v.rid))
  let grid := buildGeoGrid stillDohmh
  let p3 := pass3Run dist grid stillSla
  let finalSla := stillSla.filter (fun v => !(p3.claimedSla.contains v.rid))
  let finalDohmh := stillDohmh.filter (fun v => !(p3.claimedDohmh.contains v.rid))
  ⟨buckets, p1, idx, p2, stillSla, stillDohmh, grid, p3, finalSla, finalDohmh⟩

/-- merge_cross_source from build.py: the merged output list in append
order and the stats dict. -/
def mergeCrossSource (dist : DistFn) (venues : List Rec) :
    List Out × MergeStats :=
  let pl := mergePipeline dist venues
  let outs := pl.p1.merged ++ pl.p2.merged ++ pl.p3.merged ++
    pl.finalSla.map Out.plain ++ pl.finalDohmh.map Out.plain
  (outs,
   { preMerge := venues.length
     pass1 := pl.p1.count
     pass2 := pl.p2.claimedSla.length
     pass3 := pl.p3.claimedSla.length
     totalMerges := pl.p1.count + pl.p2.claimedSla.length + pl.p3.claimedSla.length
     postMerge := outs.length })

/-! ## The verification ledger of crossref.py

The SQLite table crossref becomes a list of rows in rowid (insertion)
order; SELECT without ORDER BY iterates in that order, and SELECT with
LIMIT takes a prefix of the matching rows.  An open connection holds the
last committed state and the current state, conn.commit() copying current
over committed.  The yelp and google status columns are created with
DEFAULT unchecked and the opentable and tripadvisor columns are added by
the migration with DEFAULT unchecked, which SQLite also reports for
pre-existing rows, so the IS NULL arms of the opentable and tripadvisor
selections are vacuous and every status is a plain Status value.  The
check functions model a process with the relevant API keys configured (an
unset key only short-circuits a check to zero rows). -/

/-- A per-provider verification status value as stored in the table. -/
inductive Status where
  | unchecked
  | found
  | notFound
  | error
  | skip
deriving DecidableEq, Repr

/-- One row of the crossref table, with the payload columns the UPDATE
statements write. -/
structure Row where
  key : String
  name : String := ""
  address : String := ""
  borough : String := ""
  yelpStatus : Status := .unchecked
  yelpCheckedAt : Option String := none
  yelpBusinessId : Option String := none
  yelpUrl : Option String := none
  yelpReviewCount : Option Int := none
  yelpRating : Option ℚ := none
  yelpLat : Option ℚ := none
  yelpLng : Option ℚ := none
  yelpCategories : Option String := none
  googleStatus : Status := .unchecked
  googleCheckedAt : Option String := none
  googlePlaceId : Option String := none
  googleRating : Option ℚ := none
  googleRatingCount : Option Int := none
  googleLat : Option ℚ := none
  googleLng : Option ℚ := none
  opentableStatus : Status := .unchecked
  opentableCheckedAt : Option String := none
  opentableRid : Option String := none
  opentableUrl : Option String := none
  opentableRating : Option ℚ := none
  opentableReviewCount : Option Int := none
  opentablePrice : Option String := none
  tripadvisorStatus : Status := .unchecked
  tripadvisorCheckedAt : Option String := none
  tripadvisorLocationId : Option String := none
  tripadvisorUrl : Option String := none
  tripadvisorRating : Option ℚ := none
  tripadvisorReviewCount : Option Int := none
deriving DecidableEq, Repr

/-- An open SQLite connection: committed state and current state. -/
structure Conn where
  committed : List Row
  current : List Row
deriving DecidableEq, Repr

/-- conn.commit(). -/
def commitConn (conn : Conn) : Conn := ⟨conn.current, conn.current⟩

/-- UPDATE ... WHERE venue_key = k on the current state. -/
def updateRow (db : List Row) (k : String) (f : Row → Row) : List Row :=
  db.map (fun r => if r.key == k then f r else r)

/-- venue_key from crossref.py. -/
def venueKey (name address borough : String) : String :=
  pyLowerStrip name ++ "|" ++ pyLowerStrip address ++ "|" ++ pyLowerStrip borough

/-- A venue dict as sync_venues consumes it. -/
structure VenueIn where
  name : String
  address : String := ""
  borough : String := ""
deriving DecidableEq, Repr

/-- The row INSERT of sync_venues: venue identity plus every provider
column at its default. -/
def newRow (k : String) (v : VenueIn) : Row :=
  { key := k, name := v.name, address := v.address, borough := v.borough }

/-- One venue of the sync_venues loop, carrying the table, the existing-key
set and the new-row counter. -/
def syncStep (acc : List Row × List String × Nat) (v : VenueIn) :
    List Row × List String × Nat :=
  let k := venueKey v.name v.address v.borough
  if acc.2.1.contains k then acc
  else (acc.1 ++ [newRow k v], acc.2.1 ++ [k], acc.2.2 + 1)

/-- sync_venues from crossref.py: read the existing keys, insert a fresh
row for every venue whose key is absent, tracking the growing key set, and
commit.  Returns the connection and the new-row count. -/
def syncVenues (conn : Conn) (venues : List VenueIn) : Conn × Nat :=
  let fin := venues.foldl syncStep (conn.current, conn.current.map Row.key, 0)
  (commitConn { conn with current := fin.1 }, fin.2.2)

/-! ### Yelp -/

/-- The per-provider daily limits with their env defaults. -/
def YELP_DAILY_LIMIT : Nat := 4500

def GOOGLE_DAILY_LIMIT : Nat := 1000

def OPENTABLE_DAILY_LIMIT : Nat := 2000

def TRIPADVISOR_DAILY_LIMIT : Nat := 4500

/-- limit = limit or DAILY_LIMIT: a missing or zero argument falls back to
the daily default, Python or-semantics. -/
def orLimit (limit : Option Nat) (dailyLimit : Nat) : Nat :=
  match limit with
  | some n => if n != 0 then n else dailyLimit
  | none => dailyLimit

/-- One business of a Yelp search response. -/
structure Biz where
  name : String
  bid : Option String := none
  url : Option String := none
  reviewCount : Option Int := none
  rating : Option ℚ := none
  lat : Option ℚ := none
  lng : Option ℚ := none
  categories : List String := []
deriving DecidableEq, Repr

/-- The stubbed outcome of one Yelp search call: an HTTP 429, any other
request failure, or a parsed business list. -/
inductive YelpResp where
  | rateLimited
  | netError
  | ok (businesses : List Biz)
deriving DecidableEq, Repr

/-- The provider similarity threshold of the check functions, the rational
value of the float literal 0.45. -/
def PROVIDER_THRESHOLD : ℚ := mkRat 45 100

/-- The first business matching the queried name at the threshold, the
loop-and-break of check_yelp. -/
def yelpHit (venueName : String) (bs : List Biz) : Option Biz :=
  bs.find? (fun b => decide (PROVIDER_THRESHOLD ≤ nameSimilarity venueName b.name))

/-- The Yelp row UPDATE for a completed search: status found or not_found
and the payload of the matched business. -/
def applyYelpResult (now : String) (hit : Option Biz) (row : Row) : Row :=
  { row with
    yelpStatus := if hit.isSome then .found else .notFound
    yelpCheckedAt := some now
    yelpBusinessId := hit.bind (·.bid)
    yelpUrl := hit.bind (·.url)
    yelpReviewCount := hit.bind (·.reviewCount)
    yelpRating := hit.bind (·.rating)
    yelpLat := hit.bind (·.lat)
    yelpLng := hit.bind (·.lng)
    yelpCategories := hit.bind (fun b =>
      if b.categories.isEmpty then none
      else some (String.intercalate "," b.categories)) }

/-- The Yelp row UPDATE for a failed request. -/
def applyYelpError (now : String) (row : Row) : Row :=
  { row with yelpStatus := .error, yelpCheckedAt := some now }

/-- The periodic progress commit of the batch loops. -/
def stepCommit (period : Nat) (checked : Nat) (conn : Conn) : Conn :=
  if checked % period == 0 then commitConn conn else conn

/-- The row loop of check_yelp: a 429 commits and returns immediately, any
other failure records error and continues, a success records found or
not_found with payload; progress commits every 200 rows and the loop ends
with a final commit. -/
def yelpLoop (api : String → YelpResp) (now : String) :
    Conn → List Row → Nat → Conn × Nat
  | conn, [], checked => (commitConn conn, checked)
  | conn, r :: rest, checked =>
    match api r.key with
    | .rateLimited => (commitConn conn, checked)
    | .netError =>
      let conn' := { conn with current := updateRow conn.current r.key (applyYelpError now) }
      yelpLoop api now (stepCommit 200 (checked + 1) conn') rest (checked + 1)
    | .ok bs =>
      let conn' := { conn with
        current := updateRow conn.current r.key (applyYelpResult now (yelpHit r.name bs)) }
      yelpLoop api now (stepCommit 200 (checked + 1) conn') rest (checked + 1)

/-- check_yelp from crossref.py: select up to limit rows with unchecked
Yelp status in rowid order and run the row loop. -/
def checkYelp (api : String → YelpResp) (now : String) (conn : Conn)
    (limit : Option Nat) : Conn × Nat :=
  let lim := orLimit limit YELP_DAILY_LIMIT
  let rows := (conn.current.filter (fun r => r.yelpStatus == .unchecked)).take lim
  if rows.isEmpty then (conn, 0)
  else yelpLoop api now conn rows 0

/-! ### Google -/

/-- One candidate of a Google find-place response; the name field is
returned by the API but never consulted by check_google. -/
structure GCand where
  name : String := ""
  placeId : Option String := none
  rating : Option ℚ := none
  ratingCount : Option Int := none
  lat : Option ℚ := none
  lng : Option ℚ := none
deriving DecidableEq, Repr

/-- The stubbed outcome of one Google find-place call.  check_google calls
raise_for_status with no prior 429 test, so a rate-limited response raises
like any other HTTP failure. -/
inductive GoogleResp where
  | rateLimited
  | netError
  | ok (candidates : List GCand)
deriving DecidableEq, Repr

/-- The Google row UPDATE for a completed search: found exactly when the
candidate list is nonempty, payload from the first candidate. -/
def applyGoogleResult (now : String) (cands : List GCand) (row : Row) : Row :=
  let hit := cands.head?
  { row with
    googleStatus := if hit.isSome then .found else .notFound
    googleCheckedAt := some now
    googlePlaceId := hit.bind (·.placeId)
    googleRating := hit.bind (·.rating)
    googleRatingCount := hit.bind (·.ratingCount)
    googleLat := hit.bind (·.lat)
    googleLng := hit.bind (·.lng) }

/-- The Google row UPDATE for a failed request, including a 429. -/
def applyGoogleError (now : String) (row : Row) : Row :=
  { row with googleStatus := .error, googleCheckedAt := some now }

/-- The row loop of check_google: both a 429 and any other failure record
error and continue; a success records found or not_found. -/
def googleLoop (api : String → GoogleResp) (now : String) :
    Conn → List Row → Nat → Conn × Nat
  | conn, [], checked => (commitConn conn, checked)
  | conn, r :: rest, checked =>
    match api r.key with
    | .rateLimited =>
      let conn' := { conn with current := updateRow conn.current r.key (applyGoogleError now) }
      googleLoop api now (stepCommit 200 (checked + 1) conn') rest (checked + 1)
    | .netError =>
      let conn' := { conn with current := updateRow conn.current r.key (applyGoogleError now) }
      googleLoop api now (stepCommit 200 (checked + 1) conn') rest (checked + 1)
    | .ok cands =>
      let conn' := { conn with
        current := updateRow conn.current r.key (applyGoogleResult now cands) }
      googleLoop api now (stepCommit 200 (checked + 1) conn') rest (checked + 1)

/-- check_google from crossref.py: with a nonempty borough filter, first
mark out-of-filter unchecked rows as skip and commit; then select up to
limit unchecked in-filter rows and run the row loop. -/
def checkGoogle (api : String → GoogleResp) (now : String) (conn : Conn)
    (limit : Option Nat) (boroughFilter : String) : Conn × Nat :=
  let lim := orLimit limit GOOGLE_DAILY_LIMIT
  let conn1 :=
    if boroughFilter != "" then
      commitConn { conn with
        current := conn.current.map (fun r =>
          if r.googleStatus == .unchecked && r.borough.toUpper != boroughFilter.toUpper then
            { r with googleStatus := .skip }
          else r) }
    else conn
  let rows := (conn1.current.filter (fun r =>
    r.googleStatus == .unchecked &&
      (boroughFilter == "" || r.borough.toUpper == boroughFilter.toUpper))).take lim
  if rows.isEmpty then (conn1, 0)
  else googleLoop api now conn1 rows 0

/-! ### OpenTable -/

/-- One restaurant of an OpenTable autocomplete response. -/
structure OTRes where
  name : String
  rid : String := ""
  profileLink : Option String := none
  rating : Option ℚ := none
  reviewCount : Option Int := none
  priceBand : Option String := none
deriving DecidableEq, Repr

/-- The stubbed outcome of one OpenTable autocomplete call. -/
inductive OTResp where
  | rateLimited
  | netError
  | ok (restaurants : List OTRes)
deriving DecidableEq, Repr

/-- The first restaurant matching the queried name at the threshold. -/
def otHit (venueName : String) (rs : List OTRes) : Option OTRes :=
  rs.find? (fun r => decide (PROVIDER_THRESHOLD ≤ nameSimilarity venueName r.name))

/-- The OpenTable row UPDATE for a completed search, with the relative
profile link absolutized. -/
def applyOTResult (now : String) (hit : Option OTRes) (row : Row) : Row :=
  { row with
    opentableStatus := if hit.isSome then .found else .notFound
    opentableCheckedAt := some now
    opentableRid := hit.map (fun r => r.rid)
    opentableUrl := hit.bind (fun r => r.profileLink.map (fun u =>
      if u.startsWith "http" then u else "https://www.opentable.com" ++ u))
    opentableRating := hit.bind (·.rating)
    opentableReviewCount := hit.bind (·.reviewCount)
    opentablePrice := hit.bind (·.priceBand) }

/-- The OpenTable row UPDATE for a failed request. -/
def applyOTError (now : String) (row : Row) : Row :=
  { row with opentableStatus := .error, opentableCheckedAt := some now }

/-- The row loop of check_opentable: a 429 commits and returns, other
failures record error and continue; progress commits every 100 rows. -/
def otLoop (api : String → OTResp) (now : String) :
    Conn → List Row → Nat → Conn × Nat
  | conn, [], checked => (commitConn conn, checked)
  | conn, r :: rest, checked =>
    match api r.key with
    | .rateLimited => (commitConn conn, checked)
    | .netError =>
      let conn' := { conn with current := updateRow conn.current r.key (applyOTError now) }
      otLoop api now (stepCommit 100 (checked + 1) conn') rest (checked + 1)
    | .ok rs =>
      let conn' := { conn with
        current := updateRow conn.current r.key (applyOTResult now (otHit r.name rs)) }
      otLoop api now (stepCommit 100 (checked + 1) conn') rest (checked + 1)

/-- check_opentable from crossref.py. -/
def checkOpentable (api : String → OTResp) (now : String) (conn : Conn)
    (limit : Option Nat) : Conn × Nat :=
  let lim := orLimit limit OPENTABLE_DAILY_LIMIT
  let rows := (conn.current.filter (fun r => r.opentableStatus == .unchecked)).take lim
  if rows.isEmpty then (conn, 0)
  else otLoop api now conn rows 0

/-! ### TripAdvisor -/

/-- One result of a TripAdvisor location search. -/
structure TARes where
  name : String
  locationId : String := ""
deriving DecidableEq, Repr

/-- The stubbed outcome of one TripAdvisor search call. -/
inductive TAResp where
  | rateLimited
  | netError
  | ok (results : List TARes)
deriving DecidableEq, Repr

/-- The stubbed outcome of the follow-up details call: a 200 with payload,
any non-200 status (including a details-side 429, which only the search
call tests for), or a raised request failure. -/
inductive TADetResp where
  | ok200 (rating : Option ℚ) (reviews : Option Int) (url : Option String)
  | non200
  | netError
deriving DecidableEq, Repr

/-- The first search result matching the queried name at the threshold. -/
def taHit (venueName : String) (rs : List TARes) : Option TARes :=
  rs.find? (fun r => decide (PROVIDER_THRESHOLD ≤ nameSimilarity venueName r.name))

/-- The TripAdvisor row UPDATE for a completed check. -/
def applyTAResult (now : String) (locId : Option String)
    (det : Option (Option ℚ × Option Int × Option String)) (row : Row) : Row :=
  { row with
    tripadvisorStatus := if locId.isSome then .found else .notFound
    tripadvisorCheckedAt := some now
    tripadvisorLocationId := locId
    tripadvisorUrl := det.bind (·.2.2)
    tripadvisorRating := det.bind (·.1)
    tripadvisorReviewCount := det.bind (·.2.1) }

/-- The TripAdvisor row UPDATE for a failed request. -/
def applyTAError (now : String) (row : Row) : Row :=
  { row with tripadvisorStatus := .error, tripadvisorCheckedAt := some now }

/-- The row loop of check_tripadvisor: a 429 on the search call commits and
returns; a request failure in either call records error and continues; on
a found match the details call fills the payload when it returns 200, and
its own non-200 statuses are swallowed. -/
def taLoop (api : String → TAResp) (details : String → TADetResp) (now : String) :
    Conn → List Row → Nat → Conn × Nat
  | conn, [], checked => (commitConn conn, checked)
  | conn, r :: rest, checked =>
    match api r.key with
    | .rateLimited => (commitConn conn, checked)
    | .netError =>
      let conn' := { conn with current := updateRow conn.current r.key (applyTAError now) }
      taLoop api details now (stepCommit 100 (checked + 1) conn') rest (checked + 1)
    | .ok rs =>
      let hit := taHit r.name rs
      let locId := hit.map (fun h => h.locationId)
      match locId with
      | some lid =>
        if lid != "" then
          match details lid with
          | .netError =>
            let conn' := { conn with current := updateRow conn.current r.key (applyTAError now) }
            taLoop api details now (stepCommit 100 (checked + 1) conn') rest (checked + 1)
          | .ok200 rat rc url =>
            let conn' := { conn with
              current := updateRow conn.current r.key
                (applyTAResult now locId (some (rat, rc, url))) }
            taLoop api details now (stepCommit 100 (checked + 1) conn') rest (checked + 1)
          | .non200 =>
            let conn' := { conn with
              current := updateRow conn.current r.key (applyTAResult now locId none) }
            taLoop api details now (stepCommit 100 (checked + 1) conn') rest (checked + 1)
        else
          let conn' := { conn with
            current := updateRow conn.current r.key (applyTAResult now locId none) }
          taLoop api details now (stepCommit 100 (checked + 1) conn') rest (checked + 1)
      | none =>
        let conn' := { conn with
          current := updateRow conn.current r.key (applyTAResult now none none) }
        taLoop api details now (stepCommit 100 (checked + 1) conn') rest (checked + 1)

/-- check_tripadvisor from crossref.py. -/
def checkTripadvisor (api : String → TAResp) (details : String → TADetResp)
    (now : String) (conn : Conn) (limit : Option Nat) : Conn × Nat :=
  let lim := orLimit limit TRIPADVISOR_DAILY_LIMIT
  let rows := (conn.current.filter (fun r => r.tripadvisorStatus == .unchecked)).take lim
  if rows.isEmpty then (conn, 0)
  else taLoop api details now conn rows 0

/-! ## Theorems -/

/-! ### Bounds for the SequenceMatcher ratio -/

/-- The window invariant of a candidate best block. -/
def BestInv (alo ahi blo bhi : Nat) (m : Nat × Nat × Nat) : Prop :=
  alo ≤ m.1 ∧ blo ≤ m.2.1 ∧ m.1 + m.2.2 ≤ ahi ∧ m.2.1 + m.2.2 ≤ bhi

lemma smRowFold_inv {alo ahi blo bhi : Nat} (j2len : Nat → Nat) (i : Nat)
    (hi1 : alo ≤ i) (hi2 : i < ahi)
    (hJ1 : ∀ x, j2len x ≤ x + 1 - blo)
    (hJ2 : ∀ x, j2len x ≤ i - alo)
    (F : (Nat → Nat) × (Nat × Nat × Nat) → Nat → (Nat → Nat) × (Nat × Nat × Nat))
    (hF : F = fun acc j =>
      if blo ≤ j && j < bhi then
        let k := (if j == 0 then 0 else j2len (j - 1)) + 1
        ((fun x => if x == j then k else acc.1 x),
         if acc.2.2.2 < k then (i + 1 - k, j + 1 - k, k) else acc.2)
      else acc) :
    ∀ (js : List Nat) (acc : (Nat → Nat) × (Nat × Nat × Nat)),
      (∀ x, acc.1 x ≤ x + 1 - blo) → (∀ x, acc.1 x ≤ i - alo + 1) →
      BestInv alo ahi blo bhi acc.2 →
      (∀ x, (js.foldl F acc).1 x ≤ x + 1 - blo) ∧
        (∀ x, (js.foldl F acc).1 x ≤ i - alo + 1) ∧
        BestInv alo ahi blo bhi (js.foldl F acc).2 := by
  intro js
  induction js with
  | nil => intro acc h1 h2 h3; exact ⟨h1, h2, h3⟩
  | cons j rest ih =>
    intro acc h1 h2 h3
    simp only [List.foldl_cons]
    apply ih
    all_goals subst hF
    all_goals by_cases hrange : (blo ≤ j && j < bhi) = true
    all_goals simp only [hrange, if_pos, Bool.false_eq_true, if_neg, not_false_iff]
    · intro x
      by_cases hx : (x == j) = true
      · have hxj : x = j := by simpa using hx
        subst hxj
        simp only [hx, if_pos]
        have hj1 : blo ≤ x := by
          simp only [Bool.and_eq_true, decide_eq_true_eq] at hrange; exact hrange.1
        by_cases h0 : x = 0
        · subst h0; simp only [beq_self_eq_true, if_pos]; omega
        · have hne : (x == 0) = false := by simpa using h0
          simp only [hne, Bool.false_eq_true, if_neg, not_false_iff]
          have := hJ1 (x - 1); omega
      · simp only [hx, Bool.false_eq_true, if_neg, not_false_iff]
        exact h1 x
    · exact h1
    · intro x
      by_cases hx : (x == j) = true
      · simp only [hx, if_pos]
        by_cases h0 : j = 0
        · subst h0; simp only [beq_self_eq_true, if_pos]; omega
        · have hne : (j == 0) = false := by simpa using h0
          simp only [hne, Bool.false_eq_true, if_neg, not_false_iff]
          have := hJ2 (j - 1); omega
      · simp only [hx, Bool.false_eq_true, if_neg, not_false_iff]
        exact h2 x
    · exact h2
    · have hj1 : blo ≤ j := by
        simp only [Bool.and_eq_true, decide_eq_true_eq] at hrange; exact hrange.1
      have hj2 : j < bhi := by
        simp only [Bool.and_eq_true, decide_eq_true_eq] at hrange; exact hrange.2
      have hk1 : (if j == 0 then 0 else j2len (j - 1)) + 1 ≤ j + 1 - blo := by
        by_cases h0 : j = 0
        · subst h0; simp only [beq_self_eq_true, if_pos]; omega
        · have hne : (j == 0) = false := by simpa using h0
          simp only [hne, Bool.false_eq_true, if_neg, not_false_iff]
          have := hJ1 (j - 1); omega
      have hk2 : (if j == 0 then 0 else j2len (j - 1)) + 1 ≤ i - alo + 1 := by
        by_cases h0 : j = 0
        · subst h0; simp only [beq_self_eq_true, if_pos]; omega
        · have hne : (j == 0) = false := by simpa using h0
          simp only [hne, Bool.false_eq_true, if_neg, not_false_iff]
          have := hJ2 (j - 1); omega
      by_cases hlt : acc.2.2.2 < (if j == 0 then 0 else j2len (j - 1)) + 1
      · simp only [hlt, if_pos]
        rcases h3 with ⟨a1, a2, a3, a4⟩
        refine ⟨?_, ?_, ?_, ?_⟩ <;> dsimp only [BestInv] <;> omega
      · simp only [hlt, if_neg, not_false_iff]; exact h3
    · exact h3

lemma smRow_inv {alo ahi blo bhi : Nat} (js : List Nat) (j2len : Nat → Nat)
    (i : Nat) (best : Nat × Nat × Nat)
    (hi1 : alo ≤ i) (hi2 : i < ahi)
    (hJ1 : ∀ x, j2len x ≤ x + 1 - blo)
    (hJ2 : ∀ x, j2len x ≤ i - alo)
    (hB : BestInv alo ahi blo bhi best) :
    (∀ x, (smRow blo bhi js j2len i best).1 x ≤ x + 1 - blo) ∧
      (∀ x, (smRow blo bhi js j2len i best).1 x ≤ i - alo + 1) ∧
      BestInv alo ahi blo bhi (smRow blo bhi js j2len i best).2 := by
  exact smRowFold_inv j2len i hi1 hi2 hJ1 hJ2 _ rfl js ((fun _ => 0), best)
    (fun x => Nat.zero_le _) (fun x => Nat.zero_le _) hB

lemma smRows_inv {a b : List Char} {alo ahi blo bhi : Nat} :
    ∀ (n start : Nat) (f : Nat → Nat) (best : Nat × Nat × Nat),
      alo ≤ start → start + n ≤ ahi →
      (∀ x, f x ≤ x + 1 - blo) → (∀ x, f x ≤ start - alo) →
      BestInv alo ahi blo bhi best →
      BestInv alo ahi blo bhi
        (smRows a b blo bhi (List.range' start n) f best) := by
  intro n
  induction n with
  | zero => intro start f best _ _ _ _ hB; simpa [smRows] using hB
  | succ n ih =>
    intro start f best h1 h2 hf1 hf2 hB
    rw [List.range'_succ]
    show BestInv alo ahi blo bhi
      (smRows a b blo bhi (List.range' (start + 1) n)
        (smRow blo bhi (smB2j b (a.getD start ' ')) f start best).1
        (smRow blo bhi (smB2j b (a.getD start ' ')) f start best).2)
    have hrow := @smRow_inv alo ahi blo bhi
      (smB2j b (a.getD start ' ')) f start best h1 (by omega) hf1 hf2 hB
    exact ih (start + 1) _ _ (by omega) (by omega) hrow.1
      (fun x => by have := hrow.2.1 x; omega) hrow.2.2

lemma smExtLeft_inv {a b : List Char} {alo ahi blo bhi : Nat} :
    ∀ (besti bestj bestsize : Nat),
      BestInv alo ahi blo bhi (besti, bestj, bestsize) →
      BestInv alo ahi blo bhi (smExtLeft a b alo blo besti bestj bestsize) := by
  intro besti
  induction besti with
  | zero => intro bestj bestsize hB; simpa [smExtLeft] using hB
  | succ bi ih =>
    intro bestj bestsize hB
    rw [smExtLeft]
    by_cases hc : (alo < bi + 1 && blo < bestj &&
        (a.getD bi ' ' == b.getD (bestj - 1) ' ')) = true
    · simp only [hc, if_pos]
      have h1 : alo < bi + 1 ∧ blo < bestj := by
        simp only [Bool.and_eq_true, decide_eq_true_eq] at hc
        exact ⟨hc.1.1, hc.1.2⟩
      have b1 : alo ≤ bi + 1 := hB.1
      have b2 : blo ≤ bestj := hB.2.1
      have b3 : bi + 1 + bestsize ≤ ahi := hB.2.2.1
      have b4 : bestj + bestsize ≤ bhi := hB.2.2.2
      exact ih (bestj - 1) (bestsize + 1)
        ⟨show alo ≤ bi by omega, show blo ≤ bestj - 1 by omega,
         show bi + (bestsize + 1) ≤ ahi by omega,
         show bestj - 1 + (bestsize + 1) ≤ bhi by omega⟩
    · simp only [hc, Bool.false_eq_true, if_neg, not_false_iff]
      exact hB

lemma smExtRight_inv {a b : List Char} {alo ahi blo bhi besti bestj : Nat} :
    ∀ (fuel bestsize : Nat),
      BestInv alo ahi blo bhi (besti, bestj, bestsize) →
      BestInv alo ahi blo bhi
        (besti, bestj, smExtRight a b ahi bhi besti bestj fuel bestsize) := by
  intro fuel
  induction fuel with
  | zero => intro bestsize hB; simpa [smExtRight] using hB
  | succ f ih =>
    intro bestsize hB
    rw [smExtRight]
    by_cases hc : (besti + bestsize < ahi && bestj + bestsize < bhi &&
        (a.getD (besti + bestsize) ' ' == b.getD (bestj + bestsize) ' ')) = true
    · simp only [hc, if_pos]
      have h1 : besti + bestsize < ahi ∧ bestj + bestsize < bhi := by
        simp only [Bool.and_eq_true, decide_eq_true_eq] at hc
        exact ⟨hc.1.1, hc.1.2⟩
      have b1 : alo ≤ besti := hB.1
      have b2 : blo ≤ bestj := hB.2.1
      exact ih (bestsize + 1)
        ⟨b1, b2, show besti + (bestsize + 1) ≤ ahi by omega,
         show bestj + (bestsize + 1) ≤ bhi by omega⟩
    · simp only [hc, Bool.false_eq_true, if_neg, not_false_iff]
      exact hB

/-- The block returned by find_longest_match lies inside the window. -/
lemma flm_bounds (a b : List Char) (alo ahi blo bhi : Nat)
    (h1 : alo ≤ ahi) (h2 : blo ≤ bhi) :
    BestInv alo ahi blo bhi (findLongestMatch a b alo ahi blo bhi) := by
  unfold findLongestMatch
  have hDP : BestInv alo ahi blo bhi
      (smRows a b blo bhi (List.range' alo (ahi - alo)) (fun _ => 0) (alo, blo, 0)) :=
    smRows_inv (ahi - alo) alo _ _ (le_refl _) (by omega)
      (fun x => Nat.zero_le _) (fun x => Nat.zero_le _)
      ⟨le_refl _, le_refl _, by simpa using h1, by simpa using h2⟩
  set dp := smRows a b blo bhi (List.range' alo (ahi - alo)) (fun _ => 0) (alo, blo, 0)
  have hL : BestInv alo ahi blo bhi (smExtLeft a b alo blo dp.1 dp.2.1 dp.2.2) :=
    smExtLeft_inv dp.1 dp.2.1 dp.2.2 hDP
  set lft := smExtLeft a b alo blo dp.1 dp.2.1 dp.2.2
  exact smExtRight_inv ahi lft.2.2 hL

/-- The matched total is at most the a-window length. -/
lemma matchTotal_le_a (a b : List Char) :
    ∀ (fuel alo ahi blo bhi : Nat), alo ≤ ahi → blo ≤ bhi →
      matchTotal a b fuel alo ahi blo bhi ≤ ahi - alo := by
  intro fuel
  induction fuel with
  | zero => intro _ _ _ _ _ _; simp [matchTotal]
  | succ f ih =>
    intro alo ahi blo bhi h1 h2
    rw [matchTotal]
    by_cases hz : (findLongestMatch a b alo ahi blo bhi).2.2 = 0
    · simp [hz]
    · simp only [hz, if_neg, not_false_iff]
      have hB := flm_bounds a b alo ahi blo bhi h1 h2
      rcases hB with ⟨b1, b2, b3, b4⟩
      have hl := ih alo (findLongestMatch a b alo ahi blo bhi).1 blo
        (findLongestMatch a b alo ahi blo bhi).2.1 (by omega) (by omega)
      have hr := ih ((findLongestMatch a b alo ahi blo bhi).1 +
          (findLongestMatch a b alo ahi blo bhi).2.2) ahi
        ((findLongestMatch a b alo ahi blo bhi).2.1 +
          (findLongestMatch a b alo ahi blo bhi).2.2) bhi (by omega) (by omega)
      omega

/-- The matched total is at most the b-window length. -/
lemma matchTotal_le_b (a b : List Char) :
    ∀ (fuel alo ahi blo bhi : Nat), alo ≤ ahi → blo ≤ bhi →
      matchTotal a b fuel alo ahi blo bhi ≤ bhi - blo := by
  intro fuel
  induction fuel with
  | zero => intro _ _ _ _ _ _; simp [matchTotal]
  | succ f ih =>
    intro alo ahi blo bhi h1 h2
    rw [matchTotal]
    by_cases hz : (findLongestMatch a b alo ahi blo bhi).2.2 = 0
    · simp [hz]
    · simp only [hz, if_neg, not_false_iff]
      have hB := flm_bounds a b alo ahi blo bhi h1 h2
      rcases hB with ⟨b1, b2, b3, b4⟩
      have hl := ih alo (findLongestMatch a b alo ahi blo bhi).1 blo
        (findLongestMatch a b alo ahi blo bhi).2.1 (by omega) (by omega)
      have hr := ih ((findLongestMatch a b alo ahi blo bhi).1 +
          (findLongestMatch a b alo ahi blo bhi).2.2) ahi
        ((findLongestMatch a b alo ahi blo bhi).2.1 +
          (findLongestMatch a b alo ahi blo bhi).2.2) bhi (by omega) (by omega)
      omega

/-- The SequenceMatcher ratio is nonnegative. -/
lemma smRatio_nonneg (a b : List Char) : 0 ≤ smRatio a b := by
  unfold smRatio
  by_cases h : a.length + b.length = 0
  · simp [h]
  · simp only [h, if_neg, not_false_iff]
    rw [Rat.divInt_eq_div]
    apply div_nonneg
    · positivity
    · positivity

/-- The SequenceMatcher ratio is at most one. -/
lemma smRatio_le_one (a b : List Char) : smRatio a b ≤ 1 := by
  unfold smRatio
  by_cases h : a.length + b.length = 0
  · simp [h]
  · simp only [h, if_neg, not_false_iff]
    have hA := matchTotal_le_a a b (a.length + b.length + 1) 0 a.length 0 b.length
      (Nat.zero_le _) (Nat.zero_le _)
    have hB := matchTotal_le_b a b (a.length + b.length + 1) 0 a.length 0 b.length
      (Nat.zero_le _) (Nat.zero_le _)
    rw [Rat.divInt_eq_div]
    rw [div_le_one (by positivity)]
    have h2 : 2 * matchTotal a b (a.length + b.length + 1) 0 a.length 0 b.length ≤
        a.length + b.length := by omega
    push_cast
    exact_mod_cast h2

/-- C7: the spec asserts normalize_address is idempotent for every input
string; the address saint marks refutes this on the code.  The suffix table
maps saint to st on the first application and st to street on the second,
so the two applications disagree, although the table's own purpose is to
collapse the Saint and St spellings to one form. -/
theorem c7_normalize_addr_not_idempotent_at_saint_marks :
    normalizeAddr "saint marks" = "st marks" ∧
      normalizeAddr (normalizeAddr "saint marks") = "street marks" ∧
      normalizeAddr (normalizeAddr "saint marks") ≠ normalizeAddr "saint marks" := by
  refine ⟨by decide, by decide, by decide⟩

/-- The Authority record of the Pass 2 boundary scenario of C9: house
number h on MAIN ST. -/
def c9A (h : Nat) (dohmhBoro : String) : Rec :=
  { rid := 1, source := "dohmh", name := "A", address := toString h ++ " MAIN ST",
    borough := dohmhBoro }

/-- The License record of the Pass 2 boundary scenario of C9: the range
address 10 20 MAIN ST. -/
def c9L : Rec :=
  { rid := 2, source := "sla", name := "L", address := "10 20 MAIN ST",
    borough := "Manhattan" }

/-- The two-record input of the C9 scenario. -/
def c9Venues (h : Nat) (dohmhBoro : String) : List Rec := [c9A h dohmhBoro, c9L]

/-- The trivial distance function for scenarios without coordinates; Pass 3
never invokes it there. -/
def noDist : DistFn := fun _ _ _ _ => 999

/-- C9: the License range address 10 20 MAIN ST merges in Pass 2 with an
Authority record at house number 10, 15 or 20 on main street in the same
borough, but not at house number 21 and not when the borough differs; the
bounds are inclusive on both ends. -/
theorem c9_range_match_boundary :
    (∀ h ∈ [10, 15, 20],
      (mergeCrossSource noDist (c9Venues h "Manhattan")).1 =
        [Out.comb (c9A h "Manhattan") c9L] ∧
      (mergeCrossSource noDist (c9Venues h "Manhattan")).2.pass2 = 1) ∧
    (mergeCrossSource noDist (c9Venues 21 "Manhattan")).1 =
      [Out.plain c9L, Out.plain (c9A 21 "Manhattan")] ∧
    (mergeCrossSource noDist (c9Venues 21 "Manhattan")).2.pass2 = 0 ∧
    (mergeCrossSource noDist (c9Venues 10 "Brooklyn")).1 =
      [Out.plain c9L, Out.plain (c9A 10 "Brooklyn")] ∧
    (mergeCrossSource noDist (c9Venues 10 "Brooklyn")).2.pass2 = 0 := by
  refine ⟨?_, by decide, by decide, by decide, by decide⟩
  intro h hh
  fin_cases hh <;> exact ⟨by decide, by decide⟩

/-- C5 counterexample: the Matcher's Pass 3 score is the raw SequenceMatcher
ratio of the whitespace-normalized names, while the Ledger's
_name_similarity adds the equality and containment shortcuts; at the pair
a, ab the Ledger scores 0.85 and Pass 3 scores 2/3, so they are not the
same function. -/
theorem c5_not_same_function_counterexample :
    nameSimilarity "a" "ab" = 17 / 20 ∧
      pyRatio (pyNormalize "a") (pyNormalize "ab") = 2 / 3 ∧
      nameSimilarity "a" "ab" ≠ pyRatio (pyNormalize "a") (pyNormalize "ab") := by
  have e1 : (pyLowerStrip "a" == pyLowerStrip "ab") = false := by decide
  have e2 : (isSubstr (pyLowerStrip "a").data (pyLowerStrip "ab").data ||
      isSubstr (pyLowerStrip "ab").data (pyLowerStrip "a").data) = true := by decide
  have h1 : nameSimilarity "a" "ab" = 17 / 20 := by
    unfold nameSimilarity
    simp only [e1, e2, Bool.false_eq_true, if_neg, not_false_iff, if_pos]
    norm_num [Rat.mkRat_eq_div]
  have hm : matchTotal (pyNormalize "a").data (pyNormalize "ab").data
      ((pyNormalize "a").data.length + (pyNormalize "ab").data.length + 1) 0
      (pyNormalize "a").data.length 0 (pyNormalize "ab").data.length = 1 := by decide
  have hlen1 : (pyNormalize "a").data.length = 1 := by decide
  have hlen2 : (pyNormalize "ab").data.length = 2 := by decide
  have h2 : pyRatio (pyNormalize "a") (pyNormalize "ab") = 2 / 3 := by
    unfold pyRatio smRatio
    rw [hlen1, hlen2] at hm ⊢
    rw [hm]
    norm_num [Rat.divInt_eq_div]
  exact ⟨h1, h2, by rw [h1, h2]; norm_num⟩

/-- C5 amended: the Ledger's _name_similarity returns 1.0 on equal
lowercased-stripped strings, 0.85 when one contains the other, and
otherwise the SequenceMatcher character-sequence ratio, which lies in
[0, 1]; Pass 3 of the Matcher instead applies the raw SequenceMatcher ratio
to the whitespace-normalized names, without the two shortcuts. -/
theorem c5_name_similarity_shape (a b : String) :
    (pyLowerStrip a = pyLowerStrip b → nameSimilarity a b = 1) ∧
      (pyLowerStrip a ≠ pyLowerStrip b →
        (isSubstr (pyLowerStrip a).data (pyLowerStrip b).data = true ∨
         isSubstr (pyLowerStrip b).data (pyLowerStrip a).data = true) →
        nameSimilarity a b = 17 / 20) ∧
      (pyLowerStrip a ≠ pyLowerStrip b →
        isSubstr (pyLowerStrip a).data (pyLowerStrip b).data = false →
        isSubstr (pyLowerStrip b).data (pyLowerStrip a).data = false →
        nameSimilarity a b = smRatio (pyLowerStrip a).data (pyLowerStrip b).data) ∧
      0 ≤ nameSimilarity a b ∧ nameSimilarity a b ≤ 1 := by
  unfold nameSimilarity
  refine ⟨?_, ?_, ?_, ?_⟩
  · intro h
    have : (pyLowerStrip a == pyLowerStrip b) = true := by simpa using h
    simp [this]
  · intro h hsub
    have hne : (pyLowerStrip a == pyLowerStrip b) = false := by simpa using h
    have hs : (isSubstr (pyLowerStrip a).data (pyLowerStrip b).data ||
        isSubstr (pyLowerStrip b).data (pyLowerStrip a).data) = true := by
      rcases hsub with h1 | h1 <;> simp [h1]
    simp only [hne, Bool.false_eq_true, if_neg, not_false_iff, hs, if_pos]
    norm_num [Rat.mkRat_eq_div]
  · intro h h1 h2
    have hne : (pyLowerStrip a == pyLowerStrip b) = false := by simpa using h
    simp [hne, h1, h2]
  · by_cases heq : (pyLowerStrip a == pyLowerStrip b) = true
    · simp [heq]
    · have hne : (pyLowerStrip a == pyLowerStrip b) = false := by
        simpa using heq
      by_cases hsub : (isSubstr (pyLowerStrip a).data (pyLowerStrip b).data ||
          isSubstr (pyLowerStrip b).data (pyLowerStrip a).data) = true
      · simp only [hne, Bool.false_eq_true, if_neg, not_false_iff, hsub, if_pos]
        norm_num [Rat.mkRat_eq_div]
      · have hsub' : (isSubstr (pyLowerStrip a).data (pyLowerStrip b).data ||
            isSubstr (pyLowerStrip b).data (pyLowerStrip a).data) = false := by
          simpa using hsub
        simp only [hne, Bool.false_eq_true, if_neg, not_false_iff, hsub',
          if_neg]
        exact ⟨smRatio_nonneg _ _, smRatio_le_one _ _⟩

/-- Witness for the amended C5 at a concrete containment pair. -/
theorem c5_name_similarity_shape_witness :
    pyLowerStrip "cafe" ≠ pyLowerStrip "cafe x" ∧
      nameSimilarity "cafe" "cafe x" = 17 / 20 :=
  ⟨by decide, (c5_name_similarity_shape "cafe" "cafe x").2.1 (by decide)
    (Or.inl (by decide))⟩

/-! ### C8: sync is idempotent and never overwrites -/

lemma syncFold_spec :
    ∀ (venues : List VenueIn) (db : List Row) (keys : List String) (n : Nat),
      (∀ k, k ∈ keys ↔ k ∈ db.map Row.key) →
      ∃ added : List Row,
        (venues.foldl syncStep (db, keys, n)).1 = db ++ added ∧
        (venues.foldl syncStep (db, keys, n)).2.1 = keys ++ added.map Row.key ∧
        (venues.foldl syncStep (db, keys, n)).2.2 = n + added.length ∧
        (added.map Row.key).Nodup ∧
        (∀ r ∈ added, r.key ∉ keys ∧
          ∃ v ∈ venues, r = newRow (venueKey v.name v.address v.borough) v) ∧
        (∀ v ∈ venues,
          venueKey v.name v.address v.borough ∈ keys ++ added.map Row.key) := by
  intro venues
  induction venues with
  | nil =>
    intro db keys n hk
    exact ⟨[], by simp, by simp, by simp, by simp, by simp, by simp⟩
  | cons v vs ih =>
    intro db keys n hk
    simp only [List.foldl_cons]
    by_cases hc : keys.contains (venueKey v.name v.address v.borough) = true
    · have hstep : syncStep (db, keys, n) v = (db, keys, n) := by
        unfold syncStep
        simp only [hc, if_pos]
      rw [hstep]
      obtain ⟨added, h1, h2, h3, h4, h5, h6⟩ := ih db keys n hk
      refine ⟨added, h1, h2, h3, h4, ?_, ?_⟩
      · intro r hr
        obtain ⟨hnk, w, hw, hrw⟩ := h5 r hr
        exact ⟨hnk, w, List.mem_cons_of_mem _ hw, hrw⟩
      · intro w hw
        rcases List.mem_cons.mp hw with heq | hmem
        · subst heq
          have : venueKey w.name w.address w.borough ∈ keys := by
            simpa using hc
          exact List.mem_append_left _ this
        · exact h6 w hmem
    · have hc' : keys.contains (venueKey v.name v.address v.borough) = false := by
        simpa using hc
      have hstep : syncStep (db, keys, n) v =
          (db ++ [newRow (venueKey v.name v.address v.borough) v],
           keys ++ [venueKey v.name v.address v.borough], n + 1) := by
        unfold syncStep
        simp only [hc', Bool.false_eq_true, if_neg, not_false_iff]
      rw [hstep]
      have hk' : ∀ k, k ∈ keys ++ [venueKey v.name v.address v.borough] ↔
          k ∈ (db ++ [newRow (venueKey v.name v.address v.borough) v]).map Row.key := by
        intro k
        simp only [List.mem_append, List.map_append, List.mem_singleton, hk k,
          List.map_cons, List.map_nil, newRow]
      obtain ⟨added, h1, h2, h3, h4, h5, h6⟩ := ih _ _ _ hk'
      refine ⟨newRow (venueKey v.name v.address v.borough) v :: added, ?_, ?_, ?_, ?_, ?_, ?_⟩
      · rw [h1]; simp
      · rw [h2]; simp [newRow]
      · rw [h3]; simp; omega
      · simp only [List.map_cons, List.nodup_cons]
        constructor
        · intro hmem
          obtain ⟨r, hr, hrk⟩ := List.mem_map.mp hmem
          obtain ⟨hnk, _⟩ := h5 r hr
          apply hnk
          apply List.mem_append_right
          simp [newRow] at hrk
          simp [hrk]
        · exact h4
      · intro r hr
        rcases List.mem_cons.mp hr with heq | hmem
        · subst heq
          refine ⟨?_, v, List.mem_cons_self _ _, rfl⟩
          intro hmem
          have : keys.contains (venueKey v.name v.address v.borough) = true := by
            simp only [newRow] at hmem ⊢
            simpa using hmem
          rw [this] at hc'; exact Bool.noConfusion hc'
        · obtain ⟨hnk, w, hw, hrw⟩ := h5 r hmem
          refine ⟨?_, w, List.mem_cons_of_mem _ hw, hrw⟩
          intro hmem2
          exact hnk (List.mem_append_left _ hmem2)
      · intro w hw
        rcases List.mem_cons.mp hw with heq | hmem
        · subst heq
          apply List.mem_append_right
          simp [newRow]
        · have := h6 w hmem
          simp only [List.mem_append, List.mem_singleton, List.map_cons,
            List.mem_cons, newRow] at this ⊢
          tauto

/-- C8: sync is idempotent and never overwrites.  The first sync appends a
fresh all-unchecked row exactly for each venue key not already present and
returns that count; it never modifies an existing row (the previous table
is a prefix of the new one); a second sync with the same venues inserts
nothing and returns zero. -/
theorem c8_sync_idempotent_never_overwrites (conn : Conn) (venues : List VenueIn) :
    (∃ added : List Row,
      (syncVenues conn venues).1.current = conn.current ++ added ∧
      (syncVenues conn venues).2 = added.length ∧
      (added.map Row.key).Nodup ∧
      (∀ r ∈ added,
        r.yelpStatus = .unchecked ∧ r.googleStatus = .unchecked ∧
        r.opentableStatus = .unchecked ∧ r.tripadvisorStatus = .unchecked ∧
        r.key ∉ conn.current.map Row.key ∧
        r.key ∈ venues.map (fun v => venueKey v.name v.address v.borough)) ∧
      (∀ v ∈ venues, venueKey v.name v.address v.borough ∈
        ((conn.current ++ added).map Row.key))) ∧
    (syncVenues (syncVenues conn venues).1 venues).2 = 0 ∧
    (syncVenues (syncVenues conn venues).1 venues).1.current =
      (syncVenues conn venues).1.current := by
  obtain ⟨added, h1, h2, h3, h4, h5, h6⟩ :=
    syncFold_spec venues conn.current (conn.current.map Row.key) 0
      (fun k => Iff.rfl)
  have hcur : (syncVenues conn venues).1.current = conn.current ++ added := by
    simp only [syncVenues, commitConn]
    exact h1
  have hcnt : (syncVenues conn venues).2 = added.length := by
    simp only [syncVenues]
    omega
  refine ⟨⟨added, hcur, hcnt, h4, ?_, ?_⟩, ?_⟩
  · intro r hr
    obtain ⟨hnk, w, hw, hrw⟩ := h5 r hr
    subst hrw
    refine ⟨rfl, rfl, rfl, rfl, hnk, ?_⟩
    simp only [List.mem_map, newRow]
    exact ⟨w, hw, rfl⟩
  · intro w hw
    have := h6 w hw
    simpa using this
  · obtain ⟨added2, g1, g2, g3, g4, g5, g6⟩ :=
      syncFold_spec venues (syncVenues conn venues).1.current
        ((syncVenues conn venues).1.current.map Row.key) 0
        (fun k => Iff.rfl)
    have hadded2 : added2 = [] := by
      cases added2 with
      | nil => rfl
      | cons r rest =>
        exfalso
        obtain ⟨hnk, w, hw, hrw⟩ := g5 r (List.mem_cons_self _ _)
        apply hnk
        have hv := h6 w hw
        rw [hcur]
        simpa [hrw, newRow] using hv
    have hsync2 : ∀ (c : Conn) (vs : List VenueIn),
        (syncVenues c vs).2 =
          (vs.foldl syncStep (c.current, c.current.map Row.key, 0)).2.2 :=
      fun _ _ => rfl
    have hsync1 : ∀ (c : Conn) (vs : List VenueIn),
        (syncVenues c vs).1.current =
          (vs.foldl syncStep (c.current, c.current.map Row.key, 0)).1 :=
      fun _ _ => rfl
    constructor
    · rw [hsync2, g3, hadded2]
      simp
    · rw [hsync1 (syncVenues conn venues).1 venues, g1, hadded2]
      simp

/-- Witness for C8: syncing one venue into an empty ledger and syncing the
same venue again returns zero new rows the second time. -/
theorem c8_sync_idempotent_never_overwrites_witness :
    (syncVenues (syncVenues ⟨[], []⟩ [⟨"A", "1 X", "Manhattan"⟩]).1
      [⟨"A", "1 X", "Manhattan"⟩]).2 = 0 :=
  (c8_sync_idempotent_never_overwrites ⟨[], []⟩ [⟨"A", "1 X", "Manhattan"⟩]).2.1

/-! ### C10: empty-address records and the bucketing of Pass 1 -/

/-- A per-entry property holding for every value in every bucket of an
association map. -/
def AllB {α β : Type} (P : α → β → Prop) (m : List (α × List β)) : Prop :=
  ∀ kg ∈ m, ∀ x ∈ kg.2, P kg.1 x

lemma allB_assocAppend {α β : Type} [BEq α] [LawfulBEq α] {P : α → β → Prop} :
    ∀ (m : List (α × List β)) (k : α) (v : β),
      AllB P m → P k v → AllB P (assocAppend m k v) := by
  intro m
  induction m with
  | nil =>
    intro k v _ hP kg hkg x hx
    simp only [assocAppend, List.mem_singleton] at hkg
    subst hkg
    simp only [List.mem_singleton] at hx
    subst hx
    exact hP
  | cons kg' rest ih =>
    intro k v hAll hP kg hkg x hx
    obtain ⟨k', g⟩ := kg'
    simp only [assocAppend] at hkg
    by_cases he : (k' == k) = true
    · simp only [he, if_pos] at hkg
      rcases List.mem_cons.mp hkg with heq | hmem
      · subst heq
        simp only at hx
        rcases List.mem_append.mp hx with h1 | h1
        · exact hAll (k', g) (List.mem_cons_self _ _) x h1
        · simp only [List.mem_singleton] at h1
          subst h1
          have : k' = k := by simpa using he
          subst this
          exact hP
      · exact hAll kg (List.mem_cons_of_mem _ hmem) x hx
    · simp only [he, Bool.false_eq_true, if_neg, not_false_iff] at hkg
      rcases List.mem_cons.mp hkg with heq | hmem
      · subst heq
        exact hAll (k', g) (List.mem_cons_self _ _) x hx
      · exact ih k v (fun kg2 h2 => hAll kg2 (List.mem_cons_of_mem _ h2)) hP kg hmem x hx

lemma lookupKey_mem {α β : Type} [BEq α] [LawfulBEq α]
    {m : List (α × List β)} {k : α} {x : β} (hx : x ∈ lookupKey m k) :
    ∃ kg ∈ m, kg.1 = k ∧ x ∈ kg.2 := by
  unfold lookupKey at hx
  cases hfind : m.find? (fun p => p.1 == k) with
  | none => rw [hfind] at hx; simp at hx
  | some kg =>
    rw [hfind] at hx
    simp at hx
    have hmem := List.mem_of_find?_eq_some hfind
    have hkey := List.find?_some hfind
    have : kg.1 = k := by simpa using hkey
    exact ⟨kg, hmem, this, hx⟩

/-- Every bucket of build-buckets carries records of the input list whose
bucket key is the bucket's key. -/
lemma buildBuckets_inv (vs : List Rec) :
    AllB (fun key v => bucketKey v = key ∧ v ∈ vs) (buildBuckets vs) := by
  unfold buildBuckets
  suffices h : ∀ (l : List Rec) (acc : List ((String × String) × List Rec)),
      (∀ v ∈ l, v ∈ vs) →
      AllB (fun key v => bucketKey v = key ∧ v ∈ vs) acc →
      AllB (fun key v => bucketKey v = key ∧ v ∈ vs)
        (l.foldl (fun bs v => assocAppend bs (bucketKey v) v) acc) by
    exact h vs [] (fun v hv => hv) (fun kg hkg => by simp at hkg)
  intro l
  induction l with
  | nil => intro acc _ hAll; exact hAll
  | cons v rest ih =>
    intro acc hsub hAll
    simp only [List.foldl_cons]
    exact ih _ (fun w hw => hsub w (List.mem_cons_of_mem _ hw))
      (allB_assocAppend acc (bucketKey v) v hAll ⟨rfl, hsub v (List.mem_cons_self _ _)⟩)

/-- Every entry of the street index parses its record's normalized address
to the entry's house number on the bucket's street. -/
lemma buildStreetIdx_inv (udohmh : List Rec) :
    AllB (fun key p =>
      parseSingleNumber (normalizeAddr p.2.address) = some (p.1, key.1))
      (buildStreetIdx udohmh) := by
  unfold buildStreetIdx
  suffices h : ∀ (l : List Rec) (acc : List ((String × String) × List (Nat × Rec))),
      AllB (fun key p =>
        parseSingleNumber (normalizeAddr p.2.address) = some (p.1, key.1)) acc →
      AllB (fun key p =>
        parseSingleNumber (normalizeAddr p.2.address) = some (p.1, key.1))
        (l.foldl (fun idx v =>
          match parseSingleNumber (normalizeAddr v.address) with
          | some (num, street) =>
            assocAppend idx (street, normalizeBoro v.borough) (num, v)
          | none => idx) acc) by
    exact h udohmh [] (fun kg hkg => by simp at hkg)
  intro l
  induction l with
  | nil => intro acc hAll; exact hAll
  | cons v rest ih =>
    intro acc hAll
    simp only [List.foldl_cons]
    cases hp : parseSingleNumber (normalizeAddr v.address) with
    | none =>
      apply ih
      exact hAll
    | some ns =>
      obtain ⟨num, street⟩ := ns
      apply ih
      simp only [hp]
      exact allB_assocAppend acc (street, normalizeBoro v.borough) (num, v) hAll hp

/-- Provenance of a Pass 1 combined record: it arises from one bucket whose
first DOHMH and first SLA member are its constituents. -/
lemma pass1_comb_mem {buckets : List ((String × String) × List Rec)} {d s : Rec}
    (h : Out.comb d s ∈ (pass1Run buckets).merged) :
    ∃ kg ∈ buckets,
      kg.2.find? (fun v => v.source == "dohmh") = some d ∧
      kg.2.find? (fun v => v.source == "sla") = some s := by
  unfold pass1Run at h
  suffices hgen : ∀ (bs : List ((String × String) × List Rec)) (acc : P1Acc),
      Out.comb d s ∈ (bs.foldl (fun acc b => pass1Step acc b.2) acc).merged →
      Out.comb d s ∈ acc.merged ∨
        ∃ kg ∈ bs,
          kg.2.find? (fun v => v.source == "dohmh") = some d ∧
          kg.2.find? (fun v => v.source == "sla") = some s by
    rcases hgen buckets ⟨[], [], [], 0⟩ h with h1 | h1
    · simp at h1
    · exact h1
  intro bs
  induction bs with
  | nil => intro acc h0; exact Or.inl h0
  | cons b rest ih =>
    intro acc h0
    simp only [List.foldl_cons] at h0
    rcases ih _ h0 with h1 | h1
    · unfold pass1Step at h1
      cases hd : b.2.find? (fun v => v.source == "dohmh") with
      | none =>
        simp only [hd] at h1
        rcases List.mem_append.mp h1 with h2 | h2
        · exact Or.inl h2
        · exfalso
          obtain ⟨x, _, hx⟩ := List.mem_map.mp h2
          exact Out.noConfusion hx
      | some d0 =>
        cases hs : b.2.find? (fun v => v.source == "sla") with
        | none =>
          simp only [hd, hs] at h1
          rcases List.mem_append.mp h1 with h2 | h2
          · exact Or.inl h2
          · exfalso
            obtain ⟨x, _, hx⟩ := List.mem_map.mp h2
            exact Out.noConfusion hx
        | some s0 =>
          simp only [hd, hs] at h1
          rcases List.mem_append.mp h1 with h2 | h2
          · rcases List.mem_append.mp h2 with h3 | h3
            · exact Or.inl h3
            · simp only [List.mem_singleton] at h3
              obtain ⟨hd0, hs0⟩ := Out.comb.inj h3.symm
              refine Or.inr ⟨b, List.mem_cons_self _ _, ?_, ?_⟩
              · rw [hd, hd0]
              · rw [hs, hs0]
          · exfalso
            obtain ⟨x, _, hx⟩ := List.mem_map.mp h2
            exact Out.noConfusion hx
    · obtain ⟨kg, hkg, hrest⟩ := h1
      exact Or.inr ⟨kg, List.mem_cons_of_mem _ hkg, hrest⟩

/-- Provenance of a Pass 2 combined record: its DOHMH constituent is an
entry of the street index. -/
lemma pass2_comb_mem {idx : List ((String × String) × List (Nat × Rec))}
    {usla : List Rec} {d s : Rec}
    (h : Out.comb d s ∈ (pass2Run idx usla).merged) :
    ∃ key num, (num, d) ∈ lookupKey idx key := by
  unfold pass2Run at h
  suffices hgen : ∀ (l : List Rec) (acc : ClaimAcc),
      Out.comb d s ∈ (l.foldl (pass2Step idx) acc).merged →
      Out.comb d s ∈ acc.merged ∨ ∃ key num, (num, d) ∈ lookupKey idx key by
    rcases hgen usla ⟨[], [], []⟩ h with h1 | h1
    · simp at h1
    · exact h1
  intro l
  induction l with
  | nil => intro acc h0; exact Or.inl h0
  | cons v rest ih =>
    intro acc h0
    simp only [List.foldl_cons] at h0
    rcases ih _ h0 with h1 | h1
    · unfold pass2Step at h1
      cases hp : parseRange v.address with
      | none => simp only [hp] at h1; exact Or.inl h1
      | some r =>
        obtain ⟨lo, hi, street⟩ := r
        simp only [hp] at h1
        cases hf : (lookupKey idx (street, normalizeBoro v.borough)).find?
            (fun p => lo ≤ p.1 && p.1 ≤ hi && !(acc.claimedDohmh.contains p.2.rid)) with
        | none => simp only [hf] at h1; exact Or.inl h1
        | some p =>
          simp only [hf] at h1
          rcases List.mem_append.mp h1 with h2 | h2
          · exact Or.inl h2
          · simp only [List.mem_singleton] at h2
            obtain ⟨hdp, _⟩ := Out.comb.inj h2.symm
            refine Or.inr ⟨(street, normalizeBoro v.borough), p.1, ?_⟩
            have := List.mem_of_find?_eq_some hf
            rw [← hdp]
            simpa using this
    · exact Or.inr h1

/-- C10: Pass 1 never merges two records whose addresses normalize to the
empty string.  Each such record is bucketed under its unique no-address key
built from its object id, so with distinct object ids an address-less
Authority and an address-less License record can never share a Pass 1
bucket, and Pass 2 cannot claim an address-less Authority record either;
any combined record made of two such records therefore comes from the
geo-proximity Pass 3. -/
theorem c10_empty_address_only_geo_merge (dist : DistFn) (vs : List Rec)
    (d s : Rec)
    (hids : (vs.map (fun v => toString v.rid)).Nodup)
    (happ : Out.comb d s ∈ (mergeCrossSource dist vs).1)
    (hd : normalizeAddr d.address = "") (hs : normalizeAddr s.address = "") :
    Out.comb d s ∈ (mergePipeline dist vs).p3.merged := by
  have houts : (mergeCrossSource dist vs).1 =
      (mergePipeline dist vs).p1.merged ++ (mergePipeline dist vs).p2.merged ++
        (mergePipeline dist vs).p3.merged ++
        (mergePipeline dist vs).finalSla.map Out.plain ++
        (mergePipeline dist vs).finalDohmh.map Out.plain := rfl
  rw [houts] at happ
  have hp1 : (mergePipeline dist vs).p1 = pass1Run (buildBuckets vs) := rfl
  rcases List.mem_append.mp happ with h1 | h1
  · rcases List.mem_append.mp h1 with h2 | h2
    · rcases List.mem_append.mp h2 with h3 | h3
      · rcases List.mem_append.mp h3 with h4 | h4
        · exfalso
          rw [hp1] at h4
          obtain ⟨kg, hkg, hfd, hfs⟩ := pass1_comb_mem h4
          have hinv := buildBuckets_inv vs
          have hdmem := List.mem_of_find?_eq_some hfd
          have hsmem := List.mem_of_find?_eq_some hfs
          obtain ⟨hdkey, hdvs⟩ := hinv kg hkg d hdmem
          obtain ⟨hskey, hsvs⟩ := hinv kg hkg s hsmem
          have hdsrc : d.source = "dohmh" := by
            have := List.find?_some hfd; simpa using this
          have hssrc : s.source = "sla" := by
            have := List.find?_some hfs; simpa using this
          have hkd : bucketKey d = ("_noaddr_" ++ toString d.rid, "") := by
            unfold bucketKey
            simp [hd]
          have hks : bucketKey s = ("_noaddr_" ++ toString s.rid, "") := by
            unfold bucketKey
            simp [hs]
          have hkeq : ("_noaddr_" ++ toString d.rid : String) =
              "_noaddr_" ++ toString s.rid := by
            have := hdkey.trans hskey.symm
            rw [hkd, hks] at this
            exact (Prod.mk.injEq _ _ _ _).mp this |>.1
          have htostr : toString d.rid = toString s.rid := by
            apply String.ext
            have hdata := congrArg String.data hkeq
            simp only [String.data_append] at hdata
            exact List.append_cancel_left hdata
          have hde : d = s :=
            List.inj_on_of_nodup_map hids hdvs hsvs htostr
          rw [hde, hssrc] at hdsrc
          exact absurd hdsrc (by decide)
        · exfalso
          have hp2 : (mergePipeline dist vs).p2 =
              pass2Run (buildStreetIdx (mergePipeline dist vs).p1.udohmh)
                (mergePipeline dist vs).p1.usla := rfl
          rw [hp2] at h4
          obtain ⟨key, num, hmem⟩ := pass2_comb_mem h4
          obtain ⟨kg, hkg, hkey, hin⟩ := lookupKey_mem hmem
          have := buildStreetIdx_inv (mergePipeline dist vs).p1.udohmh kg hkg (num, d) hin
          simp only at this
          rw [hd] at this
          have hnone : parseSingleNumber "" = none := rfl
          rw [hnone] at this
          exact Option.noConfusion this
      · exact h3
    · exfalso
      obtain ⟨x, _, hx⟩ := List.mem_map.mp h2
      exact Out.noConfusion hx
  · exfalso
    obtain ⟨x, _, hx⟩ := List.mem_map.mp h1
    exact Out.noConfusion hx

/-- Witness for C10 at a concrete input: two address-less records with
coordinates merge in Pass 3 and nowhere else. -/
theorem c10_empty_address_only_geo_merge_witness :
    (([{ rid := 1, source := "dohmh", name := "cafe", address := "",
         lat := some 1, lng := some 1 },
       { rid := 2, source := "sla", name := "cafe", address := "",
         lat := some 1, lng := some 1 }] : List Rec).map
      (fun v => toString v.rid)).Nodup ∧
    Out.comb
      { rid := 1, source := "dohmh", name := "cafe", address := "",
        lat := some 1, lng := some 1 }
      { rid := 2, source := "sla", name := "cafe", address := "",
        lat := some 1, lng := some 1 } ∈
      (mergePipeline (fun _ _ _ _ => 1)
        [{ rid := 1, source := "dohmh", name := "cafe", address := "",
           lat := some 1, lng := some 1 },
         { rid := 2, source := "sla", name := "cafe", address := "",
           lat := some 1, lng := some 1 }]).p3.merged := by
  constructor
  · decide
  · apply c10_empty_address_only_geo_merge (fun _ _ _ _ => 1)
    · decide
    · decide
    · decide
    · decide

/-! ### C4: the Pass 3 candidate scan -/

lemma pass3ScanFold_spec (dist : DistFn) (claimed : List Nat) (slat slng : ℚ)
    (nm : String)
    (F : Option (ℚ × Rec) → Rec → Option (ℚ × Rec))
    (hF : F = fun best dv =>
      if claimed.contains dv.rid then best
      else
        let d := dist slat slng (dv.lat.getD 0) (dv.lng.getD 0)
        if (match best with
            | none => true
            | some bd => decide (d < bd.1)) then
          if GEO_NAME_THRESHOLD ≤ pyRatio nm (pyNormalize dv.name) then
            some (d, dv)
          else best
        else best) :
    ∀ (cands : List Rec) (b0 : Option (ℚ × Rec)),
      (cands.foldl F b0 = b0 ∨
        ∃ bm, bm ∈ cands ∧ claimed.contains bm.rid = false ∧
          GEO_NAME_THRESHOLD ≤ pyRatio nm (pyNormalize bm.name) ∧
          cands.foldl F b0 =
            some (dist slat slng (bm.lat.getD 0) (bm.lng.getD 0), bm)) ∧
      (∀ bd0 bm0, b0 = some (bd0, bm0) →
        ∃ bd bm, cands.foldl F b0 = some (bd, bm) ∧ bd ≤ bd0) ∧
      (∀ c ∈ cands, claimed.contains c.rid = false →
        GEO_NAME_THRESHOLD ≤ pyRatio nm (pyNormalize c.name) →
        ∃ bd bm, cands.foldl F b0 = some (bd, bm) ∧
          bd ≤ dist slat slng (c.lat.getD 0) (c.lng.getD 0)) := by
  intro cands
  induction cands with
  | nil =>
    intro b0
    refine ⟨Or.inl rfl, ?_, ?_⟩
    · intro bd0 bm0 hb0
      exact ⟨bd0, bm0, by simpa using hb0, le_refl _⟩
    · intro c hc; simp at hc
  | cons c rest ih =>
    intro b0
    have hstep : ∀ b, List.foldl F b (c :: rest) = List.foldl F (F b c) rest := by
      intro b; simp [List.foldl_cons]
    rw [hstep]
    by_cases hclaim : claimed.contains c.rid = true
    · have hFc : F b0 c = b0 := by rw [hF]; exact if_pos hclaim
      rw [hFc]
      obtain ⟨ihA, ihB, ihC⟩ := ih b0
      refine ⟨?_, ihB, ?_⟩
      · rcases ihA with h | ⟨bm, h1, h2, h3, h4⟩
        · exact Or.inl h
        · exact Or.inr ⟨bm, List.mem_cons_of_mem _ h1, h2, h3, h4⟩
      · intro x hx hxc hxs
        rcases List.mem_cons.mp hx with heq | hmem
        · subst heq; rw [hclaim] at hxc; exact Bool.noConfusion hxc
        · exact ihC x hmem hxc hxs
    · have hclaim' : claimed.contains c.rid = false := by simpa using hclaim
      by_cases hcloser : (match b0 with
          | none => true
          | some bd => decide (dist slat slng (c.lat.getD 0) (c.lng.getD 0) < bd.1)) = true
      · by_cases hsim : GEO_NAME_THRESHOLD ≤ pyRatio nm (pyNormalize c.name)
        · have hFc : F b0 c =
              some (dist slat slng (c.lat.getD 0) (c.lng.getD 0), c) := by
            rw [hF]
            simp only [hclaim', Bool.false_eq_true, if_neg, not_false_iff]
            rw [if_pos hcloser, if_pos hsim]
          rw [hFc]
          obtain ⟨ihA, ihB, ihC⟩ :=
            ih (some (dist slat slng (c.lat.getD 0) (c.lng.getD 0), c))
          have hres : ∃ bd bm,
              List.foldl F (some (dist slat slng (c.lat.getD 0) (c.lng.getD 0), c)) rest =
                some (bd, bm) ∧
              bd ≤ dist slat slng (c.lat.getD 0) (c.lng.getD 0) :=
            ihB _ _ rfl
          refine ⟨?_, ?_, ?_⟩
          · rcases ihA with h | ⟨bm, h1, h2, h3, h4⟩
            · exact Or.inr ⟨c, List.mem_cons_self _ _, hclaim', hsim, h⟩
            · exact Or.inr ⟨bm, List.mem_cons_of_mem _ h1, h2, h3, h4⟩
          · intro bd0 bm0 hb0
            obtain ⟨bd, bm, hr, hle⟩ := hres
            refine ⟨bd, bm, hr, ?_⟩
            cases b0 with
            | none => exact Option.noConfusion hb0
            | some p =>
              have hp : p = (bd0, bm0) := Option.some.inj hb0
              subst hp
              simp only [decide_eq_true_eq] at hcloser
              exact le_trans hle (le_of_lt hcloser)
          · intro x hx hxc hxs
            rcases List.mem_cons.mp hx with heq | hmem
            · subst heq
              obtain ⟨bd, bm, hr, hle⟩ := hres
              exact ⟨bd, bm, hr, hle⟩
            · exact ihC x hmem hxc hxs
        · have hFc : F b0 c = b0 := by
            rw [hF]
            simp only [hclaim', Bool.false_eq_true, if_neg, not_false_iff]
            rw [if_pos hcloser, if_neg hsim]
          rw [hFc]
          obtain ⟨ihA, ihB, ihC⟩ := ih b0
          refine ⟨?_, ihB, ?_⟩
          · rcases ihA with h | ⟨bm, h1, h2, h3, h4⟩
            · exact Or.inl h
            · exact Or.inr ⟨bm, List.mem_cons_of_mem _ h1, h2, h3, h4⟩
          · intro x hx hxc hxs
            rcases List.mem_cons.mp hx with heq | hmem
            · subst heq; exact absurd hxs hsim
            · exact ihC x hmem hxc hxs
      · have hFc : F b0 c = b0 := by
          rw [hF]
          simp only [hclaim', Bool.false_eq_true, if_neg, not_false_iff]
          rw [if_neg (by simpa using hcloser)]
        rw [hFc]
        obtain ⟨ihA, ihB, ihC⟩ := ih b0
        have hb0some : ∃ bd0 bm0, b0 = some (bd0, bm0) ∧
            bd0 ≤ dist slat slng (c.lat.getD 0) (c.lng.getD 0) := by
          cases b0 with
          | none => simp at hcloser
          | some p =>
            refine ⟨p.1, p.2, by simp, ?_⟩
            simp only [decide_eq_true_eq] at hcloser
            exact le_of_not_lt hcloser
        refine ⟨?_, ihB, ?_⟩
        · rcases ihA with h | ⟨bm, h1, h2, h3, h4⟩
          · exact Or.inl h
          · exact Or.inr ⟨bm, List.mem_cons_of_mem _ h1, h2, h3, h4⟩
        · intro x hx hxc hxs
          rcases List.mem_cons.mp hx with heq | hmem
          · subst heq
            obtain ⟨bd0, bm0, hb0, hle⟩ := hb0some
            obtain ⟨bd, bm, hr, hle2⟩ := ihB bd0 bm0 hb0
            exact ⟨bd, bm, hr, le_trans hle2 hle⟩
          · exact ihC x hmem hxc hxs

/-- C4 amended: when the Pass 3 scan adopts a candidate, that candidate is
an unclaimed member of the scanned 9-cell candidate list, it passes the
name-similarity gate, the reported distance is its distance, and it is
closest among the unclaimed candidates that pass the gate.  Candidates
below the similarity threshold are skipped individually rather than
blocking the merge, so a below-threshold closest candidate does not prevent
a farther gate-passing candidate within the radius from merging. -/
theorem c4_scan_selects_closest_gate_passing (dist : DistFn)
    (claimed : List Nat) (slat slng : ℚ) (nm : String) (cands : List Rec)
    (bd : ℚ) (bm : Rec)
    (h : pass3Scan dist claimed slat slng nm cands = some (bd, bm)) :
    bm ∈ cands ∧ claimed.contains bm.rid = false ∧
      GEO_NAME_THRESHOLD ≤ pyRatio nm (pyNormalize bm.name) ∧
      bd = dist slat slng (bm.lat.getD 0) (bm.lng.getD 0) ∧
      (∀ c ∈ cands, claimed.contains c.rid = false →
        GEO_NAME_THRESHOLD ≤ pyRatio nm (pyNormalize c.name) →
        bd ≤ dist slat slng (c.lat.getD 0) (c.lng.getD 0)) := by
  have hspec := pass3ScanFold_spec dist claimed slat slng nm _ rfl cands none
  obtain ⟨hA, _, hC⟩ := hspec
  have hres : pass3Scan dist claimed slat slng nm cands =
      cands.foldl _ none := rfl
  rw [hres] at h
  rcases hA with h0 | ⟨bm', h1, h2, h3, h4⟩
  · rw [h0] at h; exact Option.noConfusion h
  · have hinj := Option.some.inj (h4.symm.trans h)
    have hbd : dist slat slng (bm'.lat.getD 0) (bm'.lng.getD 0) = bd :=
      congrArg Prod.fst hinj
    have hbm : bm' = bm := congrArg Prod.snd hinj
    subst hbm
    refine ⟨h1, h2, h3, hbd.symm, ?_⟩
    intro c hc hcc hcs
    obtain ⟨bd2, bm2, hr2, hle2⟩ := hC c hc hcc hcs
    have hinj2 := Option.some.inj (h4.symm.trans hr2)
    have hbd2 : dist slat slng (bm'.lat.getD 0) (bm'.lng.getD 0) = bd2 :=
      congrArg Prod.fst hinj2
    rw [← hbd, hbd2]
    exact hle2

/-- Witness for the amended C4: a single matching candidate at distance 5
is adopted. -/
theorem c4_scan_selects_closest_gate_passing_witness :
    pass3Scan (fun _ _ _ _ => 5) [] 0 0 "cafe"
        [{ rid := 1, source := "dohmh", name := "cafe", lat := some 1, lng := some 1 }] =
      some (5, { rid := 1, source := "dohmh", name := "cafe",
                 lat := some 1, lng := some 1 }) ∧
    { rid := 1, source := "dohmh", name := "cafe", lat := some 1, lng := some 1 } ∈
      [({ rid := 1, source := "dohmh", name := "cafe", lat := some 1, lng := some 1 } : Rec)] :=
  ⟨by decide,
   (c4_scan_selects_closest_gate_passing (fun _ _ _ _ => 5) [] 0 0 "cafe"
      [{ rid := 1, source := "dohmh", name := "cafe", lat := some 1, lng := some 1 }]
      5 { rid := 1, source := "dohmh", name := "cafe", lat := some 1, lng := some 1 }
      (by decide)).1⟩

/-- The closest candidate of the C4 counterexample: dissimilar name. -/
def c4A1 : Rec :=
  { rid := 1, source := "dohmh", name := "qqqq", address := "1 A ST",
    borough := "Manhattan", lat := some (mkRat 4070013 100000),
    lng := some (mkRat (-740001) 10000) }

/-- The farther candidate of the C4 counterexample: same name. -/
def c4A2 : Rec :=
  { rid := 2, source := "dohmh", name := "cafe", address := "2 B ST",
    borough := "Manhattan", lat := some (mkRat 4070018 100000),
    lng := some (mkRat (-740001) 10000) }

/-- The License record of the C4 counterexample. -/
def c4L : Rec :=
  { rid := 3, source := "sla", name := "cafe", address := "3 C ST",
    borough := "Manhattan", lat := some (mkRat 407001 10000),
    lng := some (mkRat (-740001) 10000) }

/-- The distance function of the C4 counterexample: 5 m to the first
candidate, 10 m to the second. -/
def c4Dist : DistFn := fun _ _ dlat _ =>
  if dlat == mkRat 4070013 100000 then 5 else 10

/-- C4 counterexample: in this input the closest unclaimed candidate of the
License record is the dissimilar-name record at 5 m, below the similarity
threshold; the claim says that yields no merge for the License record, but
merge_cross_source merges it with the similar-name candidate at 10 m. -/
theorem c4_closest_below_threshold_still_merges :
    c4A1 ∈ pass3Cands (mergePipeline c4Dist [c4A1, c4A2, c4L]).grid
        (cellOf (mkRat 407001 10000) (mkRat (-740001) 10000)) ∧
    c4A2 ∈ pass3Cands (mergePipeline c4Dist [c4A1, c4A2, c4L]).grid
        (cellOf (mkRat 407001 10000) (mkRat (-740001) 10000)) ∧
    c4Dist (mkRat 407001 10000) (mkRat (-740001) 10000)
        (c4A1.lat.getD 0) (c4A1.lng.getD 0) <
      c4Dist (mkRat 407001 10000) (mkRat (-740001) 10000)
        (c4A2.lat.getD 0) (c4A2.lng.getD 0) ∧
    pyRatio (pyNormalize c4L.name) (pyNormalize c4A1.name) < GEO_NAME_THRESHOLD ∧
    Out.comb c4A2 c4L ∈ (mergeCrossSource c4Dist [c4A1, c4A2, c4L]).1 ∧
    (mergeCrossSource c4Dist [c4A1, c4A2, c4L]).2.pass3 = 1 :=
  ⟨by decide, by decide, by decide, by decide, by decide, by decide⟩

/-! ### Ledger machinery shared by C2, C3 and C6 -/

/-- SELECT a single row by primary key. -/
def findRow (db : List Row) (k : String) : Option Row :=
  db.find? (fun r => r.key == k)

lemma findRow_updateRow {db : List Row} {k0 k : String} {f : Row → Row}
    (hf : ∀ row, (f row).key = row.key) :
    findRow (updateRow db k0 f) k =
      if k0 = k then (findRow db k).map f else findRow db k := by
  induction db with
  | nil => simp [findRow, updateRow]
  | cons r rest ih =>
    unfold findRow updateRow at *
    simp only [List.map_cons, List.find?_cons]
    by_cases hrk : (r.key == k0) = true
    · have hrk' : r.key = k0 := by simpa using hrk
      by_cases hkk : k0 = k
      · subst hkk
        simp only [hrk, if_pos]
        have h1 : ((f r).key == k0) = true := by
          rw [hf r]; exact hrk
        simp [h1, hrk']
      · have h1 : ((f r).key == k) = false := by
          rw [hf r]
          simp only [beq_eq_false_iff_ne, ne_eq]
          rw [hrk']
          exact fun h => hkk h
        have h2 : (r.key == k) = false := by
          simp only [beq_eq_false_iff_ne, ne_eq]
          rw [hrk']
          exact fun h => hkk h
        simp only [hrk, if_pos, h1, h2, Bool.false_eq_true, if_neg,
          not_false_iff, hkk]
        simpa [findRow, updateRow, hkk] using ih
    · have hrk2 : (r.key == k0) = false := by simpa using hrk
      simp only [hrk2, Bool.false_eq_true, if_neg, not_false_iff]
      by_cases hk : (r.key == k) = true
      · by_cases hkk : k0 = k
        · subst hkk
          rw [hk] at hrk2
          exact Bool.noConfusion hrk2
        · simp [hk, hkk]
      · have hk' : (r.key == k) = false := by simpa using hk
        simp only [hk', Bool.false_eq_true, if_neg, not_false_iff]
        simpa [findRow, updateRow] using ih

lemma findRow_self {db : List Row} {r : Row}
    (hnd : (db.map Row.key).Nodup) (hr : r ∈ db) :
    findRow db r.key = some r := by
  induction db with
  | nil => simp at hr
  | cons h rest ih =>
    unfold findRow
    simp only [List.find?_cons]
    rcases List.mem_cons.mp hr with heq | hmem
    · subst heq
      simp
    · by_cases hk : (h.key == r.key) = true
      · exfalso
        simp only [List.map_cons, List.nodup_cons] at hnd
        apply hnd.1
        have : h.key = r.key := by simpa using hk
        rw [this]
        exact List.mem_map.mpr ⟨r, hmem, rfl⟩
      · have hk' : (h.key == r.key) = false := by simpa using hk
        simp only [hk', Bool.false_eq_true, if_neg, not_false_iff]
        simp only [List.map_cons, List.nodup_cons] at hnd
        exact ih hnd.2 hmem

lemma applyYelpResult_key (now : String) (hit : Option Biz) (row : Row) :
    (applyYelpResult now hit row).key = row.key := rfl

lemma applyGoogleResult_key (now : String) (cands : List GCand) (row : Row) :
    (applyGoogleResult now cands row).key = row.key := rfl

lemma stepCommit_current (p n : Nat) (c : Conn) :
    (stepCommit p n c).current = c.current := by
  unfold stepCommit commitConn
  by_cases h : (n % p == 0) = true
  · simp [h]
  · have h' : (n % p == 0) = false := by simpa using h
    simp [h']

/-- The row transform of a Yelp check that got a successful response. -/
def yelpOkTransform (api : String → YelpResp) (now : String) (row : Row) : Row :=
  match api row.key with
  | .ok bs => applyYelpResult now (yelpHit row.name bs) row
  | _ => row

/-- The row transform of a Google check that got a successful response. -/
def googleOkTransform (api : String → GoogleResp) (now : String) (row : Row) : Row :=
  match api row.key with
  | .ok cands => applyGoogleResult now cands row
  | _ => row

lemma yelpOkTransform_key (api : String → YelpResp) (now : String) (row : Row) :
    (yelpOkTransform api now row).key = row.key := by
  unfold yelpOkTransform
  cases api row.key <;> rfl

lemma googleOkTransform_key (api : String → GoogleResp) (now : String) (row : Row) :
    (googleOkTransform api now row).key = row.key := by
  unfold googleOkTransform
  cases api row.key <;> rfl

/-- The row loop of check_yelp under an always-successful stub: every
selected row is transformed by its own response, nothing else changes, the
loop counts every row, and the final state is committed. -/
lemma yelpLoop_allok (api : String → YelpResp) (now : String) :
    ∀ (rows : List Row) (conn : Conn) (checked : Nat),
      (∀ r ∈ rows, ∃ bs, api r.key = .ok bs) →
      (conn.current.map Row.key).Nodup →
      (rows.map Row.key).Nodup →
      (∀ r ∈ rows, r ∈ conn.current) →
      (yelpLoop api now conn rows checked).2 = checked + rows.length ∧
        (yelpLoop api now conn rows checked).1.current =
          conn.current.map (fun row =>
            if (rows.map Row.key).contains row.key then yelpOkTransform api now row
            else row) ∧
        (yelpLoop api now conn rows checked).1.committed =
          (yelpLoop api now conn rows checked).1.current := by
  intro rows
  induction rows with
  | nil =>
    intro conn checked _ _ _ _
    refine ⟨by simp [yelpLoop], ?_, by simp [yelpLoop, commitConn]⟩
    simp [yelpLoop, commitConn]
  | cons r rest ih =>
    intro conn checked hok hnd hrowsnd hsub
    obtain ⟨bs, hbs⟩ := hok r (List.mem_cons_self _ _)
    have hr : r ∈ conn.current := hsub r (List.mem_cons_self _ _)
    have hloop : yelpLoop api now conn (r :: rest) checked =
        yelpLoop api now
          (stepCommit 200 (checked + 1)
            { conn with
              current := updateRow conn.current r.key
                (applyYelpResult now (yelpHit r.name bs)) })
          rest (checked + 1) := by
      rw [yelpLoop, hbs]
    rw [hloop]
    set conn1 := stepCommit 200 (checked + 1)
      { conn with
        current := updateRow conn.current r.key
          (applyYelpResult now (yelpHit r.name bs)) } with hconn1
    have hcur1 : conn1.current =
        conn.current.map (fun row =>
          if row.key == r.key then yelpOkTransform api now row else row) := by
      rw [hconn1, stepCommit_current]
      show updateRow conn.current r.key (applyYelpResult now (yelpHit r.name bs)) = _
      unfold updateRow
      apply List.map_congr_left
      intro row hrow
      by_cases hk : (row.key == r.key) = true
      · have hkeq : row.key = r.key := by simpa using hk
        have hroweq : row = r :=
          List.inj_on_of_nodup_map hnd hrow hr hkeq
        subst hroweq
        simp only [hk, if_pos]
        unfold yelpOkTransform
        rw [hbs]
      · have hk' : (row.key == r.key) = false := by simpa using hk
        simp [hk']
    have hkeys1 : conn1.current.map Row.key = conn.current.map Row.key := by
      rw [hcur1, List.map_map]
      apply List.map_congr_left
      intro row _
      by_cases hk : (row.key == r.key) = true
      · simp only [Function.comp_apply, hk, if_pos]
        exact yelpOkTransform_key api now row
      · have hne : row.key ≠ r.key := by simpa using hk
        simp [Function.comp_apply, hne]
    have hnd1 : (conn1.current.map Row.key).Nodup := by
      rw [hkeys1]; exact hnd
    have hrkey : r.key ∉ rest.map Row.key := by
      simp only [List.map_cons, List.nodup_cons] at hrowsnd
      exact hrowsnd.1
    have hsub1 : ∀ x ∈ rest, x ∈ conn1.current := by
      intro x hx
      rw [hcur1]
      have hxk : (x.key == r.key) = false := by
        simp only [beq_eq_false_iff_ne, ne_eq]
        intro hbad
        apply hrkey
        rw [← hbad]
        exact List.mem_map.mpr ⟨x, hx, rfl⟩
      have : (fun row => if row.key == r.key then yelpOkTransform api now row else row) x = x := by
        simp [hxk]
      rw [← this]
      exact List.mem_map.mpr ⟨x, hsub x (List.mem_cons_of_mem _ hx), rfl⟩
    obtain ⟨ihc, ihm, ihcm⟩ := ih conn1 (checked + 1)
      (fun x hx => hok x (List.mem_cons_of_mem _ hx)) hnd1
      (by simp only [List.map_cons, List.nodup_cons] at hrowsnd; exact hrowsnd.2)
      hsub1
    refine ⟨by rw [ihc]; simp; omega, ?_, ihcm⟩
    rw [ihm, hcur1, List.map_map]
    apply List.map_congr_left
    intro row hrow
    simp only [Function.comp_apply]
    by_cases hk : (row.key == r.key) = true
    · have hkeq : row.key = r.key := by simpa using hk
      have htk : (yelpOkTransform api now row).key = row.key :=
        yelpOkTransform_key api now row
      have hcontains : ((rest.map Row.key).contains (yelpOkTransform api now row).key) = false := by
        rw [htk, hkeq]
        simpa using hrkey
      simp only [hk, if_pos, hcontains, Bool.false_eq_true, if_neg, not_false_iff,
        List.map_cons, List.contains_cons, Bool.true_or]
    · have hk' : (row.key == r.key) = false := by simpa using hk
      simp only [hk', Bool.false_eq_true, if_neg, not_false_iff,
        List.map_cons, List.contains_cons, Bool.false_or]

/-- The row loop of check_google when no request fails: every selected row
is transformed by its own response. -/
lemma googleLoop_allok (api : String → GoogleResp) (now : String) :
    ∀ (rows : List Row) (conn : Conn) (checked : Nat),
      (∀ r ∈ rows, ∃ cands, api r.key = .ok cands) →
      (conn.current.map Row.key).Nodup →
      (rows.map Row.key).Nodup →
      (∀ r ∈ rows, r ∈ conn.current) →
      (googleLoop api now conn rows checked).2 = checked + rows.length ∧
        (googleLoop api now conn rows checked).1.current =
          conn.current.map (fun row =>
            if (rows.map Row.key).contains row.key then googleOkTransform api now row
            else row) ∧
        (googleLoop api now conn rows checked).1.committed =
          (googleLoop api now conn rows checked).1.current := by
  intro rows
  induction rows with
  | nil =>
    intro conn checked _ _ _ _
    refine ⟨by simp [googleLoop], ?_, by simp [googleLoop, commitConn]⟩
    simp [googleLoop, commitConn]
  | cons r rest ih =>
    intro conn checked hok hnd hrowsnd hsub
    obtain ⟨cands, hcands⟩ := hok r (List.mem_cons_self _ _)
    have hr : r ∈ conn.current := hsub r (List.mem_cons_self _ _)
    have hloop : googleLoop api now conn (r :: rest) checked =
        googleLoop api now
          (stepCommit 200 (checked + 1)
            { conn with
              current := updateRow conn.current r.key
                (applyGoogleResult now cands) })
          rest (checked + 1) := by
      rw [googleLoop, hcands]
    rw [hloop]
    set conn1 := stepCommit 200 (checked + 1)
      { conn with
        current := updateRow conn.current r.key (applyGoogleResult now cands) }
      with hconn1
    have hcur1 : conn1.current =
        conn.current.map (fun row =>
          if row.key == r.key then googleOkTransform api now row else row) := by
      rw [hconn1, stepCommit_current]
      show updateRow conn.current r.key (applyGoogleResult now cands) = _
      unfold updateRow
      apply List.map_congr_left
      intro row hrow
      by_cases hk : (row.key == r.key) = true
      · have hkeq : row.key = r.key := by simpa using hk
        have hroweq : row = r :=
          List.inj_on_of_nodup_map hnd hrow hr hkeq
        subst hroweq
        simp only [hk, if_pos]
        unfold googleOkTransform
        rw [hcands]
      · have hk' : (row.key == r.key) = false := by simpa using hk
        simp [hk']
    have hkeys1 : conn1.current.map Row.key = conn.current.map Row.key := by
      rw [hcur1, List.map_map]
      apply List.map_congr_left
      intro row _
      by_cases hk : (row.key == r.key) = true
      · simp only [Function.comp_apply, hk, if_pos]
        exact googleOkTransform_key api now row
      · have hne : row.key ≠ r.key := by simpa using hk
        simp [Function.comp_apply, hne]
    have hnd1 : (conn1.current.map Row.key).Nodup := by
      rw [hkeys1]; exact hnd
    have hrkey : r.key ∉ rest.map Row.key := by
      simp only [List.map_cons, List.nodup_cons] at hrowsnd
      exact hrowsnd.1
    have hsub1 : ∀ x ∈ rest, x ∈ conn1.current := by
      intro x hx
      rw [hcur1]
      have hxk : (x.key == r.key) = false := by
        simp only [beq_eq_false_iff_ne, ne_eq]
        intro hbad
        apply hrkey
        rw [← hbad]
        exact List.mem_map.mpr ⟨x, hx, rfl⟩
      have : (fun row => if row.key == r.key then googleOkTransform api now row else row) x = x := by
        simp [hxk]
      rw [← this]
      exact List.mem_map.mpr ⟨x, hsub x (List.mem_cons_of_mem _ hx), rfl⟩
    obtain ⟨ihc, ihm, ihcm⟩ := ih conn1 (checked + 1)
      (fun x hx => hok x (List.mem_cons_of_mem _ hx)) hnd1
      (by simp only [List.map_cons, List.nodup_cons] at hrowsnd; exact hrowsnd.2)
      hsub1
    refine ⟨by rw [ihc]; simp; omega, ?_, ihcm⟩
    rw [ihm, hcur1, List.map_map]
    apply List.map_congr_left
    intro row hrow
    simp only [Function.comp_apply]
    by_cases hk : (row.key == r.key) = true
    · have hkeq : row.key = r.key := by simpa using hk
      have htk : (googleOkTransform api now row).key = row.key :=
        googleOkTransform_key api now row
      have hcontains : ((rest.map Row.key).contains (googleOkTransform api now row).key) = false := by
        rw [htk, hkeq]
        simpa using hrkey
      simp only [hk, if_pos, hcontains, Bool.false_eq_true, if_neg, not_false_iff,
        List.map_cons, List.contains_cons, Bool.true_or]
    · have hk' : (row.key == r.key) = false := by simpa using hk
      simp only [hk', Bool.false_eq_true, if_neg, not_false_iff,
        List.map_cons, List.contains_cons, Bool.false_or]

/-- Filtering a key-nodup list by keys outside its n-prefix leaves exactly
the n-suffix. -/
lemma filter_not_take_keys (F : List Row) (n : Nat)
    (hnd : (F.map Row.key).Nodup) :
    F.filter (fun r => !(((F.take n).map Row.key).contains r.key)) = F.drop n := by
  have hsplit : F.map Row.key = (F.take n).map Row.key ++ (F.drop n).map Row.key := by
    rw [← List.map_append, List.take_append_drop]
  have hdisj : ∀ k ∈ (F.take n).map Row.key, k ∉ (F.drop n).map Row.key := by
    rw [hsplit] at hnd
    exact fun k hk => List.disjoint_of_nodup_append hnd hk
  set K := (F.take n).map Row.key with hK
  have h1 : (F.take n).filter (fun r => !(K.contains r.key)) = [] := by
    rw [List.filter_eq_nil_iff]
    intro r hr
    simp only [Bool.not_eq_true', Bool.not_eq_false]
    rw [hK]
    simpa using List.mem_map.mpr ⟨r, hr, rfl⟩
  have h2 : (F.drop n).filter (fun r => !(K.contains r.key)) = F.drop n := by
    rw [List.filter_eq_self]
    intro r hr
    simp only [Bool.not_eq_true']
    simp only [List.contains_eq_any_beq, Bool.not_eq_true, List.any_eq_false]
    intro x hx
    simp only [beq_eq_false_iff_ne, ne_eq]
    intro hbad
    subst hbad
    exact hdisj r.key hx (List.mem_map.mpr ⟨r, hr, rfl⟩)
  conv_lhs => rw [← List.take_append_drop n F]
  rw [List.filter_append, h1, h2]
  simp

/-- After transforming exactly the rows selected from the unchecked prefix,
the unchecked residue is the suffix of the previous unchecked list. -/
lemma filter_unchecked_after_transform (db : List Row) (n : Nat)
    (T : Row → Row) (statusOf : Row → Status)
    (hnd : (db.map Row.key).Nodup)
    (hT : ∀ row, statusOf (T row) ≠ .unchecked) :
    (db.map (fun row =>
        if ((((db.filter (fun r => statusOf r == .unchecked)).take n).map Row.key).contains
            row.key) then T row else row)).filter
        (fun r => statusOf r == .unchecked) =
      (db.filter (fun r => statusOf r == .unchecked)).drop n := by
  set F := db.filter (fun r => statusOf r == .unchecked) with hF
  have hFnd : (F.map Row.key).Nodup := by
    rw [hF]
    exact List.Nodup.sublist (List.Sublist.map Row.key (List.filter_sublist db)) hnd
  rw [List.filter_map]
  have hcongr : db.filter ((fun r => statusOf r == .unchecked) ∘
      (fun row => if (((F.take n).map Row.key).contains row.key) then T row else row)) =
      db.filter (fun row => !(((F.take n).map Row.key).contains row.key) &&
        (statusOf row == .unchecked)) := by
    apply List.filter_congr
    intro row hrow
    simp only [Function.comp_apply]
    by_cases hc : ((((F.take n).map Row.key).contains row.key)) = true
    · rw [if_pos hc]
      have hne : (statusOf (T row) == Status.unchecked) = false := by
        rw [beq_eq_false_iff_ne]
        exact hT row
      rw [hne, hc]
      simp
    · rw [if_neg hc]
      have hc2 : ((((F.take n).map Row.key).contains row.key)) = false := by
        simpa using hc
      rw [hc2]
      simp
  rw [hcongr]
  have hff : db.filter (fun row => !(((F.take n).map Row.key).contains row.key) &&
      (statusOf row == .unchecked)) =
      F.filter (fun row => !(((F.take n).map Row.key).contains row.key)) := by
    rw [hF, List.filter_filter]
  rw [hff, filter_not_take_keys F n hFnd]
  conv_rhs => rw [← List.map_id (F.drop n)]
  apply List.map_congr_left
  intro row hrow
  have hdisj : ∀ k ∈ (F.take n).map Row.key, k ∉ (F.drop n).map Row.key := by
    have hsplit : F.map Row.key = (F.take n).map Row.key ++ (F.drop n).map Row.key := by
      rw [← List.map_append, List.take_append_drop]
    rw [hsplit] at hFnd
    exact fun k hk => List.disjoint_of_nodup_append hFnd hk
  have hcf : ((((F.take n).map Row.key).contains row.key)) = false := by
    simp only [List.contains_eq_any_beq, List.any_eq_false]
    intro x hx hbad
    have hxk : row.key = x := eq_of_beq hbad
    subst hxk
    exact hdisj row.key hx (List.mem_map.mpr ⟨row, hrow, rfl⟩)
  rw [hcf]
  simp

/-- A positive explicit limit survives the Python or-default. -/
lemma orLimit_some_pos (n d : Nat) (hn : 1 ≤ n) :
    orLimit (some n) d = n := by
  show (if (n != 0) = true then n else d) = n
  have h : (n != 0) = true := by
    simp only [bne_iff_ne, ne_eq]
    omega
  rw [h]
  simp

/-- Any limit the check functions compute is at least 1 when the daily
default is. -/
lemma orLimit_pos (l : Option Nat) (d : Nat) (hd : 1 ≤ d) :
    1 ≤ orLimit l d := by
  cases l with
  | none => exact hd
  | some n =>
    show 1 ≤ (if (n != 0) = true then n else d)
    by_cases hn : (n != 0) = true
    · rw [hn]
      simp only [if_true]
      simp only [bne_iff_ne, ne_eq] at hn
      omega
    · have hn' : (n != 0) = false := by simpa using hn
      rw [hn']
      simpa using hd

/-- A row failing the selection predicate has its key outside every
prefix of the selected rows. -/
lemma key_not_in_filter_take {db : List Row} {p : Row → Bool} {r : Row} (n : Nat)
    (hnd : (db.map Row.key).Nodup) (hr : r ∈ db) (hp : p r = false) :
    ((((db.filter p).take n).map Row.key).contains r.key) = false := by
  simp only [List.contains_eq_any_beq, List.any_eq_false]
  intro x hx hbad
  have hxy : r.key = x := eq_of_beq hbad
  obtain ⟨y, hy, hyk⟩ := List.mem_map.mp hx
  have hyf : y ∈ db.filter p := List.mem_of_mem_take hy
  have hydb : y ∈ db := List.mem_of_mem_filter hyf
  have hpy : p y = true := List.of_mem_filter hyf
  have hyr : y = r := List.inj_on_of_nodup_map hnd hydb hr (by rw [hyk, ← hxy])
  rw [hyr, hp] at hpy
  exact Bool.noConfusion hpy

/-- SELECT by key through a key-preserving UPDATE that fixes the row. -/
lemma findRow_map_fixed {db : List Row} {g : Row → Row} {r : Row}
    (hnd : (db.map Row.key).Nodup) (hkey : ∀ x, (g x).key = x.key)
    (hr : r ∈ db) (hfix : g r = r) :
    findRow (db.map g) r.key = some r := by
  have hkeys : (db.map g).map Row.key = db.map Row.key := by
    rw [List.map_map]
    exact List.map_congr_left (fun x _ => hkey x)
  have hnd' : ((db.map g).map Row.key).Nodup := by rw [hkeys]; exact hnd
  have hrm : r ∈ db.map g := by
    rw [← hfix]
    exact List.mem_map.mpr ⟨r, hr, rfl⟩
  exact findRow_self hnd' hrm

/-- A completed Yelp search never leaves the row unchecked. -/
lemma yelpOkTransform_unchecked (api : String → YelpResp) (now : String)
    (hok : ∀ k, ∃ bs, api k = YelpResp.ok bs) :
    ∀ row, (yelpOkTransform api now row).yelpStatus ≠ .unchecked := by
  intro row
  obtain ⟨bs, hbs⟩ := hok row.key
  unfold yelpOkTransform
  rw [hbs]
  unfold applyYelpResult
  by_cases hh : (yelpHit row.name bs).isSome = true <;> simp [hh]

/-- A completed Google search never leaves the row unchecked. -/
lemma googleOkTransform_unchecked (api : String → GoogleResp) (now : String)
    (hok : ∀ k, ∃ cs, api k = GoogleResp.ok cs) :
    ∀ row, (googleOkTransform api now row).googleStatus ≠ .unchecked := by
  intro row
  obtain ⟨cs, hcs⟩ := hok row.key
  unfold googleOkTransform
  rw [hcs]
  unfold applyGoogleResult
  by_cases hh : cs.head?.isSome = true <;> simp [hh]

/-- check_yelp under an always-successful stub: it checks exactly
min(limit, unchecked) rows, transforms exactly the selected prefix,
preserves the key column, and leaves precisely the unselected suffix
unchecked. -/
lemma checkYelp_allok (api : String → YelpResp) (now : String) (conn : Conn)
    (limit : Option Nat)
    (hok : ∀ k, ∃ bs, api k = YelpResp.ok bs)
    (hnd : (conn.current.map Row.key).Nodup) :
    (checkYelp api now conn limit).2 =
      min (orLimit limit YELP_DAILY_LIMIT)
        (conn.current.filter (fun r => r.yelpStatus == .unchecked)).length ∧
    (checkYelp api now conn limit).1.current =
      conn.current.map (fun row =>
        if ((((conn.current.filter (fun r => r.yelpStatus == .unchecked)).take
              (orLimit limit YELP_DAILY_LIMIT)).map Row.key).contains row.key)
        then yelpOkTransform api now row else row) ∧
    (checkYelp api now conn limit).1.current.map Row.key =
      conn.current.map Row.key ∧
    (checkYelp api now conn limit).1.current.filter
        (fun r => r.yelpStatus == .unchecked) =
      (conn.current.filter (fun r => r.yelpStatus == .unchecked)).drop
        (orLimit limit YELP_DAILY_LIMIT) := by
  set lim := orLimit limit YELP_DAILY_LIMIT with hlim
  have hlim1 : 1 ≤ lim := orLimit_pos limit YELP_DAILY_LIMIT (by decide)
  set F := conn.current.filter (fun r => r.yelpStatus == .unchecked) with hF
  set rows := F.take lim with hrows
  have hck : checkYelp api now conn limit =
      if rows.isEmpty then (conn, 0) else yelpLoop api now conn rows 0 := rfl
  by_cases he : rows.isEmpty = true
  · have hFnil : F = [] := by
      rw [List.isEmpty_iff] at he
      rcases (List.take_eq_nil_iff).mp he with h0 | hnil
      · omega
      · exact hnil
    have hrnil : rows = [] := by rw [hrows, hFnil, List.take_nil]
    have hck0 : checkYelp api now conn limit = (conn, 0) := by
      rw [hck, he]
      rfl
    refine ⟨?_, ?_, ?_, ?_⟩
    · rw [hck0, hFnil]
      simp
    · rw [hck0, hrows, hFnil]
      simp
    · rw [hck0]
    · rw [hck0, ← hF, hFnil]
      simp
  · have he' : rows.isEmpty = false := by simpa using he
    have hck1 : checkYelp api now conn limit = yelpLoop api now conn rows 0 := by
      rw [hck, he']
      rfl
    have hrowsnd : (rows.map Row.key).Nodup := by
      apply List.Nodup.sublist _ hnd
      apply List.Sublist.map
      exact (List.take_sublist _ _).trans (List.filter_sublist _)
    have hsub : ∀ r ∈ rows, r ∈ conn.current := by
      intro r hr
      exact List.mem_of_mem_filter (List.mem_of_mem_take hr)
    obtain ⟨hc, hm, _⟩ := yelpLoop_allok api now rows conn 0
      (fun r _ => hok r.key) hnd hrowsnd hsub
    have hlen : rows.length = min lim F.length := by
      rw [hrows]
      exact List.length_take lim F
    refine ⟨?_, ?_, ?_, ?_⟩
    · rw [hck1, hc, hlen]
      omega
    · rw [hck1, hm]
    · rw [hck1, hm, List.map_map]
      apply List.map_congr_left
      intro row _
      simp only [Function.comp_apply]
      by_cases hk : ((rows.map Row.key).contains row.key) = true
      · rw [if_pos hk]
        exact yelpOkTransform_key api now row
      · rw [if_neg hk]
    · rw [hck1, hm]
      exact filter_unchecked_after_transform conn.current lim
        (yelpOkTransform api now) (fun r => r.yelpStatus) hnd
        (yelpOkTransform_unchecked api now hok)

/-- check_google with no borough filter under an always-successful stub:
same selection and residue discipline as check_yelp. -/
lemma checkGoogle_allok (gapi : String → GoogleResp) (now : String) (conn : Conn)
    (limit : Option Nat)
    (hok : ∀ k, ∃ cs, gapi k = GoogleResp.ok cs)
    (hnd : (conn.current.map Row.key).Nodup) :
    (checkGoogle gapi now conn limit "").2 =
      min (orLimit limit GOOGLE_DAILY_LIMIT)
        (conn.current.filter (fun r => r.googleStatus == .unchecked)).length ∧
    (checkGoogle gapi now conn limit "").1.current =
      conn.current.map (fun row =>
        if ((((conn.current.filter (fun r => r.googleStatus == .unchecked)).take
              (orLimit limit GOOGLE_DAILY_LIMIT)).map Row.key).contains row.key)
        then googleOkTransform gapi now row else row) ∧
    (checkGoogle gapi now conn limit "").1.current.map Row.key =
      conn.current.map Row.key ∧
    (checkGoogle gapi now conn limit "").1.current.filter
        (fun r => r.googleStatus == .unchecked) =
      (conn.current.filter (fun r => r.googleStatus == .unchecked)).drop
        (orLimit limit GOOGLE_DAILY_LIMIT) := by
  set lim := orLimit limit GOOGLE_DAILY_LIMIT with hlim
  have hlim1 : 1 ≤ lim := orLimit_pos limit GOOGLE_DAILY_LIMIT (by decide)
  have hfilters : conn.current.filter (fun r =>
      r.googleStatus == .unchecked &&
        (("" : String) == "" || r.borough.toUpper == ("" : String).toUpper)) =
      conn.current.filter (fun r => r.googleStatus == .unchecked) := by
    apply List.filter_congr
    intro r _
    simp
  set F := conn.current.filter (fun r => r.googleStatus == .unchecked) with hF
  set rows := F.take lim with hrows
  have hck : checkGoogle gapi now conn limit "" =
      if rows.isEmpty then (conn, 0) else googleLoop gapi now conn rows 0 := by
    show (if ((conn.current.filter (fun r =>
        r.googleStatus == .unchecked &&
          (("" : String) == "" || r.borough.toUpper == ("" : String).toUpper))).take
        lim).isEmpty then (conn, 0)
      else googleLoop gapi now conn ((conn.current.filter (fun r =>
        r.googleStatus == .unchecked &&
          (("" : String) == "" || r.borough.toUpper == ("" : String).toUpper))).take
        lim) 0) =
      if rows.isEmpty then (conn, 0) else googleLoop gapi now conn rows 0
    rw [hfilters, ← hrows]
  by_cases he : rows.isEmpty = true
  · have hFnil : F = [] := by
      rw [List.isEmpty_iff] at he
      rcases (List.take_eq_nil_iff).mp he with h0 | hnil
      · omega
      · exact hnil
    have hck0 : checkGoogle gapi now conn limit "" = (conn, 0) := by
      rw [hck, he]
      rfl
    refine ⟨?_, ?_, ?_, ?_⟩
    · rw [hck0, hFnil]
      simp
    · rw [hck0, hrows, hFnil]
      simp
    · rw [hck0]
    · rw [hck0, ← hF, hFnil]
      simp
  · have he' : rows.isEmpty = false := by simpa using he
    have hck1 : checkGoogle gapi now conn limit "" =
        googleLoop gapi now conn rows 0 := by
      rw [hck, he']
      rfl
    have hrowsnd : (rows.map Row.key).Nodup := by
      apply List.Nodup.sublist _ hnd
      apply List.Sublist.map
      exact (List.take_sublist _ _).trans (List.filter_sublist _)
    have hsub : ∀ r ∈ rows, r ∈ conn.current := by
      intro r hr
      exact List.mem_of_mem_filter (List.mem_of_mem_take hr)
    obtain ⟨hc, hm, _⟩ := googleLoop_allok gapi now rows conn 0
      (fun r _ => hok r.key) hnd hrowsnd hsub
    have hlen : rows.length = min lim F.length := by
      rw [hrows]
      exact List.length_take lim F
    refine ⟨?_, ?_, ?_, ?_⟩
    · rw [hck1, hc, hlen]
      omega
    · rw [hck1, hm]
    · rw [hck1, hm, List.map_map]
      apply List.map_congr_left
      intro row _
      simp only [Function.comp_apply]
      by_cases hk : ((rows.map Row.key).contains row.key) = true
      · rw [if_pos hk]
        exact googleOkTransform_key gapi now row
      · rw [if_neg hk]
    · rw [hck1, hm]
      exact filter_unchecked_after_transform conn.current lim
        (googleOkTransform gapi now) (fun r => r.googleStatus) hnd
        (googleOkTransform_unchecked gapi now hok)

/-- **C2** (corrected: the claim holds for explicit limits N ≥ 1; at N = 0
the Python or-default substitutes the daily limit).  With external calls
stubbed to always succeed and distinct venue keys, calling check_yelp
(resp. check_google with no borough filter) twice with limit N transitions
exactly the first min(N, unchecked) previously-unchecked rows per call,
leaves the corresponding suffix unchecked, totals min(2N, unchecked)
checked rows, and never touches a row whose status is already decided. -/
theorem c2_limited_checks_resume
    (api : String → YelpResp) (gapi : String → GoogleResp)
    (now1 now2 : String) (conn : Conn) (N : Nat)
    (hok : ∀ k, ∃ bs, api k = YelpResp.ok bs)
    (hgok : ∀ k, ∃ cs, gapi k = GoogleResp.ok cs)
    (hnd : (conn.current.map Row.key).Nodup)
    (hN : 1 ≤ N) :
    ((checkYelp api now1 conn (some N)).2 =
        min N (conn.current.filter (fun r => r.yelpStatus == .unchecked)).length ∧
      (checkYelp api now1 conn (some N)).1.current.filter
          (fun r => r.yelpStatus == .unchecked) =
        (conn.current.filter (fun r => r.yelpStatus == .unchecked)).drop N ∧
      (checkYelp api now2 (checkYelp api now1 conn (some N)).1 (some N)).1.current.filter
          (fun r => r.yelpStatus == .unchecked) =
        (conn.current.filter (fun r => r.yelpStatus == .unchecked)).drop (N + N) ∧
      (checkYelp api now1 conn (some N)).2 +
          (checkYelp api now2 (checkYelp api now1 conn (some N)).1 (some N)).2 =
        min (2 * N)
          (conn.current.filter (fun r => r.yelpStatus == .unchecked)).length ∧
      (∀ r ∈ conn.current, r.yelpStatus ≠ .unchecked →
        findRow
          (checkYelp api now2 (checkYelp api now1 conn (some N)).1 (some N)).1.current
          r.key = some r)) ∧
    ((checkGoogle gapi now1 conn (some N) "").2 =
        min N (conn.current.filter (fun r => r.googleStatus == .unchecked)).length ∧
      (checkGoogle gapi now1 conn (some N) "").1.current.filter
          (fun r => r.googleStatus == .unchecked) =
        (conn.current.filter (fun r => r.googleStatus == .unchecked)).drop N ∧
      (checkGoogle gapi now2 (checkGoogle gapi now1 conn (some N) "").1 (some N)
            "").1.current.filter (fun r => r.googleStatus == .unchecked) =
        (conn.current.filter (fun r => r.googleStatus == .unchecked)).drop (N + N) ∧
      (checkGoogle gapi now1 conn (some N) "").2 +
          (checkGoogle gapi now2 (checkGoogle gapi now1 conn (some N) "").1 (some N)
            "").2 =
        min (2 * N)
          (conn.current.filter (fun r => r.googleStatus == .unchecked)).length ∧
      (∀ r ∈ conn.current, r.googleStatus ≠ .unchecked →
        findRow
          (checkGoogle gapi now2 (checkGoogle gapi now1 conn (some N) "").1 (some N)
            "").1.current r.key = some r)) := by
  have horl : orLimit (some N) YELP_DAILY_LIMIT = N :=
    orLimit_some_pos N YELP_DAILY_LIMIT hN
  have hgorl : orLimit (some N) GOOGLE_DAILY_LIMIT = N :=
    orLimit_some_pos N GOOGLE_DAILY_LIMIT hN
  obtain ⟨y1c, y1m, y1k, y1f⟩ := checkYelp_allok api now1 conn (some N) hok hnd
  rw [horl] at y1c y1m y1f
  have hnd1 : ((checkYelp api now1 conn (some N)).1.current.map Row.key).Nodup := by
    rw [y1k]; exact hnd
  obtain ⟨y2c, y2m, y2k, y2f⟩ :=
    checkYelp_allok api now2 (checkYelp api now1 conn (some N)).1 (some N) hok hnd1
  rw [horl] at y2c y2m y2f
  obtain ⟨g1c, g1m, g1k, g1f⟩ := checkGoogle_allok gapi now1 conn (some N) hgok hnd
  rw [hgorl] at g1c g1m g1f
  have hgnd1 : ((checkGoogle gapi now1 conn (some N) "").1.current.map Row.key).Nodup := by
    rw [g1k]; exact hnd
  obtain ⟨g2c, g2m, g2k, g2f⟩ :=
    checkGoogle_allok gapi now2 (checkGoogle gapi now1 conn (some N) "").1 (some N)
      hgok hgnd1
  rw [hgorl] at g2c g2m g2f
  refine ⟨⟨y1c, y1f, ?_, ?_, ?_⟩, ⟨g1c, g1f, ?_, ?_, ?_⟩⟩
  · rw [y2f, y1f, List.drop_drop]
  · rw [y1c, y2c, y1f, List.length_drop]
    omega
  · intro r hr hstat
    have hp : (r.yelpStatus == Status.unchecked) = false := by
      simpa [beq_eq_false_iff_ne] using hstat
    have hc1 : ((((conn.current.filter
        (fun r => r.yelpStatus == .unchecked)).take N).map Row.key).contains
          r.key) = false :=
      key_not_in_filter_take N hnd hr hp
    have hm1 : r.key ∉ List.take N (List.map Row.key
        (conn.current.filter (fun r => r.yelpStatus == .unchecked))) := by
      rw [← List.map_take]
      simpa using hc1
    have hr1 : r ∈ (checkYelp api now1 conn (some N)).1.current := by
      rw [y1m]
      refine List.mem_map.mpr ⟨r, hr, ?_⟩
      simp [hm1]
    have hc2 : (((((checkYelp api now1 conn (some N)).1.current.filter
        (fun r => r.yelpStatus == .unchecked)).take N).map Row.key).contains
          r.key) = false :=
      key_not_in_filter_take N hnd1 hr1 hp
    rw [y2m]
    refine findRow_map_fixed hnd1 ?_ hr1 ?_
    · intro x
      dsimp only
      split
      · exact yelpOkTransform_key api now2 x
      · rfl
    · have hm2 : r.key ∉ List.take N (List.map Row.key
          ((checkYelp api now1 conn (some N)).1.current.filter
            (fun r => r.yelpStatus == .unchecked))) := by
        rw [← List.map_take]
        simpa using hc2
      simp [hm2]
  · rw [g2f, g1f, List.drop_drop]
  · rw [g1c, g2c, g1f, List.length_drop]
    omega
  · intro r hr hstat
    have hp : (r.googleStatus == Status.unchecked) = false := by
      simpa [beq_eq_false_iff_ne] using hstat
    have hc1 : ((((conn.current.filter
        (fun r => r.googleStatus == .unchecked)).take N).map Row.key).contains
          r.key) = false :=
      key_not_in_filter_take N hnd hr hp
    have hm1 : r.key ∉ List.take N (List.map Row.key
        (conn.current.filter (fun r => r.googleStatus == .unchecked))) := by
      rw [← List.map_take]
      simpa using hc1
    have hr1 : r ∈ (checkGoogle gapi now1 conn (some N) "").1.current := by
      rw [g1m]
      refine List.mem_map.mpr ⟨r, hr, ?_⟩
      simp [hm1]
    have hc2 : (((((checkGoogle gapi now1 conn (some N) "").1.current.filter
        (fun r => r.googleStatus == .unchecked)).take N).map Row.key).contains
          r.key) = false :=
      key_not_in_filter_take N hgnd1 hr1 hp
    rw [g2m]
    refine findRow_map_fixed hgnd1 ?_ hr1 ?_
    · intro x
      dsimp only
      split
      · exact googleOkTransform_key gapi now2 x
      · rfl
    · have hm2 : r.key ∉ List.take N (List.map Row.key
          ((checkGoogle gapi now1 conn (some N) "").1.current.filter
            (fun r => r.googleStatus == .unchecked))) := by
        rw [← List.map_take]
        simpa using hc2
      simp [hm2]

/-- The always-successful Yelp stub used by the C2 witness and
counterexample. -/
def c2api : String → YelpResp := fun _ => YelpResp.ok []

/-- The always-successful Google stub used by the C2 witness and
counterexample. -/
def c2gapi : String → GoogleResp := fun _ => GoogleResp.ok []

/-- Two fully-unchecked ledger rows with distinct keys. -/
def c2row1 : Row := { key := "a", name := "n1", address := "", borough := "" }

def c2row2 : Row := { key := "b", name := "n2", address := "", borough := "" }

/-- A committed two-row ledger. -/
def c2conn : Conn := ⟨[c2row1, c2row2], [c2row1, c2row2]⟩

/-- **C2 counterexample** to the claim as stated: at limit N = 0 the Python
or-default `limit or DAILY_LIMIT` replaces 0 by the daily default, so a
single call on a two-row all-unchecked table checks both rows, though the
claim caps the two-call total at min(2·0, 2) = 0. -/
theorem c2_limit_zero_falls_back_counterexample :
    (checkYelp c2api "t" c2conn (some 0)).2 = 2 ∧
    (checkGoogle c2gapi "t" c2conn (some 0) "").2 = 2 ∧
    ¬((checkYelp c2api "t" c2conn (some 0)).2 ≤ min (2 * 0) 2) :=
  ⟨by decide, by decide, by decide⟩

/-- Witness instantiating `c2_limited_checks_resume` at N = 1 on the
two-row ledger. -/
theorem c2_limited_checks_resume_witness :
    (∀ k, ∃ bs, c2api k = YelpResp.ok bs) ∧
    (∀ k, ∃ cs, c2gapi k = GoogleResp.ok cs) ∧
    (c2conn.current.map Row.key).Nodup ∧
    1 ≤ 1 ∧
    (((checkYelp c2api "t1" c2conn (some 1)).2 =
        min 1 (c2conn.current.filter (fun r => r.yelpStatus == .unchecked)).length ∧
      (checkYelp c2api "t1" c2conn (some 1)).1.current.filter
          (fun r => r.yelpStatus == .unchecked) =
        (c2conn.current.filter (fun r => r.yelpStatus == .unchecked)).drop 1 ∧
      (checkYelp c2api "t2" (checkYelp c2api "t1" c2conn (some 1)).1 (some 1)).1.current.filter
          (fun r => r.yelpStatus == .unchecked) =
        (c2conn.current.filter (fun r => r.yelpStatus == .unchecked)).drop (1 + 1) ∧
      (checkYelp c2api "t1" c2conn (some 1)).2 +
          (checkYelp c2api "t2" (checkYelp c2api "t1" c2conn (some 1)).1 (some 1)).2 =
        min (2 * 1)
          (c2conn.current.filter (fun r => r.yelpStatus == .unchecked)).length ∧
      (∀ r ∈ c2conn.current, r.yelpStatus ≠ .unchecked →
        findRow
          (checkYelp c2api "t2" (checkYelp c2api "t1" c2conn (some 1)).1 (some 1)).1.current
          r.key = some r)) ∧
    ((checkGoogle c2gapi "t1" c2conn (some 1) "").2 =
        min 1 (c2conn.current.filter (fun r => r.googleStatus == .unchecked)).length ∧
      (checkGoogle c2gapi "t1" c2conn (some 1) "").1.current.filter
          (fun r => r.googleStatus == .unchecked) =
        (c2conn.current.filter (fun r => r.googleStatus == .unchecked)).drop 1 ∧
      (checkGoogle c2gapi "t2" (checkGoogle c2gapi "t1" c2conn (some 1) "").1 (some 1)
            "").1.current.filter (fun r => r.googleStatus == .unchecked) =
        (c2conn.current.filter (fun r => r.googleStatus == .unchecked)).drop (1 + 1) ∧
      (checkGoogle c2gapi "t1" c2conn (some 1) "").2 +
          (checkGoogle c2gapi "t2" (checkGoogle c2gapi "t1" c2conn (some 1) "").1 (some 1)
            "").2 =
        min (2 * 1)
          (c2conn.current.filter (fun r => r.googleStatus == .unchecked)).length ∧
      (∀ r ∈ c2conn.current, r.googleStatus ≠ .unchecked →
        findRow
          (checkGoogle c2gapi "t2" (checkGoogle c2gapi "t1" c2conn (some 1) "").1 (some 1)
            "").1.current r.key = some r))) :=
  ⟨fun _ => ⟨[], rfl⟩, fun _ => ⟨[], rfl⟩, by decide, by decide,
    c2_limited_checks_resume c2api c2gapi "t1" "t2" c2conn 1
      (fun _ => ⟨[], rfl⟩) (fun _ => ⟨[], rfl⟩) (by decide) (by decide)⟩

/-- **C6** (corrected: only check_yelp applies the 0.45 similarity gate;
check_google records found exactly when the candidate list is nonempty,
with no similarity test).  The Yelp row update records found iff some
returned business clears the threshold against the queried name, and
not_found otherwise; the Google row update records found iff the lookup
returned any candidate at all. -/
theorem c6_found_criteria (now : String) (name : String) (bs : List Biz)
    (cands : List GCand) (row row' : Row) :
    ((applyYelpResult now (yelpHit name bs) row).yelpStatus = .found ↔
      ∃ b ∈ bs, PROVIDER_THRESHOLD ≤ nameSimilarity name b.name) ∧
    ((applyYelpResult now (yelpHit name bs) row).yelpStatus = .found ∨
      (applyYelpResult now (yelpHit name bs) row).yelpStatus = .notFound) ∧
    ((applyGoogleResult now cands row').googleStatus = .found ↔ cands ≠ []) ∧
    ((applyGoogleResult now cands row').googleStatus = .found ∨
      (applyGoogleResult now cands row').googleStatus = .notFound) := by
  refine ⟨?_, ?_, ?_, ?_⟩
  · show (if (yelpHit name bs).isSome then Status.found else Status.notFound) =
      .found ↔ _
    by_cases h : (yelpHit name bs).isSome = true
    · rw [h]
      simp only [if_true, true_iff]
      rw [yelpHit, List.find?_isSome] at h
      obtain ⟨b, hb, hp⟩ := h
      exact ⟨b, hb, of_decide_eq_true hp⟩
    · have h' : (yelpHit name bs).isSome = false := by simpa using h
      rw [h']
      simp only [Bool.false_eq_true, if_neg, not_false_iff]
      constructor
      · intro hbad
        exact Status.noConfusion hbad
      · rintro ⟨b, hb, hs⟩
        exfalso
        apply h
        rw [yelpHit, List.find?_isSome]
        exact ⟨b, hb, decide_eq_true hs⟩
  · show (if (yelpHit name bs).isSome then Status.found else Status.notFound) =
      .found ∨ (if (yelpHit name bs).isSome then Status.found else Status.notFound) =
      .notFound
    by_cases h : (yelpHit name bs).isSome = true
    · rw [h]; left; rfl
    · have h' : (yelpHit name bs).isSome = false := by simpa using h
      rw [h']; right; rfl
  · show (if cands.head?.isSome then Status.found else Status.notFound) =
      .found ↔ cands ≠ []
    cases cands with
    | nil => simp
    | cons c cs => simp
  · show (if cands.head?.isSome then Status.found else Status.notFound) =
      .found ∨ (if cands.head?.isSome then Status.found else Status.notFound) =
      .notFound
    cases cands with
    | nil => right; rfl
    | cons c cs => left; rfl

/-- A Google candidate whose name shares no character with the queried
venue name. -/
def c6cand : GCand := { name := "zzzz" }

def c6row : Row := { key := "k", name := "qqqq", address := "", borough := "" }

def c6conn : Conn := ⟨[c6row], [c6row]⟩

/-- A Google stub returning only the dissimilar candidate. -/
def c6gapi : String → GoogleResp := fun _ => GoogleResp.ok [c6cand]

/-- **C6 counterexample** to the claim as stated: the returned Google
candidate's name similarity to the queried venue is 0, far below 0.45, yet
check_google records the row found. -/
theorem c6_google_found_below_threshold_counterexample :
    nameSimilarity c6row.name c6cand.name < PROVIDER_THRESHOLD ∧
    ((checkGoogle c6gapi "t" c6conn none "").1.current.map
      (fun r => r.googleStatus)) = [Status.found] :=
  ⟨by decide, by decide⟩

/-! ### A common view of the four provider row loops (C3)

Each check loop either halts on a response (the 429 branch) or updates the
row by a key-preserving transform and continues, committing every `period`
rows and once at the end.  `genLoop` captures that shape; each concrete
loop is proved equal to it below. -/

/-- The per-row action of a provider loop: `none` halts the batch, `some f`
updates the row by `f` and continues. -/
def genLoop (act : Row → Option (Row → Row)) (period : Nat) :
    Conn → List Row → Nat → Conn × Nat
  | conn, [], checked => (commitConn conn, checked)
  | conn, r :: rest, checked =>
    match act r with
    | none => (commitConn conn, checked)
    | some f =>
      genLoop act period
        (stepCommit period (checked + 1)
          { conn with current := updateRow conn.current r.key f })
        rest (checked + 1)

/-- The net row update of an action that does not halt. -/
def genTransform (act : Row → Option (Row → Row)) (row : Row) : Row :=
  match act row with
  | some f => f row
  | none => row

lemma genTransform_key {act : Row → Option (Row → Row)}
    (hkey : ∀ r f, act r = some f → ∀ x, (f x).key = x.key) (row : Row) :
    (genTransform act row).key = row.key := by
  unfold genTransform
  cases h : act row with
  | none => rfl
  | some f => exact hkey row f h row

/-- Running `genLoop` over rows none of which halt: every selected row is
transformed by its own action, nothing else changes, every row is counted,
and the final state is committed. -/
lemma genLoop_run (act : Row → Option (Row → Row)) (period : Nat)
    (hkey : ∀ r f, act r = some f → ∀ x, (f x).key = x.key) :
    ∀ (rows : List Row) (conn : Conn) (checked : Nat),
      (∀ r ∈ rows, (act r).isSome) →
      (conn.current.map Row.key).Nodup →
      (rows.map Row.key).Nodup →
      (∀ r ∈ rows, r ∈ conn.current) →
      (genLoop act period conn rows checked).2 = checked + rows.length ∧
        (genLoop act period conn rows checked).1.current =
          conn.current.map (fun row =>
            if ((rows.map Row.key).contains row.key) then genTransform act row
            else row) ∧
        (genLoop act period conn rows checked).1.committed =
          (genLoop act period conn rows checked).1.current := by
  intro rows
  induction rows with
  | nil =>
    intro conn checked _ _ _ _
    refine ⟨by simp [genLoop], ?_, by simp [genLoop, commitConn]⟩
    simp [genLoop, commitConn]
  | cons r rest ih =>
    intro conn checked hok hnd hrowsnd hsub
    obtain ⟨f, hf⟩ := Option.isSome_iff_exists.mp (hok r (List.mem_cons_self _ _))
    have hr : r ∈ conn.current := hsub r (List.mem_cons_self _ _)
    have hloop : genLoop act period conn (r :: rest) checked =
        genLoop act period
          (stepCommit period (checked + 1)
            { conn with current := updateRow conn.current r.key f })
          rest (checked + 1) := by
      rw [genLoop, hf]
    rw [hloop]
    set conn1 := stepCommit period (checked + 1)
      { conn with current := updateRow conn.current r.key f } with hconn1
    have hcur1 : conn1.current =
        conn.current.map (fun row =>
          if row.key == r.key then genTransform act row else row) := by
      rw [hconn1, stepCommit_current]
      show updateRow conn.current r.key f = _
      unfold updateRow
      apply List.map_congr_left
      intro row hrow
      by_cases hk : (row.key == r.key) = true
      · have hkeq : row.key = r.key := by simpa using hk
        have hroweq : row = r :=
          List.inj_on_of_nodup_map hnd hrow hr hkeq
        subst hroweq
        simp only [hk, if_pos]
        unfold genTransform
        rw [hf]
      · have hk' : (row.key == r.key) = false := by simpa using hk
        simp [hk']
    have hkeys1 : conn1.current.map Row.key = conn.current.map Row.key := by
      rw [hcur1, List.map_map]
      apply List.map_congr_left
      intro row _
      by_cases hk : (row.key == r.key) = true
      · simp only [Function.comp_apply, hk, if_pos]
        exact genTransform_key hkey row
      · have hne : row.key ≠ r.key := by simpa using hk
        simp [Function.comp_apply, hne]
    have hnd1 : (conn1.current.map Row.key).Nodup := by
      rw [hkeys1]; exact hnd
    have hrkey : r.key ∉ rest.map Row.key := by
      simp only [List.map_cons, List.nodup_cons] at hrowsnd
      exact hrowsnd.1
    have hsub1 : ∀ x ∈ rest, x ∈ conn1.current := by
      intro x hx
      rw [hcur1]
      have hxk : (x.key == r.key) = false := by
        simp only [beq_eq_false_iff_ne, ne_eq]
        intro hbad
        apply hrkey
        rw [← hbad]
        exact List.mem_map.mpr ⟨x, hx, rfl⟩
      have : (fun row => if row.key == r.key then genTransform act row else row) x = x := by
        simp [hxk]
      rw [← this]
      exact List.mem_map.mpr ⟨x, hsub x (List.mem_cons_of_mem _ hx), rfl⟩
    obtain ⟨ihc, ihm, ihcm⟩ := ih conn1 (checked + 1)
      (fun x hx => hok x (List.mem_cons_of_mem _ hx)) hnd1
      (by simp only [List.map_cons, List.nodup_cons] at hrowsnd; exact hrowsnd.2)
      hsub1
    refine ⟨by rw [ihc]; simp; omega, ?_, ihcm⟩
    rw [ihm, hcur1, List.map_map]
    apply List.map_congr_left
    intro row hrow
    simp only [Function.comp_apply]
    by_cases hk : (row.key == r.key) = true
    · have hkeq : row.key = r.key := by simpa using hk
      have htk : (genTransform act row).key = row.key := genTransform_key hkey row
      have hcontains : ((rest.map Row.key).contains (genTransform act row).key) = false := by
        rw [htk, hkeq]
        simpa using hrkey
      simp only [hk, if_pos, hcontains, Bool.false_eq_true, if_neg, not_false_iff,
        List.map_cons, List.contains_cons, Bool.true_or]
    · have hk' : (row.key == r.key) = false := by simpa using hk
      simp only [hk', Bool.false_eq_true, if_neg, not_false_iff,
        List.map_cons, List.contains_cons, Bool.false_or]

/-- A halting response partway through the batch: the loop stops at that
row, counts exactly the preceding rows, transforms exactly those, and
commits what it has; the halting row and everything after it are untouched. -/
lemma genLoop_halt (act : Row → Option (Row → Row)) (period : Nat)
    (hkey : ∀ r f, act r = some f → ∀ x, (f x).key = x.key) :
    ∀ (pre : List Row) (r : Row) (post : List Row) (conn : Conn) (checked : Nat),
      (∀ x ∈ pre, (act x).isSome) →
      act r = none →
      (conn.current.map Row.key).Nodup →
      (((pre ++ r :: post).map Row.key)).Nodup →
      (∀ x ∈ pre ++ r :: post, x ∈ conn.current) →
      (genLoop act period conn (pre ++ r :: post) checked).2 = checked + pre.length ∧
        (genLoop act period conn (pre ++ r :: post) checked).1.current =
          conn.current.map (fun row =>
            if ((pre.map Row.key).contains row.key) then genTransform act row
            else row) ∧
        (genLoop act period conn (pre ++ r :: post) checked).1.committed =
          (genLoop act period conn (pre ++ r :: post) checked).1.current := by
  intro pre
  induction pre with
  | nil =>
    intro r post conn checked _ hrl _ _ _
    have hloop : genLoop act period conn ([] ++ r :: post) checked =
        (commitConn conn, checked) := by
      show genLoop act period conn (r :: post) checked = _
      rw [genLoop, hrl]
    refine ⟨by rw [hloop]; simp, ?_, by rw [hloop]; rfl⟩
    rw [hloop]
    simp [commitConn]
  | cons p pre' ih =>
    intro r post conn checked hok hrl hnd hrowsnd hsub
    obtain ⟨f, hf⟩ := Option.isSome_iff_exists.mp (hok p (List.mem_cons_self _ _))
    have hp : p ∈ conn.current := hsub p (List.mem_cons_self _ _)
    have hloop : genLoop act period conn ((p :: pre') ++ r :: post) checked =
        genLoop act period
          (stepCommit period (checked + 1)
            { conn with current := updateRow conn.current p.key f })
          (pre' ++ r :: post) (checked + 1) := by
      show genLoop act period conn (p :: (pre' ++ r :: post)) checked = _
      rw [genLoop, hf]
    rw [hloop]
    set conn1 := stepCommit period (checked + 1)
      { conn with current := updateRow conn.current p.key f } with hconn1
    have hcur1 : conn1.current =
        conn.current.map (fun row =>
          if row.key == p.key then genTransform act row else row) := by
      rw [hconn1, stepCommit_current]
      show updateRow conn.current p.key f = _
      unfold updateRow
      apply List.map_congr_left
      intro row hrow
      by_cases hk : (row.key == p.key) = true
      · have hkeq : row.key = p.key := by simpa using hk
        have hroweq : row = p :=
          List.inj_on_of_nodup_map hnd hrow hp hkeq
        subst hroweq
        simp only [hk, if_pos]
        unfold genTransform
        rw [hf]
      · have hk' : (row.key == p.key) = false := by simpa using hk
        simp [hk']
    have hkeys1 : conn1.current.map Row.key = conn.current.map Row.key := by
      rw [hcur1, List.map_map]
      apply List.map_congr_left
      intro row _
      by_cases hk : (row.key == p.key) = true
      · simp only [Function.comp_apply, hk, if_pos]
        exact genTransform_key hkey row
      · have hne : row.key ≠ p.key := by simpa using hk
        simp [Function.comp_apply, hne]
    have hnd1 : (conn1.current.map Row.key).Nodup := by
      rw [hkeys1]; exact hnd
    have hrkey : p.key ∉ (pre' ++ r :: post).map Row.key := by
      have : ((p :: (pre' ++ r :: post)).map Row.key).Nodup := by
        simpa using hrowsnd
      simp only [List.map_cons, List.nodup_cons] at this
      exact this.1
    have hsub1 : ∀ x ∈ pre' ++ r :: post, x ∈ conn1.current := by
      intro x hx
      rw [hcur1]
      have hxk : (x.key == p.key) = false := by
        simp only [beq_eq_false_iff_ne, ne_eq]
        intro hbad
        apply hrkey
        rw [← hbad]
        exact List.mem_map.mpr ⟨x, hx, rfl⟩
      have : (fun row => if row.key == p.key then genTransform act row else row) x = x := by
        simp [hxk]
      rw [← this]
      exact List.mem_map.mpr ⟨x, hsub x (List.mem_cons_of_mem _ hx), rfl⟩
    obtain ⟨ihc, ihm, ihcm⟩ := ih r post conn1 (checked + 1)
      (fun x hx => hok x (List.mem_cons_of_mem _ hx)) hrl hnd1
      (by
        have : ((p :: (pre' ++ r :: post)).map Row.key).Nodup := by
          simpa using hrowsnd
        simp only [List.map_cons, List.nodup_cons] at this
        exact this.2)
      hsub1
    refine ⟨by rw [ihc]; simp; omega, ?_, ihcm⟩
    rw [ihm, hcur1, List.map_map]
    apply List.map_congr_left
    intro row hrow
    simp only [Function.comp_apply]
    have hrkey' : p.key ∉ pre'.map Row.key := by
      intro h
      apply hrkey
      rw [List.map_append]
      exact List.mem_append.mpr (Or.inl h)
    by_cases hk : (row.key == p.key) = true
    · have hkeq : row.key = p.key := by simpa using hk
      have htk : (genTransform act row).key = row.key := genTransform_key hkey row
      have hcontains : ((pre'.map Row.key).contains (genTransform act row).key) = false := by
        rw [htk, hkeq]
        simpa using hrkey'
      simp only [hk, if_pos, hcontains, Bool.false_eq_true, if_neg, not_false_iff,
        List.map_cons, List.contains_cons, Bool.true_or]
    · have hk' : (row.key == p.key) = false := by simpa using hk
      simp only [hk', Bool.false_eq_true, if_neg, not_false_iff,
        List.map_cons, List.contains_cons, Bool.false_or]

/-- The per-row action of check_yelp: a 429 halts, anything else updates. -/
def yelpAct (api : String → YelpResp) (now : String) (r : Row) :
    Option (Row → Row) :=
  match api r.key with
  | .rateLimited => none
  | .netError => some (applyYelpError now)
  | .ok bs => some (applyYelpResult now (yelpHit r.name bs))

/-- The per-row action of check_google: nothing halts, a 429 is recorded as
error like any other failure. -/
def googleAct (gapi : String → GoogleResp) (now : String) (r : Row) :
    Option (Row → Row) :=
  match gapi r.key with
  | .rateLimited => some (applyGoogleError now)
  | .netError => some (applyGoogleError now)
  | .ok cands => some (applyGoogleResult now cands)

/-- The per-row action of check_opentable. -/
def otAct (api : String → OTResp) (now : String) (r : Row) :
    Option (Row → Row) :=
  match api r.key with
  | .rateLimited => none
  | .netError => some (applyOTError now)
  | .ok rs => some (applyOTResult now (otHit r.name rs))

/-- The per-row action of check_tripadvisor, details call included. -/
def taAct (api : String → TAResp) (details : String → TADetResp) (now : String)
    (r : Row) : Option (Row → Row) :=
  match api r.key with
  | .rateLimited => none
  | .netError => some (applyTAError now)
  | .ok rs =>
    match (taHit r.name rs).map (fun h => h.locationId) with
    | some lid =>
      if lid != "" then
        match details lid with
        | .netError => some (applyTAError now)
        | .ok200 rat rc url => some (applyTAResult now (some lid) (some (rat, rc, url)))
        | .non200 => some (applyTAResult now (some lid) none)
      else some (applyTAResult now (some lid) none)
    | none => some (applyTAResult now none none)

lemma yelpAct_key (api : String → YelpResp) (now : String) :
    ∀ r f, yelpAct api now r = some f → ∀ x, (f x).key = x.key := by
  intro r f hf x
  unfold yelpAct at hf
  cases h : api r.key <;> rw [h] at hf
  · exact Option.noConfusion hf
  · rw [← Option.some.inj hf]; rfl
  · rw [← Option.some.inj hf]; rfl

lemma googleAct_key (gapi : String → GoogleResp) (now : String) :
    ∀ r f, googleAct gapi now r = some f → ∀ x, (f x).key = x.key := by
  intro r f hf x
  unfold googleAct at hf
  cases h : gapi r.key <;> rw [h] at hf
  · rw [← Option.some.inj hf]; rfl
  · rw [← Option.some.inj hf]; rfl
  · rw [← Option.some.inj hf]; rfl

lemma otAct_key (api : String → OTResp) (now : String) :
    ∀ r f, otAct api now r = some f → ∀ x, (f x).key = x.key := by
  intro r f hf x
  unfold otAct at hf
  cases h : api r.key <;> rw [h] at hf
  · exact Option.noConfusion hf
  · rw [← Option.some.inj hf]; rfl
  · rw [← Option.some.inj hf]; rfl

lemma taAct_key (api : String → TAResp) (details : String → TADetResp)
    (now : String) :
    ∀ r f, taAct api details now r = some f → ∀ x, (f x).key = x.key := by
  intro r f hf x
  unfold taAct at hf
  split at hf
  · exact Option.noConfusion hf
  · rw [← Option.some.inj hf]; rfl
  · split at hf
    · split at hf
      · split at hf
        · rw [← Option.some.inj hf]; rfl
        · rw [← Option.some.inj hf]; rfl
        · rw [← Option.some.inj hf]; rfl
      · rw [← Option.some.inj hf]; rfl
    · rw [← Option.some.inj hf]; rfl

lemma yelpLoop_eq_gen (api : String → YelpResp) (now : String) :
    ∀ (rows : List Row) (conn : Conn) (checked : Nat),
      yelpLoop api now conn rows checked =
        genLoop (yelpAct api now) 200 conn rows checked := by
  intro rows
  induction rows with
  | nil => intro conn checked; rfl
  | cons r rest ih =>
    intro conn checked
    cases h : api r.key with
    | rateLimited =>
      have ha : yelpAct api now r = none := by unfold yelpAct; rw [h]
      rw [yelpLoop, genLoop, h, ha]
    | netError =>
      have ha : yelpAct api now r = some (applyYelpError now) := by
        unfold yelpAct; rw [h]
      rw [yelpLoop, genLoop, h, ha]
      exact ih _ _
    | ok bs =>
      have ha : yelpAct api now r = some (applyYelpResult now (yelpHit r.name bs)) := by
        unfold yelpAct; rw [h]
      rw [yelpLoop, genLoop, h, ha]
      exact ih _ _

lemma googleLoop_eq_gen (gapi : String → GoogleResp) (now : String) :
    ∀ (rows : List Row) (conn : Conn) (checked : Nat),
      googleLoop gapi now conn rows checked =
        genLoop (googleAct gapi now) 200 conn rows checked := by
  intro rows
  induction rows with
  | nil => intro conn checked; rfl
  | cons r rest ih =>
    intro conn checked
    cases h : gapi r.key with
    | rateLimited =>
      have ha : googleAct gapi now r = some (applyGoogleError now) := by
        unfold googleAct; rw [h]
      rw [googleLoop, genLoop, h, ha]
      exact ih _ _
    | netError =>
      have ha : googleAct gapi now r = some (applyGoogleError now) := by
        unfold googleAct; rw [h]
      rw [googleLoop, genLoop, h, ha]
      exact ih _ _
    | ok cands =>
      have ha : googleAct gapi now r = some (applyGoogleResult now cands) := by
        unfold googleAct; rw [h]
      rw [googleLoop, genLoop, h, ha]
      exact ih _ _

lemma otLoop_eq_gen (api : String → OTResp) (now : String) :
    ∀ (rows : List Row) (conn : Conn) (checked : Nat),
      otLoop api now conn rows checked =
        genLoop (otAct api now) 100 conn rows checked := by
  intro rows
  induction rows with
  | nil => intro conn checked; rfl
  | cons r rest ih =>
    intro conn checked
    cases h : api r.key with
    | rateLimited =>
      have ha : otAct api now r = none := by unfold otAct; rw [h]
      rw [otLoop, genLoop, h, ha]
    | netError =>
      have ha : otAct api now r = some (applyOTError now) := by
        unfold otAct; rw [h]
      rw [otLoop, genLoop, h, ha]
      exact ih _ _
    | ok rs =>
      have ha : otAct api now r = some (applyOTResult now (otHit r.name rs)) := by
        unfold otAct; rw [h]
      rw [otLoop, genLoop, h, ha]
      exact ih _ _

lemma taLoop_eq_gen (api : String → TAResp) (details : String → TADetResp)
    (now : String) :
    ∀ (rows : List Row) (conn : Conn) (checked : Nat),
      taLoop api details now conn rows checked =
        genLoop (taAct api details now) 100 conn rows checked := by
  intro rows
  induction rows with
  | nil => intro conn checked; rfl
  | cons r rest ih =>
    intro conn checked
    cases h : api r.key with
    | rateLimited =>
      have ha : taAct api details now r = none := by unfold taAct; rw [h]
      rw [taLoop, genLoop, h, ha]
    | netError =>
      have ha : taAct api details now r = some (applyTAError now) := by
        unfold taAct; rw [h]
      rw [taLoop, genLoop, h, ha]
      exact ih _ _
    | ok rs =>
      cases hl : (taHit r.name rs).map (fun h => h.locationId) with
      | none =>
        have ha : taAct api details now r = some (applyTAResult now none none) := by
          unfold taAct; simp [h, hl]
        rw [taLoop, genLoop, h, ha]
        simp only [hl]
        exact ih _ _
      | some lid =>
        by_cases hlid : (lid != "") = true
        · cases hd : details lid with
          | netError =>
            have ha : taAct api details now r = some (applyTAError now) := by
              unfold taAct; simp [h, hl, hlid, hd]
            rw [taLoop, genLoop, h, ha]
            simp only [hl]
            rw [if_pos hlid, hd]
            exact ih _ _
          | ok200 rat rc url =>
            have ha : taAct api details now r =
                some (applyTAResult now (some lid) (some (rat, rc, url))) := by
              unfold taAct; simp [h, hl, hlid, hd]
            rw [taLoop, genLoop, h, ha]
            simp only [hl]
            rw [if_pos hlid, hd]
            exact ih _ _
          | non200 =>
            have ha : taAct api details now r =
                some (applyTAResult now (some lid) none) := by
              unfold taAct; simp [h, hl, hlid, hd]
            rw [taLoop, genLoop, h, ha]
            simp only [hl]
            rw [if_pos hlid, hd]
            exact ih _ _
        · have ha : taAct api details now r =
              some (applyTAResult now (some lid) none) := by
            unfold taAct; simp [h, hl, hlid]
          rw [taLoop, genLoop, h, ha]
          simp only [hl]
          rw [if_neg hlid]
          exact ih _ _

/-- SELECT by key commutes with a key-preserving per-row UPDATE. -/
lemma findRow_map_keyed {db : List Row} {g : Row → Row} (k : String)
    (hkey : ∀ x, (g x).key = x.key) :
    findRow (db.map g) k = (findRow db k).map g := by
  induction db with
  | nil => simp [findRow]
  | cons r rest ih =>
    unfold findRow at *
    simp only [List.map_cons]
    by_cases hk : (r.key == k) = true
    · have h1 : ((g r).key == k) = true := by rw [hkey r]; exact hk
      simp only [List.find?_cons, h1, hk]
      rfl
    · have hk' : (r.key == k) = false := by simpa using hk
      have h1 : ((g r).key == k) = false := by rw [hkey r]; exact hk'
      simp only [List.find?_cons, h1, hk']
      exact ih

/-- A halting response inside the selected prefix of a check batch: the
loop result counts the rows before it, is committed, and every row from
the halting one on is still exactly its old self. -/
lemma genLoop_halt_sel (act : Row → Option (Row → Row)) (period : Nat)
    (hkey : ∀ r f, act r = some f → ∀ x, (f x).key = x.key)
    (conn : Conn) (p : Row → Bool) (lim : Nat)
    (pre : List Row) (r : Row) (post : List Row)
    (hnd : (conn.current.map Row.key).Nodup)
    (hsel : (conn.current.filter p).take lim = pre ++ r :: post)
    (hok : ∀ x ∈ pre, (act x).isSome)
    (hrl : act r = none) :
    (genLoop act period conn ((conn.current.filter p).take lim) 0).2 = pre.length ∧
      (genLoop act period conn ((conn.current.filter p).take lim) 0).1.committed =
        (genLoop act period conn ((conn.current.filter p).take lim) 0).1.current ∧
      (∀ x ∈ r :: post,
        findRow ((genLoop act period conn ((conn.current.filter p).take lim) 0).1.current)
          x.key = some x) := by
  have hrowsnd : (((conn.current.filter p).take lim).map Row.key).Nodup := by
    apply List.Nodup.sublist _ hnd
    apply List.Sublist.map
    exact (List.take_sublist _ _).trans (List.filter_sublist _)
  have hsubset : ∀ x ∈ (conn.current.filter p).take lim, x ∈ conn.current := by
    intro x hx
    exact List.mem_of_mem_filter (List.mem_of_mem_take hx)
  rw [hsel] at hrowsnd hsubset ⊢
  obtain ⟨hc, hm, hcm⟩ := genLoop_halt act period hkey pre r post conn 0
    hok hrl hnd hrowsnd hsubset
  refine ⟨by rw [hc]; simp, hcm, ?_⟩
  intro x hx
  have hxdb : x ∈ conn.current := hsubset x (List.mem_append.mpr (Or.inr hx))
  have hxpre : x.key ∉ pre.map Row.key := by
    rw [List.map_append] at hrowsnd
    intro hbad
    exact List.disjoint_of_nodup_append hrowsnd hbad
      (List.mem_map.mpr ⟨x, hx, rfl⟩)
  have hcont : ((pre.map Row.key).contains x.key) = false := by
    simp only [List.contains_eq_any_beq, List.any_eq_false]
    intro k hk hbad
    have hk2 : x.key = k := eq_of_beq hbad
    rw [← hk2] at hk
    exact hxpre hk
  rw [hm]
  refine findRow_map_fixed hnd ?_ hxdb ?_
  · intro z
    dsimp only
    split
    · exact genTransform_key hkey z
    · rfl
  · have hne : ((pre.map Row.key).contains x.key) ≠ true := by
      rw [hcont]
      exact Bool.false_ne_true
    show (if ((pre.map Row.key).contains x.key) then genTransform act x else x) = x
    rw [if_neg hne]

/-- check_yelp with a 429 partway through the selection: the batch halts
at that row, progress is committed, and the halting row and the rest of the
selection are untouched and still unchecked. -/
lemma checkYelp_halt (api : String → YelpResp) (now : String) (conn : Conn)
    (limit : Option Nat) (pre : List Row) (r : Row) (post : List Row)
    (hnd : (conn.current.map Row.key).Nodup)
    (hsel : (conn.current.filter (fun x => x.yelpStatus == .unchecked)).take
        (orLimit limit YELP_DAILY_LIMIT) = pre ++ r :: post)
    (hok : ∀ x ∈ pre, ∃ bs, api x.key = YelpResp.ok bs)
    (hrl : api r.key = .rateLimited) :
    (checkYelp api now conn limit).2 = pre.length ∧
      (checkYelp api now conn limit).1.committed =
        (checkYelp api now conn limit).1.current ∧
      (∀ x ∈ r :: post,
        findRow (checkYelp api now conn limit).1.current x.key = some x ∧
          x.yelpStatus = .unchecked) := by
  set lim := orLimit limit YELP_DAILY_LIMIT with hlim
  set F := conn.current.filter (fun x => x.yelpStatus == .unchecked) with hF
  set rows := F.take lim with hrows
  have hne : rows.isEmpty = false := by
    rw [hsel]
    cases pre <;> simp
  have hck1 : checkYelp api now conn limit = yelpLoop api now conn rows 0 := by
    show (if rows.isEmpty then (conn, 0) else yelpLoop api now conn rows 0) = _
    rw [hne]
    rfl
  have hok' : ∀ x ∈ pre, (yelpAct api now x).isSome := by
    intro x hx
    obtain ⟨bs, hbs⟩ := hok x hx
    unfold yelpAct
    rw [hbs]
    rfl
  have hrl' : yelpAct api now r = none := by unfold yelpAct; rw [hrl]
  obtain ⟨hc, hcm, hfr⟩ := genLoop_halt_sel (yelpAct api now) 200
    (yelpAct_key api now) conn (fun x => x.yelpStatus == .unchecked) lim
    pre r post hnd hsel hok' hrl'
  rw [hck1, yelpLoop_eq_gen]
  refine ⟨hc, hcm, ?_⟩
  intro x hx
  refine ⟨hfr x hx, ?_⟩
  have hxrows : x ∈ rows := by
    rw [hsel]
    exact List.mem_append.mpr (Or.inr hx)
  have hxF : x ∈ F := List.mem_of_mem_take hxrows
  rw [hF] at hxF
  have hpx := List.of_mem_filter hxF
  exact eq_of_beq hpx

/-- check_opentable with a 429 partway through the selection. -/
lemma checkOpentable_halt (api : String → OTResp) (now : String) (conn : Conn)
    (limit : Option Nat) (pre : List Row) (r : Row) (post : List Row)
    (hnd : (conn.current.map Row.key).Nodup)
    (hsel : (conn.current.filter (fun x => x.opentableStatus == .unchecked)).take
        (orLimit limit OPENTABLE_DAILY_LIMIT) = pre ++ r :: post)
    (hok : ∀ x ∈ pre, ∃ rs, api x.key = OTResp.ok rs)
    (hrl : api r.key = .rateLimited) :
    (checkOpentable api now conn limit).2 = pre.length ∧
      (checkOpentable api now conn limit).1.committed =
        (checkOpentable api now conn limit).1.current ∧
      (∀ x ∈ r :: post,
        findRow (checkOpentable api now conn limit).1.current x.key = some x ∧
          x.opentableStatus = .unchecked) := by
  set lim := orLimit limit OPENTABLE_DAILY_LIMIT with hlim
  set F := conn.current.filter (fun x => x.opentableStatus == .unchecked) with hF
  set rows := F.take lim with hrows
  have hne : rows.isEmpty = false := by
    rw [hsel]
    cases pre <;> simp
  have hck1 : checkOpentable api now conn limit = otLoop api now conn rows 0 := by
    show (if rows.isEmpty then (conn, 0) else otLoop api now conn rows 0) = _
    rw [hne]
    rfl
  have hok' : ∀ x ∈ pre, (otAct api now x).isSome := by
    intro x hx
    obtain ⟨rs, hrs⟩ := hok x hx
    unfold otAct
    rw [hrs]
    rfl
  have hrl' : otAct api now r = none := by unfold otAct; rw [hrl]
  obtain ⟨hc, hcm, hfr⟩ := genLoop_halt_sel (otAct api now) 100
    (otAct_key api now) conn (fun x => x.opentableStatus == .unchecked) lim
    pre r post hnd hsel hok' hrl'
  rw [hck1, otLoop_eq_gen]
  refine ⟨hc, hcm, ?_⟩
  intro x hx
  refine ⟨hfr x hx, ?_⟩
  have hxrows : x ∈ rows := by
    rw [hsel]
    exact List.mem_append.mpr (Or.inr hx)
  have hxF : x ∈ F := List.mem_of_mem_take hxrows
  rw [hF] at hxF
  have hpx := List.of_mem_filter hxF
  exact eq_of_beq hpx

/-- check_tripadvisor with a 429 on the search call partway through the
selection. -/
lemma checkTripadvisor_halt (api : String → TAResp) (det : String → TADetResp)
    (now : String) (conn : Conn)
    (limit : Option Nat) (pre : List Row) (r : Row) (post : List Row)
    (hnd : (conn.current.map Row.key).Nodup)
    (hsel : (conn.current.filter (fun x => x.tripadvisorStatus == .unchecked)).take
        (orLimit limit TRIPADVISOR_DAILY_LIMIT) = pre ++ r :: post)
    (hok : ∀ x ∈ pre, ∃ rs, api x.key = TAResp.ok rs)
    (hrl : api r.key = .rateLimited) :
    (checkTripadvisor api det now conn limit).2 = pre.length ∧
      (checkTripadvisor api det now conn limit).1.committed =
        (checkTripadvisor api det now conn limit).1.current ∧
      (∀ x ∈ r :: post,
        findRow (checkTripadvisor api det now conn limit).1.current x.key = some x ∧
          x.tripadvisorStatus = .unchecked) := by
  set lim := orLimit limit TRIPADVISOR_DAILY_LIMIT with hlim
  set F := conn.current.filter (fun x => x.tripadvisorStatus == .unchecked) with hF
  set rows := F.take lim with hrows
  have hne : rows.isEmpty = false := by
    rw [hsel]
    cases pre <;> simp
  have hck1 : checkTripadvisor api det now conn limit =
      taLoop api det now conn rows 0 := by
    show (if rows.isEmpty then (conn, 0) else taLoop api det now conn rows 0) = _
    rw [hne]
    rfl
  have hok' : ∀ x ∈ pre, (taAct api det now x).isSome := by
    intro x hx
    obtain ⟨rs, hrs⟩ := hok x hx
    unfold taAct
    simp only [hrs]
    cases hl : (taHit x.name rs).map (fun h => h.locationId) with
    | none => rfl
    | some lid =>
      show (if (lid != "") = true then
          match det lid with
          | TADetResp.netError => some (applyTAError now)
          | TADetResp.ok200 rat rc url =>
            some (applyTAResult now (some lid) (some (rat, rc, url)))
          | TADetResp.non200 => some (applyTAResult now (some lid) none)
        else some (applyTAResult now (some lid) none)).isSome = true
      by_cases hlid : (lid != "") = true
      · rw [if_pos hlid]
        cases det lid <;> rfl
      · rw [if_neg hlid]
        rfl
  have hrl' : taAct api det now r = none := by unfold taAct; rw [hrl]
  obtain ⟨hc, hcm, hfr⟩ := genLoop_halt_sel (taAct api det now) 100
    (taAct_key api det now) conn (fun x => x.tripadvisorStatus == .unchecked) lim
    pre r post hnd hsel hok' hrl'
  rw [hck1, taLoop_eq_gen]
  refine ⟨hc, hcm, ?_⟩
  intro x hx
  refine ⟨hfr x hx, ?_⟩
  have hxrows : x ∈ rows := by
    rw [hsel]
    exact List.mem_append.mpr (Or.inr hx)
  have hxF : x ∈ F := List.mem_of_mem_take hxrows
  rw [hF] at hxF
  have hpx := List.of_mem_filter hxF
  exact eq_of_beq hpx

/-- check_google with no borough filter and arbitrary responses: nothing
halts the batch; every selected row is counted and transformed by its own
response, a rate-limited one like any failure. -/
lemma checkGoogle_run (gapi : String → GoogleResp) (now : String) (conn : Conn)
    (limit : Option Nat)
    (hnd : (conn.current.map Row.key).Nodup) :
    (checkGoogle gapi now conn limit "").2 =
      min (orLimit limit GOOGLE_DAILY_LIMIT)
        (conn.current.filter (fun r => r.googleStatus == .unchecked)).length ∧
    (checkGoogle gapi now conn limit "").1.current =
      conn.current.map (fun row =>
        if ((((conn.current.filter (fun r => r.googleStatus == .unchecked)).take
              (orLimit limit GOOGLE_DAILY_LIMIT)).map Row.key).contains row.key)
        then genTransform (googleAct gapi now) row else row) := by
  set lim := orLimit limit GOOGLE_DAILY_LIMIT with hlim
  have hlim1 : 1 ≤ lim := orLimit_pos limit GOOGLE_DAILY_LIMIT (by decide)
  have hfilters : conn.current.filter (fun r =>
      r.googleStatus == .unchecked &&
        (("" : String) == "" || r.borough.toUpper == ("" : String).toUpper)) =
      conn.current.filter (fun r => r.googleStatus == .unchecked) := by
    apply List.filter_congr
    intro r _
    simp
  set F := conn.current.filter (fun r => r.googleStatus == .unchecked) with hF
  set rows := F.take lim with hrows
  have hck : checkGoogle gapi now conn limit "" =
      if rows.isEmpty then (conn, 0) else googleLoop gapi now conn rows 0 := by
    show (if ((conn.current.filter (fun r =>
        r.googleStatus == .unchecked &&
          (("" : String) == "" || r.borough.toUpper == ("" : String).toUpper))).take
        lim).isEmpty then (conn, 0)
      else googleLoop gapi now conn ((conn.current.filter (fun r =>
        r.googleStatus == .unchecked &&
          (("" : String) == "" || r.borough.toUpper == ("" : String).toUpper))).take
        lim) 0) =
      if rows.isEmpty then (conn, 0) else googleLoop gapi now conn rows 0
    rw [hfilters, ← hrows]
  by_cases he : rows.isEmpty = true
  · have hFnil : F = [] := by
      rw [List.isEmpty_iff] at he
      rcases (List.take_eq_nil_iff).mp he with h0 | hnil
      · omega
      · exact hnil
    have hck0 : checkGoogle gapi now conn limit "" = (conn, 0) := by
      rw [hck, he]
      rfl
    refine ⟨?_, ?_⟩
    · rw [hck0, hFnil]
      simp
    · rw [hck0, hrows, hFnil]
      simp
  · have he' : rows.isEmpty = false := by simpa using he
    have hck1 : checkGoogle gapi now conn limit "" =
        googleLoop gapi now conn rows 0 := by
      rw [hck, he']
      rfl
    have hrowsnd : (rows.map Row.key).Nodup := by
      apply List.Nodup.sublist _ hnd
      apply List.Sublist.map
      exact (List.take_sublist _ _).trans (List.filter_sublist _)
    have hsub : ∀ r ∈ rows, r ∈ conn.current := by
      intro r hr
      exact List.mem_of_mem_filter (List.mem_of_mem_take hr)
    have htot : ∀ r ∈ rows, (googleAct gapi now r).isSome := by
      intro r _
      unfold googleAct
      cases gapi r.key <;> rfl
    obtain ⟨hc, hm, _⟩ := genLoop_run (googleAct gapi now) 200
      (googleAct_key gapi now) rows conn 0 htot hnd hrowsnd hsub
    have hlen : rows.length = min lim F.length := by
      rw [hrows]
      exact List.length_take lim F
    refine ⟨?_, ?_⟩
    · rw [hck1, googleLoop_eq_gen, hc, hlen]
      omega
    · rw [hck1, googleLoop_eq_gen, hm]

/-- **C3** (corrected: Yelp, OpenTable and TripAdvisor halt on a 429 and
commit, but check_google has no 429 branch — raise_for_status turns a rate
limit into the generic failure path, so the row is marked error and the
batch continues).  With a 429 arriving partway through each provider's
selected batch: the Yelp/OpenTable/TripAdvisor batches stop at that row
with progress committed and every remaining selected row untouched and
still unchecked, while the Google batch checks its full selection and
records the rate-limited row as error. -/
theorem c3_rate_limit_halts_batch
    (api : String → YelpResp) (ot : String → OTResp) (ta : String → TAResp)
    (det : String → TADetResp) (gapi : String → GoogleResp)
    (now : String) (conn : Conn) (limit : Option Nat)
    (hnd : (conn.current.map Row.key).Nodup)
    (ypre : List Row) (yr : Row) (ypost : List Row)
    (hysel : (conn.current.filter (fun x => x.yelpStatus == .unchecked)).take
        (orLimit limit YELP_DAILY_LIMIT) = ypre ++ yr :: ypost)
    (hyok : ∀ x ∈ ypre, ∃ bs, api x.key = YelpResp.ok bs)
    (hyrl : api yr.key = .rateLimited)
    (opre : List Row) (orr : Row) (opost : List Row)
    (hosel : (conn.current.filter (fun x => x.opentableStatus == .unchecked)).take
        (orLimit limit OPENTABLE_DAILY_LIMIT) = opre ++ orr :: opost)
    (hook : ∀ x ∈ opre, ∃ rs, ot x.key = OTResp.ok rs)
    (horl : ot orr.key = .rateLimited)
    (tpre : List Row) (trr : Row) (tpost : List Row)
    (htsel : (conn.current.filter (fun x => x.tripadvisorStatus == .unchecked)).take
        (orLimit limit TRIPADVISOR_DAILY_LIMIT) = tpre ++ trr :: tpost)
    (htok : ∀ x ∈ tpre, ∃ rs, ta x.key = TAResp.ok rs)
    (htrl : ta trr.key = .rateLimited)
    (gr : Row)
    (hgmem : gr ∈ (conn.current.filter (fun x => x.googleStatus == .unchecked)).take
        (orLimit limit GOOGLE_DAILY_LIMIT))
    (hgrl : gapi gr.key = .rateLimited) :
    ((checkYelp api now conn limit).2 = ypre.length ∧
      (checkYelp api now conn limit).1.committed =
        (checkYelp api now conn limit).1.current ∧
      (∀ x ∈ yr :: ypost,
        findRow (checkYelp api now conn limit).1.current x.key = some x ∧
          x.yelpStatus = .unchecked)) ∧
    ((checkOpentable ot now conn limit).2 = opre.length ∧
      (checkOpentable ot now conn limit).1.committed =
        (checkOpentable ot now conn limit).1.current ∧
      (∀ x ∈ orr :: opost,
        findRow (checkOpentable ot now conn limit).1.current x.key = some x ∧
          x.opentableStatus = .unchecked)) ∧
    ((checkTripadvisor ta det now conn limit).2 = tpre.length ∧
      (checkTripadvisor ta det now conn limit).1.committed =
        (checkTripadvisor ta det now conn limit).1.current ∧
      (∀ x ∈ trr :: tpost,
        findRow (checkTripadvisor ta det now conn limit).1.current x.key = some x ∧
          x.tripadvisorStatus = .unchecked)) ∧
    ((checkGoogle gapi now conn limit "").2 =
        min (orLimit limit GOOGLE_DAILY_LIMIT)
          (conn.current.filter (fun x => x.googleStatus == .unchecked)).length ∧
      findRow (checkGoogle gapi now conn limit "").1.current gr.key =
        some (applyGoogleError now gr)) := by
  refine ⟨checkYelp_halt api now conn limit ypre yr ypost hnd hysel hyok hyrl,
    checkOpentable_halt ot now conn limit opre orr opost hnd hosel hook horl,
    checkTripadvisor_halt ta det now conn limit tpre trr tpost hnd htsel htok htrl,
    ?_⟩
  set glim := orLimit limit GOOGLE_DAILY_LIMIT with hglim
  set G := conn.current.filter (fun x => x.googleStatus == .unchecked) with hG
  obtain ⟨gc, gm⟩ := checkGoogle_run gapi now conn limit hnd
  refine ⟨gc, ?_⟩
  have hkeyg : ∀ z, ((fun row =>
      if (((G.take glim).map Row.key).contains row.key)
      then genTransform (googleAct gapi now) row else row) z).key = z.key := by
    intro z
    dsimp only
    split
    · exact genTransform_key (googleAct_key gapi now) z
    · rfl
  have hgdb : gr ∈ conn.current :=
    List.mem_of_mem_filter (List.mem_of_mem_take hgmem)
  rw [gm, findRow_map_keyed gr.key hkeyg, findRow_self hnd hgdb]
  have hcont : (((G.take glim).map Row.key).contains gr.key) = true := by
    simp only [List.contains_eq_any_beq, List.any_eq_true]
    exact ⟨gr.key, List.mem_map.mpr ⟨gr, hgmem, rfl⟩, by simp⟩
  have htr : (if (((G.take glim).map Row.key).contains gr.key)
      then genTransform (googleAct gapi now) gr else gr) =
      applyGoogleError now gr := by
    rw [if_pos hcont]
    unfold genTransform googleAct
    rw [hgrl]
  rw [Option.map_some', htr]

/-- Ledger rows for the C3 witness and counterexample. -/
def c3grow1 : Row := { key := "a", name := "n1", address := "", borough := "" }

def c3grow2 : Row := { key := "b", name := "n2", address := "", borough := "" }

def c3conn : Conn := ⟨[c3grow1, c3grow2], [c3grow1, c3grow2]⟩

/-- Stubs succeeding on key a and rate-limited on everything else. -/
def c3yapi : String → YelpResp :=
  fun k => if k == "a" then YelpResp.ok [] else YelpResp.rateLimited

def c3ot : String → OTResp :=
  fun k => if k == "a" then OTResp.ok [] else OTResp.rateLimited

def c3ta : String → TAResp :=
  fun k => if k == "a" then TAResp.ok [] else TAResp.rateLimited

def c3det : String → TADetResp := fun _ => TADetResp.non200

/-- A Google stub rate-limited on key a and succeeding elsewhere. -/
def c3gapi : String → GoogleResp :=
  fun k => if k == "a" then GoogleResp.rateLimited else GoogleResp.ok []

/-- **C3 counterexample** to the claim as stated: a Google 429 on the first
selected row does not halt the batch — both rows are checked and the
rate-limited row ends as error, not unchecked. -/
theorem c3_google_rate_limit_continues_counterexample :
    (checkGoogle c3gapi "t" c3conn none "").2 = 2 ∧
    ((checkGoogle c3gapi "t" c3conn none "").1.current.map
      (fun r => r.googleStatus)) = [Status.error, Status.notFound] :=
  ⟨by decide, by decide⟩

/-- Witness instantiating `c3_rate_limit_halts_batch` on the two-row ledger
with a 429 arriving at the second row for Yelp/OpenTable/TripAdvisor and at
the first row for Google. -/
theorem c3_rate_limit_halts_batch_witness :
    (c3conn.current.map Row.key).Nodup ∧
    (c3conn.current.filter (fun x => x.yelpStatus == .unchecked)).take
      (orLimit none YELP_DAILY_LIMIT) = [c3grow1] ++ c3grow2 :: ([] : List Row) ∧
    c3yapi c3grow2.key = .rateLimited ∧
    c3ot c3grow2.key = .rateLimited ∧
    c3ta c3grow2.key = .rateLimited ∧
    c3grow1 ∈ (c3conn.current.filter (fun x => x.googleStatus == .unchecked)).take
      (orLimit none GOOGLE_DAILY_LIMIT) ∧
    c3gapi c3grow1.key = .rateLimited ∧
    (((checkYelp c3yapi "t" c3conn none).2 = [c3grow1].length ∧
      (checkYelp c3yapi "t" c3conn none).1.committed =
        (checkYelp c3yapi "t" c3conn none).1.current ∧
      (∀ x ∈ c3grow2 :: ([] : List Row),
        findRow (checkYelp c3yapi "t" c3conn none).1.current x.key = some x ∧
          x.yelpStatus = .unchecked)) ∧
    ((checkOpentable c3ot "t" c3conn none).2 = [c3grow1].length ∧
      (checkOpentable c3ot "t" c3conn none).1.committed =
        (checkOpentable c3ot "t" c3conn none).1.current ∧
      (∀ x ∈ c3grow2 :: ([] : List Row),
        findRow (checkOpentable c3ot "t" c3conn none).1.current x.key = some x ∧
          x.opentableStatus = .unchecked)) ∧
    ((checkTripadvisor c3ta c3det "t" c3conn none).2 = [c3grow1].length ∧
      (checkTripadvisor c3ta c3det "t" c3conn none).1.committed =
        (checkTripadvisor c3ta c3det "t" c3conn none).1.current ∧
      (∀ x ∈ c3grow2 :: ([] : List Row),
        findRow (checkTripadvisor c3ta c3det "t" c3conn none).1.current x.key = some x ∧
          x.tripadvisorStatus = .unchecked)) ∧
    ((checkGoogle c3gapi "t" c3conn none "").2 =
        min (orLimit none GOOGLE_DAILY_LIMIT)
          (c3conn.current.filter (fun x => x.googleStatus == .unchecked)).length ∧
      findRow (checkGoogle c3gapi "t" c3conn none "").1.current c3grow1.key =
        some (applyGoogleError "t" c3grow1))) :=
  ⟨by decide, by decide, by decide, by decide, by decide, by decide, by decide,
    c3_rate_limit_halts_batch c3yapi c3ot c3ta c3det c3gapi "t" c3conn none
      (by decide) [c3grow1] c3grow2 [] (by decide)
      (by
        intro x hx
        rw [List.mem_singleton] at hx
        subst hx
        exact ⟨[], by decide⟩)
      (by decide) [c3grow1] c3grow2 [] (by decide)
      (by
        intro x hx
        rw [List.mem_singleton] at hx
        subst hx
        exact ⟨[], by decide⟩)
      (by decide) [c3grow1] c3grow2 [] (by decide)
      (by
        intro x hx
        rw [List.mem_singleton] at hx
        subst hx
        exact ⟨[], by decide⟩)
      (by decide) c3grow1 (by decide) (by decide)⟩

/-! ### Membership accounting of merge_cross_source (C1) -/

/-- In a duplicate-free list the elements equal to a present element form
exactly its singleton. -/
lemma nodup_filter_beq_singleton {l : List Nat} {a : Nat}
    (h : l.Nodup) (ha : a ∈ l) : l.filter (fun x => x == a) = [a] := by
  induction l with
  | nil => simp at ha
  | cons b rest ih =>
    simp only [List.nodup_cons] at h
    rcases List.mem_cons.mp ha with heq | hmem
    · subst heq
      rw [List.filter_cons_of_pos (by simp)]
      have hrest : rest.filter (fun x => x == a) = [] := by
        rw [List.filter_eq_nil_iff]
        intro x hx hbad
        exact h.1 ((eq_of_beq hbad) ▸ hx)
      rw [hrest]
    · have hba : (b == a) = false := by
        simp only [beq_eq_false_iff_ne, ne_eq]
        intro hbad
        exact h.1 (hbad ▸ hmem)
      rw [List.filter_cons_of_neg (by simp [hba])]
      exact ih h.2 hmem

/-- A duplicate-free list is a permutation of any duplicate-free sub-id-set
followed by everything outside it. -/
lemma subset_nodup_filter_perm :
    ∀ (c l : List Nat), l.Nodup → c.Nodup → (∀ x ∈ c, x ∈ l) →
      l.Perm (c ++ l.filter (fun x => !(c.contains x))) := by
  intro c
  induction c with
  | nil =>
    intro l hl _ _
    simp only [List.nil_append]
    have : l.filter (fun x => !(([] : List Nat).contains x)) = l := by
      rw [List.filter_eq_self]
      intro x _
      simp
    rw [this]
  | cons a c' ih =>
    intro l hl hc hsub
    simp only [List.nodup_cons] at hc
    have hal : a ∈ l := hsub a (List.mem_cons_self _ _)
    have hstep : l.Perm (a :: l.filter (fun x => !(x == a))) := by
      have hp := List.filter_append_perm (fun x => x == a) l
      have hsingle := nodup_filter_beq_singleton hl hal
      rw [hsingle] at hp
      exact hp.symm
    have hl' : (l.filter (fun x => !(x == a))).Nodup := hl.filter _
    have hsub' : ∀ x ∈ c', x ∈ l.filter (fun x => !(x == a)) := by
      intro x hx
      rw [List.mem_filter]
      refine ⟨hsub x (List.mem_cons_of_mem _ hx), ?_⟩
      simp only [Bool.not_eq_true', beq_eq_false_iff_ne, ne_eq]
      intro hbad
      exact hc.1 (hbad ▸ hx)
    have hrec := ih (l.filter (fun x => !(x == a))) hl' hc.2 hsub'
    have hfix : (l.filter (fun x => !(x == a))).filter
        (fun x => !(c'.contains x)) =
        l.filter (fun x => !((a :: c').contains x)) := by
      rw [List.filter_filter]
      apply List.filter_congr
      intro x _
      simp only [List.contains_cons]
      cases hxa : (x == a) <;> cases hxc : (c'.contains x) <;> rfl
    rw [hfix] at hrec
    exact hstep.trans (hrec.cons a)

/-- Appending into a defaultdict bucket permutes the flattened contents by
appending the new element. -/
lemma assocAppend_flat_perm {α β : Type} [BEq α] :
    ∀ (m : List (α × List β)) (k : α) (v : β),
      ((assocAppend m k v).flatMap (fun p => p.2)).Perm
        ((m.flatMap (fun p => p.2)) ++ [v]) := by
  intro m
  induction m with
  | nil =>
    intro k v
    simp [assocAppend]
  | cons kg rest ih =>
    intro k v
    obtain ⟨k', g⟩ := kg
    simp only [assocAppend]
    by_cases he : (k' == k) = true
    · rw [if_pos he]
      simp only [List.flatMap_cons]
      rw [← Multiset.coe_eq_coe]
      simp only [← Multiset.coe_add]
      abel
    · rw [if_neg he]
      simp only [List.flatMap_cons]
      have h2 := ih k v
      rw [← Multiset.coe_eq_coe] at h2 ⊢
      simp only [← Multiset.coe_add] at h2 ⊢
      rw [h2]
      abel

/-- The buckets of Pass 1 flatten to a permutation of the input. -/
lemma buildBuckets_flat_perm (vs : List Rec) :
    ((buildBuckets vs).flatMap (fun p => p.2)).Perm vs := by
  unfold buildBuckets
  suffices h : ∀ (l : List Rec) (acc : List ((String × String) × List Rec)),
      ((l.foldl (fun bs v => assocAppend bs (bucketKey v) v) acc).flatMap
        (fun p => p.2)).Perm ((acc.flatMap (fun p => p.2)) ++ l) by
    have := h vs []
    simpa using this
  intro l
  induction l with
  | nil => intro acc; simp
  | cons v rest ih =>
    intro acc
    simp only [List.foldl_cons]
    have h1 := ih (assocAppend acc (bucketKey v) v)
    have h2 := assocAppend_flat_perm acc (bucketKey v) v
    rw [← Multiset.coe_eq_coe] at h1 h2 ⊢
    simp only [← Multiset.coe_add] at h1 h2 ⊢
    rw [h1, h2]
    have : (v :: rest : List Rec) = [v] ++ rest := rfl
    rw [this]
    simp only [← Multiset.coe_add]
    abel

/-- Each bucket is a sublist of the flattened buckets. -/
lemma mem_flat_sublist {α β : Type} :
    ∀ (m : List (α × List β)) (b : α × List β), b ∈ m →
      b.2.Sublist (m.flatMap (fun p => p.2)) := by
  intro m
  induction m with
  | nil => intro b hb; simp at hb
  | cons kg rest ih =>
    intro b hb
    simp only [List.flatMap_cons]
    rcases List.mem_cons.mp hb with heq | hmem
    · subst heq
      exact List.sublist_append_left _ _
    · exact (ih b hmem).trans (List.sublist_append_right _ _)

/-- Mapping plain outputs contributes exactly the record ids. -/
lemma flatMap_plain_ids :
    ∀ (l : List Rec), ((l.map Out.plain).flatMap outIds) = l.map Rec.rid := by
  intro l
  induction l with
  | nil => rfl
  | cons r rest ih =>
    simp only [List.map_cons, List.flatMap_cons, ih]
    rfl

/-- In a rid-duplicate-free group the records sharing a present record's id
form exactly its singleton. -/
lemma filter_rid_singleton : ∀ {g : List Rec} {d : Rec},
    (g.map Rec.rid).Nodup → d ∈ g →
    g.filter (fun v => v.rid == d.rid) = [d] := by
  intro g
  induction g with
  | nil => intro d _ hd; simp at hd
  | cons b rest ih =>
    intro d hnd hd
    simp only [List.map_cons, List.nodup_cons] at hnd
    rcases List.mem_cons.mp hd with heq | hmem
    · rw [heq]
      rw [List.filter_cons_of_pos (by simp)]
      have hrest : rest.filter (fun v => v.rid == b.rid) = [] := by
        rw [List.filter_eq_nil_iff]
        intro x hx hbad
        have hx2 : x.rid ∈ rest.map Rec.rid := List.mem_map.mpr ⟨x, hx, rfl⟩
        rw [eq_of_beq hbad] at hx2
        exact hnd.1 hx2
      rw [hrest]
    · have hbd : (b.rid == d.rid) = false := by
        simp only [beq_eq_false_iff_ne, ne_eq]
        intro hbad
        have hd2 : d.rid ∈ rest.map Rec.rid := List.mem_map.mpr ⟨d, hmem, rfl⟩
        rw [← hbad] at hd2
        exact hnd.1 hd2
      rw [List.filter_cons_of_neg (by simp [hbd])]
      exact ih hnd.2 hmem

/-- Removing a present record by id from a rid-duplicate-free group leaves
a permutation complement. -/
lemma perm_cons_filter_rid {g : List Rec} {d : Rec}
    (hnd : (g.map Rec.rid).Nodup) (hd : d ∈ g) :
    g.Perm (d :: g.filter (fun v => !(v.rid == d.rid))) := by
  have hp := List.filter_append_perm (fun v => v.rid == d.rid) g
  rw [filter_rid_singleton hnd hd] at hp
  exact hp.symm

/-- The two-sided removal of a merged pair from its bucket. -/
lemma group_perm_comb {g : List Rec} {d s : Rec}
    (hnd : (g.map Rec.rid).Nodup) (hd : d ∈ g) (hs : s ∈ g)
    (hds : d.rid ≠ s.rid) :
    g.Perm (d :: s ::
      g.filter (fun v => v.rid != d.rid && v.rid != s.rid)) := by
  have h1 := perm_cons_filter_rid hnd hd
  have hg1nd : ((g.filter (fun v => !(v.rid == d.rid))).map Rec.rid).Nodup :=
    List.Nodup.sublist (List.Sublist.map _ (List.filter_sublist _)) hnd
  have hs1 : s ∈ g.filter (fun v => !(v.rid == d.rid)) := by
    rw [List.mem_filter]
    refine ⟨hs, ?_⟩
    simp only [Bool.not_eq_true', beq_eq_false_iff_ne, ne_eq]
    exact fun h => hds h.symm
  have h2 := perm_cons_filter_rid hg1nd hs1
  have hff : (g.filter (fun v => !(v.rid == d.rid))).filter
      (fun v => !(v.rid == s.rid)) =
      g.filter (fun v => v.rid != d.rid && v.rid != s.rid) := by
    rw [List.filter_filter]
    apply List.filter_congr
    intro v _
    cases hvd : (v.rid == d.rid) <;> cases hvs : (v.rid == s.rid) <;>
      simp [bne, hvd, hvs]
  rw [hff] at h2
  exact h1.trans (h2.cons d)

/-- The three-way source partition of a bucket. -/
lemma group_perm_sources (g : List Rec) :
    g.Perm (g.filter (fun v => v.source == "sla") ++
      g.filter (fun v => v.source == "dohmh") ++
      g.filter (fun v => v.source != "sla" && v.source != "dohmh")) := by
  have h1 := (List.filter_append_perm (fun v => v.source == "sla") g).symm
  have h2 := (List.filter_append_perm (fun v => v.source == "dohmh")
    (g.filter (fun v => !(v.source == "sla")))).symm
  have hd : (g.filter (fun v => !(v.source == "sla"))).filter
      (fun v => v.source == "dohmh") =
      g.filter (fun v => v.source == "dohmh") := by
    rw [List.filter_filter]
    have : g.filter (fun v => v.source == "dohmh") =
        g.filter (fun v => v.source == "dohmh" && !(v.source == "sla")) := by
      apply List.filter_congr
      intro v _
      cases hvd : (v.source == "dohmh")
      · rfl
      · have hsrc : v.source = "dohmh" := eq_of_beq hvd
        rw [hsrc]
        decide
    rw [this]
  have ho : (g.filter (fun v => !(v.source == "sla"))).filter
      (fun v => !(v.source == "dohmh")) =
      g.filter (fun v => v.source != "sla" && v.source != "dohmh") := by
    rw [List.filter_filter]
    apply List.filter_congr
    intro v _
    cases hsa : (v.source == "sla") <;> cases hdo : (v.source == "dohmh") <;>
      simp [bne, hsa, hdo]
  rw [hd, ho] at h2
  rw [← Multiset.coe_eq_coe] at h1 h2 ⊢
  simp only [← Multiset.coe_add] at h1 h2 ⊢
  rw [h1, h2]
  abel

/-- One Pass 1 bucket conserves record ids: the ids entering the merged
output and the unmatched side lists are exactly the accumulator's ids plus
the bucket's ids. -/
lemma pass1Step_ids (acc : P1Acc) (group : List Rec)
    (hnd : (group.map Rec.rid).Nodup) :
    (((pass1Step acc group).merged.flatMap outIds) ++
      ((pass1Step acc group).usla.map Rec.rid) ++
      ((pass1Step acc group).udohmh.map Rec.rid)).Perm
      ((acc.merged.flatMap outIds ++ acc.usla.map Rec.rid ++
        acc.udohmh.map Rec.rid) ++ group.map Rec.rid) := by
  unfold pass1Step
  cases hfd : group.find? (fun v => v.source == "dohmh") with
  | some d =>
    cases hfs : group.find? (fun v => v.source == "sla") with
    | some s =>
      have hdmem : d ∈ group := List.mem_of_find?_eq_some hfd
      have hsmem : s ∈ group := List.mem_of_find?_eq_some hfs
      have hdP := List.find?_some hfd
      have hsP := List.find?_some hfs
      have hdsrc : d.source = "dohmh" := eq_of_beq hdP
      have hssrc : s.source = "sla" := eq_of_beq hsP
      have hdnes : d.rid ≠ s.rid := by
        intro hbad
        have : d = s := List.inj_on_of_nodup_map hnd hdmem hsmem hbad
        rw [this, hssrc] at hdsrc
        exact absurd hdsrc (by decide)
      have hgp : group.Perm ([d] ++ [s] ++
          group.filter (fun v => v.rid != d.rid && v.rid != s.rid)) :=
        group_perm_comb hnd hdmem hsmem hdnes
      have hgpm := hgp.map Rec.rid
      simp only
      rw [List.flatMap_append, List.flatMap_append, flatMap_plain_ids]
      have hcomb : ([Out.comb d s].flatMap outIds) = [d.rid] ++ [s.rid] := rfl
      rw [hcomb]
      rw [← Multiset.coe_eq_coe] at hgpm ⊢
      simp only [List.map_append, List.map_singleton, ← Multiset.coe_add] at hgpm ⊢
      rw [hgpm]
      abel
    | none =>
      have hgp := group_perm_sources group
      have hgpm := hgp.map Rec.rid
      simp only
      rw [List.flatMap_append, flatMap_plain_ids, List.map_append, List.map_append]
      rw [← Multiset.coe_eq_coe] at hgpm ⊢
      simp only [List.map_append, ← Multiset.coe_add] at hgpm ⊢
      rw [hgpm]
      abel
  | none =>
    have hgp := group_perm_sources group
    have hgpm := hgp.map Rec.rid
    simp only
    rw [List.flatMap_append, flatMap_plain_ids, List.map_append, List.map_append]
    rw [← Multiset.coe_eq_coe] at hgpm ⊢
    simp only [List.map_append, ← Multiset.coe_add] at hgpm ⊢
    rw [hgpm]
    abel

/-- Pass 1 over a bucket list conserves ids. -/
lemma pass1_fold_ids :
    ∀ (bs : List ((String × String) × List Rec)) (acc : P1Acc),
      (∀ b ∈ bs, (b.2.map Rec.rid).Nodup) →
      (((bs.foldl (fun a b => pass1Step a b.2) acc).merged.flatMap outIds) ++
        ((bs.foldl (fun a b => pass1Step a b.2) acc).usla.map Rec.rid) ++
        ((bs.foldl (fun a b => pass1Step a b.2) acc).udohmh.map Rec.rid)).Perm
        ((acc.merged.flatMap outIds ++ acc.usla.map Rec.rid ++
          acc.udohmh.map Rec.rid) ++
          (bs.flatMap (fun p => p.2)).map Rec.rid) := by
  intro bs
  induction bs with
  | nil =>
    intro acc _
    simp
  | cons b rest ih =>
    intro acc hnd
    simp only [List.foldl_cons, List.flatMap_cons]
    have h1 := ih (pass1Step acc b.2) (fun x hx => hnd x (List.mem_cons_of_mem _ hx))
    have h2 := pass1Step_ids acc b.2 (hnd b (List.mem_cons_self _ _))
    rw [← Multiset.coe_eq_coe] at h1 h2 ⊢
    simp only [List.map_append, ← Multiset.coe_add] at h1 h2 ⊢
    rw [h1, h2]
    abel

/-- pass2Step when the SLA address is not a range. -/
lemma pass2Step_eq_none {idx : List ((String × String) × List (Nat × Rec))}
    {acc : ClaimAcc} {v : Rec} (hp : parseRange v.address = none) :
    pass2Step idx acc v = acc := by
  simp only [pass2Step, hp]

/-- pass2Step when no unclaimed candidate lies in the range. -/
lemma pass2Step_eq_nofind {idx : List ((String × String) × List (Nat × Rec))}
    {acc : ClaimAcc} {v : Rec} {lo hi : Nat} {street : String}
    (hp : parseRange v.address = some (lo, hi, street))
    (hf : (lookupKey idx (street, normalizeBoro v.borough)).find?
        (fun p => lo ≤ p.1 && p.1 ≤ hi && !(acc.claimedDohmh.contains p.2.rid)) =
      none) :
    pass2Step idx acc v = acc := by
  simp only [pass2Step, hp]
  rw [hf]

/-- pass2Step when the first unclaimed in-range candidate is found. -/
lemma pass2Step_eq_found {idx : List ((String × String) × List (Nat × Rec))}
    {acc : ClaimAcc} {v : Rec} {lo hi : Nat} {street : String} {p : Nat × Rec}
    (hp : parseRange v.address = some (lo, hi, street))
    (hf : (lookupKey idx (street, normalizeBoro v.borough)).find?
        (fun p => lo ≤ p.1 && p.1 ≤ hi && !(acc.claimedDohmh.contains p.2.rid)) =
      some p) :
    pass2Step idx acc v =
      { merged := acc.merged ++ [Out.comb p.2 v]
        claimedSla := acc.claimedSla ++ [v.rid]
        claimedDohmh := acc.claimedDohmh ++ [p.2.rid] } := by
  simp only [pass2Step, hp]
  rw [hf]

/-- One Pass 2 record preserves the ledger between merged ids and the two
claimed sets. -/
lemma pass2Step_merge_inv (idx : List ((String × String) × List (Nat × Rec)))
    (acc : ClaimAcc) (v : Rec)
    (h : ((acc.merged.flatMap outIds)).Perm (acc.claimedDohmh ++ acc.claimedSla)) :
    (((pass2Step idx acc v).merged.flatMap outIds)).Perm
      ((pass2Step idx acc v).claimedDohmh ++ (pass2Step idx acc v).claimedSla) := by
  cases hp : parseRange v.address with
  | none => rw [pass2Step_eq_none hp]; exact h
  | some t =>
    obtain ⟨lo, hi, street⟩ := t
    cases hf : (lookupKey idx (street, normalizeBoro v.borough)).find?
        (fun p => lo ≤ p.1 && p.1 ≤ hi && !(acc.claimedDohmh.contains p.2.rid)) with
    | none => rw [pass2Step_eq_nofind hp hf]; exact h
    | some p =>
      rw [pass2Step_eq_found hp hf]
      simp only
      rw [List.flatMap_append]
      have hcomb : ([Out.comb p.2 v].flatMap outIds) = [p.2.rid] ++ [v.rid] := rfl
      rw [hcomb]
      rw [← Multiset.coe_eq_coe] at h ⊢
      simp only [← Multiset.coe_add] at h ⊢
      rw [h]
      abel

/-- One Pass 2 record either claims nothing or claims exactly itself on the
SLA side. -/
lemma pass2Step_claimedSla (idx : List ((String × String) × List (Nat × Rec)))
    (acc : ClaimAcc) (v : Rec) :
    (pass2Step idx acc v).claimedSla = acc.claimedSla ∨
      (pass2Step idx acc v).claimedSla = acc.claimedSla ++ [v.rid] := by
  cases hp : parseRange v.address with
  | none => rw [pass2Step_eq_none hp]; exact Or.inl rfl
  | some t =>
    obtain ⟨lo, hi, street⟩ := t
    cases hf : (lookupKey idx (street, normalizeBoro v.borough)).find?
        (fun p => lo ≤ p.1 && p.1 ≤ hi && !(acc.claimedDohmh.contains p.2.rid)) with
    | none => rw [pass2Step_eq_nofind hp hf]; exact Or.inl rfl
    | some p => rw [pass2Step_eq_found hp hf]; exact Or.inr rfl

/-- One Pass 2 record preserves freshness and provenance of the claimed
DOHMH ids. -/
lemma pass2Step_claimedDohmh (idx : List ((String × String) × List (Nat × Rec)))
    (udohmh : List Rec)
    (hidx : AllB (fun _ p => p.2 ∈ udohmh) idx)
    (acc : ClaimAcc) (v : Rec)
    (hnd : acc.claimedDohmh.Nodup)
    (hsub : ∀ i ∈ acc.claimedDohmh, i ∈ udohmh.map Rec.rid) :
    (pass2Step idx acc v).claimedDohmh.Nodup ∧
      (∀ i ∈ (pass2Step idx acc v).claimedDohmh, i ∈ udohmh.map Rec.rid) := by
  cases hp : parseRange v.address with
  | none => rw [pass2Step_eq_none hp]; exact ⟨hnd, hsub⟩
  | some t =>
    obtain ⟨lo, hi, street⟩ := t
    cases hf : (lookupKey idx (street, normalizeBoro v.borough)).find?
        (fun p => lo ≤ p.1 && p.1 ≤ hi && !(acc.claimedDohmh.contains p.2.rid)) with
    | none => rw [pass2Step_eq_nofind hp hf]; exact ⟨hnd, hsub⟩
    | some p =>
      rw [pass2Step_eq_found hp hf]
      have hpP := List.find?_some hf
      have hfresh : (acc.claimedDohmh.contains p.2.rid) = false := by
        have h3 : (!(acc.claimedDohmh.contains p.2.rid)) = true := by
          simp only [Bool.and_eq_true] at hpP
          exact hpP.2
        simpa using h3
      have hpmem : p ∈ lookupKey idx (street, normalizeBoro v.borough) :=
        List.mem_of_find?_eq_some hf
      obtain ⟨kg, hkg, _, hpin⟩ := lookupKey_mem hpmem
      have hpud : p.2 ∈ udohmh := hidx kg hkg p hpin
      constructor
      · apply List.Nodup.append hnd (List.nodup_singleton _)
        intro a ha hb
        rw [List.mem_singleton] at hb
        subst hb
        have hbad : acc.claimedDohmh.contains p.2.rid = true := by
          simp only [List.contains_eq_any_beq, List.any_eq_true]
          exact ⟨p.2.rid, ha, by simp⟩
        rw [hfresh] at hbad
        exact Bool.noConfusion hbad
      · intro i hi2
        simp only [List.mem_append, List.mem_singleton] at hi2
        rcases hi2 with hi2 | hi2
        · exact hsub i hi2
        · subst hi2
          exact List.mem_map.mpr ⟨p.2, hpud, rfl⟩

/-- The street index holds only unmatched DOHMH records. -/
lemma buildStreetIdx_mem (udohmh : List Rec) :
    AllB (fun _ p => p.2 ∈ udohmh) (buildStreetIdx udohmh) := by
  unfold buildStreetIdx
  suffices h : ∀ (l : List Rec) (acc : List ((String × String) × List (Nat × Rec))),
      (∀ v ∈ l, v ∈ udohmh) →
      AllB (fun _ p => p.2 ∈ udohmh) acc →
      AllB (fun _ p => p.2 ∈ udohmh)
        (l.foldl (fun idx v =>
          match parseSingleNumber (normalizeAddr v.address) with
          | some (num, street) =>
            assocAppend idx (street, normalizeBoro v.borough) (num, v)
          | none => idx) acc) by
    exact h udohmh [] (fun v hv => hv) (fun kg hkg => by simp at hkg)
  intro l
  induction l with
  | nil => intro acc _ hAll; exact hAll
  | cons v rest ih =>
    intro acc hsub hAll
    simp only [List.foldl_cons]
    apply ih _ (fun x hx => hsub x (List.mem_cons_of_mem _ hx))
    cases hp : parseSingleNumber (normalizeAddr v.address) with
    | none => exact hAll
    | some t =>
      obtain ⟨num, street⟩ := t
      exact allB_assocAppend acc _ _ hAll (hsub v (List.mem_cons_self _ _))

/-- Pass 2 as a whole: the merged-id ledger, the SLA claims as an in-order
subset of the scanned records, and the DOHMH claims as fresh ids of indexed
records. -/
lemma pass2_fold_inv (idx : List ((String × String) × List (Nat × Rec)))
    (udohmh : List Rec)
    (hidx : AllB (fun _ p => p.2 ∈ udohmh) idx) :
    ∀ (usla : List Rec) (acc : ClaimAcc),
      ((acc.merged.flatMap outIds).Perm (acc.claimedDohmh ++ acc.claimedSla)) →
      acc.claimedDohmh.Nodup →
      (∀ i ∈ acc.claimedDohmh, i ∈ udohmh.map Rec.rid) →
      (((usla.foldl (pass2Step idx) acc).merged.flatMap outIds).Perm
        ((usla.foldl (pass2Step idx) acc).claimedDohmh ++
          (usla.foldl (pass2Step idx) acc).claimedSla)) ∧
      (∃ c, (usla.foldl (pass2Step idx) acc).claimedSla =
          acc.claimedSla ++ c ∧ c.Sublist (usla.map Rec.rid)) ∧
      (usla.foldl (pass2Step idx) acc).claimedDohmh.Nodup ∧
      (∀ i ∈ (usla.foldl (pass2Step idx) acc).claimedDohmh,
        i ∈ udohmh.map Rec.rid) := by
  intro usla
  induction usla with
  | nil =>
    intro acc h1 h2 h3
    exact ⟨h1, ⟨[], by simp, List.nil_sublist _⟩, h2, h3⟩
  | cons v rest ih =>
    intro acc h1 h2 h3
    simp only [List.foldl_cons]
    obtain ⟨hd1, hd2⟩ := pass2Step_claimedDohmh idx udohmh hidx acc v h2 h3
    obtain ⟨g1, g2, g3, g4⟩ := ih (pass2Step idx acc v)
      (pass2Step_merge_inv idx acc v h1) hd1 hd2
    refine ⟨g1, ?_, g3, g4⟩
    obtain ⟨c, hc1, hc2⟩ := g2
    rcases pass2Step_claimedSla idx acc v with hcs | hcs
    · exact ⟨c, by rw [hc1, hcs], hc2.cons v.rid⟩
    · refine ⟨v.rid :: c, ?_, hc2.cons₂ v.rid⟩
      rw [hc1, hcs]
      simp

/-- pass3Step without truthy coordinates. -/
lemma pass3Step_eq_nocoord {dist : DistFn}
    {grid : List ((Int × Int) × List Rec)} {acc : ClaimAcc} {slaV : Rec}
    (h : (qTruthy slaV.lat && qTruthy slaV.lng) = false) :
    pass3Step dist grid acc slaV = acc := by
  simp [pass3Step, h]

/-- pass3Step when the scan finds no candidate. -/
lemma pass3Step_eq_nonescan {dist : DistFn}
    {grid : List ((Int × Int) × List Rec)} {acc : ClaimAcc} {slaV : Rec}
    (hq : (qTruthy slaV.lat && qTruthy slaV.lng) = true)
    (hs : pass3Scan dist acc.claimedDohmh (slaV.lat.getD 0) (slaV.lng.getD 0)
        (pyNormalize slaV.name)
        (pass3Cands grid (cellOf (slaV.lat.getD 0) (slaV.lng.getD 0))) = none) :
    pass3Step dist grid acc slaV = acc := by
  simp [pass3Step, hq, hs]

/-- pass3Step when the selected candidate is beyond the radius. -/
lemma pass3Step_eq_far {dist : DistFn}
    {grid : List ((Int × Int) × List Rec)} {acc : ClaimAcc} {slaV : Rec}
    {bd : ℚ × Rec}
    (hq : (qTruthy slaV.lat && qTruthy slaV.lng) = true)
    (hs : pass3Scan dist acc.claimedDohmh (slaV.lat.getD 0) (slaV.lng.getD 0)
        (pyNormalize slaV.name)
        (pass3Cands grid (cellOf (slaV.lat.getD 0) (slaV.lng.getD 0))) = some bd)
    (hfar : ¬(bd.1 ≤ GEO_RADIUS_M)) :
    pass3Step dist grid acc slaV = acc := by
  simp [pass3Step, hq, hs, hfar]

/-- pass3Step accepting the selected candidate. -/
lemma pass3Step_eq_merge {dist : DistFn}
    {grid : List ((Int × Int) × List Rec)} {acc : ClaimAcc} {slaV : Rec}
    {bd : ℚ × Rec}
    (hq : (qTruthy slaV.lat && qTruthy slaV.lng) = true)
    (hs : pass3Scan dist acc.claimedDohmh (slaV.lat.getD 0) (slaV.lng.getD 0)
        (pyNormalize slaV.name)
        (pass3Cands grid (cellOf (slaV.lat.getD 0) (slaV.lng.getD 0))) = some bd)
    (hnear : bd.1 ≤ GEO_RADIUS_M) :
    pass3Step dist grid acc slaV =
      { merged := acc.merged ++ [Out.comb bd.2 slaV]
        claimedSla := acc.claimedSla ++ [slaV.rid]
        claimedDohmh := acc.claimedDohmh ++ [bd.2.rid] } := by
  simp [pass3Step, hq, hs, hnear]

/-- A successful Pass 3 scan returns an unclaimed candidate of the scanned
cells. -/
lemma pass3Scan_found {dist : DistFn} {claimed : List Nat} {slat slng : ℚ}
    {nm : String} {cands : List Rec} {bd : ℚ × Rec}
    (hs : pass3Scan dist claimed slat slng nm cands = some bd) :
    bd.2 ∈ cands ∧ claimed.contains bd.2.rid = false := by
  have h := (pass3ScanFold_spec dist claimed slat slng nm _ rfl cands none).1
  rcases h with h | ⟨bm, hmem, hfresh, _, heq⟩
  · have h' : pass3Scan dist claimed slat slng nm cands = none := h
    rw [hs] at h'
    exact Option.noConfusion h'
  · have h' : pass3Scan dist claimed slat slng nm cands =
        some (dist slat slng (bm.lat.getD 0) (bm.lng.getD 0), bm) := heq
    rw [hs] at h'
    have hbd := Option.some.inj h'
    have hbd2 : bd.2 = bm := by rw [hbd]
    rw [hbd2]
    exact ⟨hmem, hfresh⟩

/-- The geo grid holds only still-unmatched DOHMH records. -/
lemma buildGeoGrid_mem (stillDohmh : List Rec) :
    AllB (fun _ v => v ∈ stillDohmh) (buildGeoGrid stillDohmh) := by
  unfold buildGeoGrid
  suffices h : ∀ (l : List Rec) (acc : List ((Int × Int) × List Rec)),
      (∀ v ∈ l, v ∈ stillDohmh) →
      AllB (fun _ v => v ∈ stillDohmh) acc →
      AllB (fun _ v => v ∈ stillDohmh)
        (l.foldl (fun g v =>
          if qTruthy v.lat && qTruthy v.lng then
            assocAppend g (cellOf (v.lat.getD 0) (v.lng.getD 0)) v
          else g) acc) by
    exact h stillDohmh [] (fun v hv => hv) (fun kg hkg => by simp at hkg)
  intro l
  induction l with
  | nil => intro acc _ hAll; exact hAll
  | cons v rest ih =>
    intro acc hsub hAll
    simp only [List.foldl_cons]
    apply ih _ (fun x hx => hsub x (List.mem_cons_of_mem _ hx))
    by_cases hq : (qTruthy v.lat && qTruthy v.lng) = true
    · rw [if_pos hq]
      exact allB_assocAppend acc _ _ hAll (hsub v (List.mem_cons_self _ _))
    · rw [if_neg hq]
      exact hAll

/-- A Pass 3 candidate always comes from the grid. -/
lemma pass3Cands_mem {grid : List ((Int × Int) × List Rec)}
    {stillDohmh : List Rec}
    (hgrid : AllB (fun _ v => v ∈ stillDohmh) grid)
    {cell : Int × Int} {c : Rec} (hc : c ∈ pass3Cands grid cell) :
    c ∈ stillDohmh := by
  unfold pass3Cands at hc
  rw [List.mem_flatMap] at hc
  obtain ⟨d, _, hcc⟩ := hc
  obtain ⟨kg, hkg, _, hcin⟩ := lookupKey_mem hcc
  exact hgrid kg hkg c hcin

/-- Pass 3 as a whole: the merged-id ledger, the SLA claims as an in-order
subset of the scanned records, and the DOHMH claims as fresh ids of gridded
records. -/
lemma pass3_fold_inv (dist : DistFn) (grid : List ((Int × Int) × List Rec))
    (stillDohmh : List Rec)
    (hgrid : AllB (fun _ v => v ∈ stillDohmh) grid) :
    ∀ (sla : List Rec) (acc : ClaimAcc),
      ((acc.merged.flatMap outIds).Perm (acc.claimedDohmh ++ acc.claimedSla)) →
      acc.claimedDohmh.Nodup →
      (∀ i ∈ acc.claimedDohmh, i ∈ stillDohmh.map Rec.rid) →
      (((sla.foldl (pass3Step dist grid) acc).merged.flatMap outIds).Perm
        ((sla.foldl (pass3Step dist grid) acc).claimedDohmh ++
          (sla.foldl (pass3Step dist grid) acc).claimedSla)) ∧
      (∃ c, (sla.foldl (pass3Step dist grid) acc).claimedSla =
          acc.claimedSla ++ c ∧ c.Sublist (sla.map Rec.rid)) ∧
      (sla.foldl (pass3Step dist grid) acc).claimedDohmh.Nodup ∧
      (∀ i ∈ (sla.foldl (pass3Step dist grid) acc).claimedDohmh,
        i ∈ stillDohmh.map Rec.rid) := by
  intro sla
  induction sla with
  | nil =>
    intro acc h1 h2 h3
    exact ⟨h1, ⟨[], by simp, List.nil_sublist _⟩, h2, h3⟩
  | cons v rest ih =>
    intro acc h1 h2 h3
    simp only [List.foldl_cons]
    have hstep : ((pass3Step dist grid acc v).merged.flatMap outIds).Perm
        ((pass3Step dist grid acc v).claimedDohmh ++
          (pass3Step dist grid acc v).claimedSla) ∧
        ((pass3Step dist grid acc v).claimedSla = acc.claimedSla ∨
          (pass3Step dist grid acc v).claimedSla = acc.claimedSla ++ [v.rid]) ∧
        (pass3Step dist grid acc v).claimedDohmh.Nodup ∧
        (∀ i ∈ (pass3Step dist grid acc v).claimedDohmh,
          i ∈ stillDohmh.map Rec.rid) := by
      by_cases hq : (qTruthy v.lat && qTruthy v.lng) = true
      · cases hs : pass3Scan dist acc.claimedDohmh (v.lat.getD 0) (v.lng.getD 0)
            (pyNormalize v.name)
            (pass3Cands grid (cellOf (v.lat.getD 0) (v.lng.getD 0))) with
        | none =>
          rw [pass3Step_eq_nonescan hq hs]
          exact ⟨h1, Or.inl rfl, h2, h3⟩
        | some bd =>
          by_cases hnear : bd.1 ≤ GEO_RADIUS_M
          · rw [pass3Step_eq_merge hq hs hnear]
            obtain ⟨hmem, hfresh⟩ := pass3Scan_found hs
            have hbddm : bd.2 ∈ stillDohmh := pass3Cands_mem hgrid hmem
            refine ⟨?_, Or.inr rfl, ?_, ?_⟩
            · simp only
              rw [List.flatMap_append]
              have hcomb : ([Out.comb bd.2 v].flatMap outIds) =
                  [bd.2.rid] ++ [v.rid] := rfl
              rw [hcomb]
              rw [← Multiset.coe_eq_coe] at h1 ⊢
              simp only [← Multiset.coe_add] at h1 ⊢
              rw [h1]
              abel
            · apply List.Nodup.append h2 (List.nodup_singleton _)
              intro a ha hb
              rw [List.mem_singleton] at hb
              subst hb
              have hbad : acc.claimedDohmh.contains bd.2.rid = true := by
                simp only [List.contains_eq_any_beq, List.any_eq_true]
                exact ⟨bd.2.rid, ha, by simp⟩
              rw [hfresh] at hbad
              exact Bool.noConfusion hbad
            · intro i hi2
              simp only [List.mem_append, List.mem_singleton] at hi2
              rcases hi2 with hi2 | hi2
              · exact h3 i hi2
              · subst hi2
                exact List.mem_map.mpr ⟨bd.2, hbddm, rfl⟩
          · rw [pass3Step_eq_far hq hs hnear]
            exact ⟨h1, Or.inl rfl, h2, h3⟩
      · have hq' : (qTruthy v.lat && qTruthy v.lng) = false := by simpa using hq
        rw [pass3Step_eq_nocoord hq']
        exact ⟨h1, Or.inl rfl, h2, h3⟩
    obtain ⟨s1, s2, s3, s4⟩ := hstep
    obtain ⟨g1, g2, g3, g4⟩ := ih (pass3Step dist grid acc v) s1 s3 s4
    refine ⟨g1, ?_, g3, g4⟩
    obtain ⟨c, hc1, hc2⟩ := g2
    rcases s2 with hcs | hcs
    · exact ⟨c, by rw [hc1, hcs], hc2.cons v.rid⟩
    · refine ⟨v.rid :: c, ?_, hc2.cons₂ v.rid⟩
      rw [hc1, hcs]
      simp

/-- **C1**: merge_cross_source accounts for every input record exactly
once: the ids carried by the output entries (one id for a standalone
record, the two constituent ids for a combined record) are a permutation
of the input ids. -/
theorem c1_every_record_exactly_once (dist : DistFn) (vs : List Rec)
    (hnd : (vs.map Rec.rid).Nodup) :
    (((mergeCrossSource dist vs).1).flatMap outIds).Perm (vs.map Rec.rid) := by
  set buckets := buildBuckets vs with hbuckets
  set p1 := pass1Run buckets with hp1
  set idx := buildStreetIdx p1.udohmh with hidx0
  set p2 := pass2Run idx p1.usla with hp2
  set stillSla := p1.usla.filter (fun v => !(p2.claimedSla.contains v.rid)) with hssla
  set stillDohmh := p1.udohmh.filter (fun v => !(p2.claimedDohmh.contains v.rid)) with hsd
  set grid := buildGeoGrid stillDohmh with hgrid0
  set p3 := pass3Run dist grid stillSla with hp3
  set finalSla := stillSla.filter (fun v => !(p3.claimedSla.contains v.rid)) with hfs
  set finalDohmh := stillDohmh.filter (fun v => !(p3.claimedDohmh.contains v.rid)) with hfd
  have hout : (mergeCrossSource dist vs).1 =
      p1.merged ++ p2.merged ++ p3.merged ++
        finalSla.map Out.plain ++ finalDohmh.map Out.plain := rfl
  have hflat : ((buckets.flatMap (fun p => p.2))).Perm vs := by
    rw [hbuckets]
    exact buildBuckets_flat_perm vs
  have hflatm := hflat.map Rec.rid
  have hfnd : ((buckets.flatMap (fun p => p.2)).map Rec.rid).Nodup :=
    (hflatm.nodup_iff).mpr hnd
  have hbnd : ∀ b ∈ buckets, (b.2.map Rec.rid).Nodup := fun b hb =>
    List.Nodup.sublist (List.Sublist.map Rec.rid (mem_flat_sublist buckets b hb)) hfnd
  have h1 := pass1_fold_ids buckets ⟨[], [], [], 0⟩ hbnd
  simp only [List.flatMap_nil, List.map_nil, List.nil_append] at h1
  have hp1perm : ((p1.merged.flatMap outIds) ++ p1.usla.map Rec.rid ++
      p1.udohmh.map Rec.rid).Perm (vs.map Rec.rid) := h1.trans hflatm
  have htriplend : ((p1.merged.flatMap outIds) ++ p1.usla.map Rec.rid ++
      p1.udohmh.map Rec.rid).Nodup := (hp1perm.nodup_iff).mpr hnd
  have huslaNd : (p1.usla.map Rec.rid).Nodup := by
    apply List.Nodup.sublist _ htriplend
    exact ((List.sublist_append_right _ _).trans (List.sublist_append_left _ _))
  have hudNd : (p1.udohmh.map Rec.rid).Nodup := by
    apply List.Nodup.sublist _ htriplend
    exact List.sublist_append_right _ _
  have hidxmem : AllB (fun _ p => p.2 ∈ p1.udohmh) idx := by
    rw [hidx0]
    exact buildStreetIdx_mem p1.udohmh
  obtain ⟨h2m, h2cs, h2nd, h2sub⟩ := pass2_fold_inv idx p1.udohmh hidxmem
    p1.usla ⟨[], [], []⟩ (List.Perm.refl _) List.nodup_nil (by intro i hi; simp at hi)
  obtain ⟨c2, hc2eq, hc2sub⟩ := h2cs
  simp only [List.nil_append] at hc2eq
  have hcs2_sl : p2.claimedSla.Sublist (p1.usla.map Rec.rid) := by
    rw [hp2]
    show (p1.usla.foldl (pass2Step idx) ⟨[], [], []⟩).claimedSla.Sublist _
    rw [hc2eq]
    exact hc2sub
  have husla_split : (p1.usla.map Rec.rid).Perm
      (p2.claimedSla ++ stillSla.map Rec.rid) := by
    have hperm := subset_nodup_filter_perm p2.claimedSla (p1.usla.map Rec.rid)
      huslaNd (List.Nodup.sublist hcs2_sl huslaNd) (fun x hx => hcs2_sl.subset hx)
    have hfm : stillSla.map Rec.rid =
        (p1.usla.map Rec.rid).filter (fun x => !(p2.claimedSla.contains x)) := by
      rw [hssla]
      rw [List.filter_map]
      rfl
    rw [hfm]
    exact hperm
  have hud_split : (p1.udohmh.map Rec.rid).Perm
      (p2.claimedDohmh ++ stillDohmh.map Rec.rid) := by
    have hperm := subset_nodup_filter_perm p2.claimedDohmh (p1.udohmh.map Rec.rid)
      hudNd h2nd h2sub
    have hfm : stillDohmh.map Rec.rid =
        (p1.udohmh.map Rec.rid).filter (fun x => !(p2.claimedDohmh.contains x)) := by
      rw [hsd]
      rw [List.filter_map]
      rfl
    rw [hfm]
    exact hperm
  have hstillSlaNd : (stillSla.map Rec.rid).Nodup := by
    rw [hssla]
    exact List.Nodup.sublist (List.Sublist.map Rec.rid (List.filter_sublist _)) huslaNd
  have hstillDNd : (stillDohmh.map Rec.rid).Nodup := by
    rw [hsd]
    exact List.Nodup.sublist (List.Sublist.map Rec.rid (List.filter_sublist _)) hudNd
  have hgridmem : AllB (fun _ v => v ∈ stillDohmh) grid := by
    rw [hgrid0]
    exact buildGeoGrid_mem stillDohmh
  obtain ⟨h3m, h3cs, h3nd, h3sub⟩ := pass3_fold_inv dist grid stillDohmh hgridmem
    stillSla ⟨[], [], []⟩ (List.Perm.refl _) List.nodup_nil (by intro i hi; simp at hi)
  obtain ⟨c3, hc3eq, hc3sub⟩ := h3cs
  simp only [List.nil_append] at hc3eq
  have hcs3_sl : p3.claimedSla.Sublist (stillSla.map Rec.rid) := by
    rw [hp3]
    show (stillSla.foldl (pass3Step dist grid) ⟨[], [], []⟩).claimedSla.Sublist _
    rw [hc3eq]
    exact hc3sub
  have hssla_split : (stillSla.map Rec.rid).Perm
      (p3.claimedSla ++ finalSla.map Rec.rid) := by
    have hperm := subset_nodup_filter_perm p3.claimedSla (stillSla.map Rec.rid)
      hstillSlaNd (List.Nodup.sublist hcs3_sl hstillSlaNd)
      (fun x hx => hcs3_sl.subset hx)
    have hfm : finalSla.map Rec.rid =
        (stillSla.map Rec.rid).filter (fun x => !(p3.claimedSla.contains x)) := by
      rw [hfs]
      rw [List.filter_map]
      rfl
    rw [hfm]
    exact hperm
  have hsd_split : (stillDohmh.map Rec.rid).Perm
      (p3.claimedDohmh ++ finalDohmh.map Rec.rid) := by
    have hperm := subset_nodup_filter_perm p3.claimedDohmh (stillDohmh.map Rec.rid)
      hstillDNd h3nd h3sub
    have hfm : finalDohmh.map Rec.rid =
        (stillDohmh.map Rec.rid).filter (fun x => !(p3.claimedDohmh.contains x)) := by
      rw [hfd]
      rw [List.filter_map]
      rfl
    rw [hfm]
    exact hperm
  have h2m' : ((p2.merged.flatMap outIds)).Perm (p2.claimedDohmh ++ p2.claimedSla) := h2m
  have h3m' : ((p3.merged.flatMap outIds)).Perm (p3.claimedDohmh ++ p3.claimedSla) := h3m
  rw [hout]
  rw [List.flatMap_append, List.flatMap_append, List.flatMap_append,
    List.flatMap_append, flatMap_plain_ids, flatMap_plain_ids]
  rw [← Multiset.coe_eq_coe] at hp1perm husla_split hud_split h2m' hssla_split hsd_split h3m' ⊢
  simp only [← Multiset.coe_add] at hp1perm husla_split hud_split h2m' hssla_split hsd_split h3m' ⊢
  rw [← hp1perm, husla_split, hud_split, h2m', hssla_split, hsd_split, h3m']
  abel

/-- A small mixed-source input for the C1 witness. -/
def c1vs : List Rec :=
  [{ rid := 1, source := "dohmh", name := "cafe", address := "10 MAIN ST",
     borough := "Manhattan" },
   { rid := 2, source := "sla", name := "cafe", address := "10 MAIN ST",
     borough := "Manhattan" },
   { rid := 3, source := "sla", name := "bar", address := "" }]

/-- A concrete distance stub for the C1 witness. -/
def c1dist : DistFn := fun _ _ _ _ => 0

/-- Witness instantiating `c1_every_record_exactly_once` on a three-record
input with distinct ids. -/
theorem c1_every_record_exactly_once_witness :
    (c1vs.map Rec.rid).Nodup ∧
      (((mergeCrossSource c1dist c1vs).1).flatMap outIds).Perm
        (c1vs.map Rec.rid) :=
  ⟨by decide, c1_every_record_exactly_once c1dist c1vs (by decide)⟩

end NYCEats
